import Mathlib

/-!
# Service registry, discovery client and circuit breaker

A shallow embedding of the in-memory Eureka-style registry of
`src/service registory/service-registry/server.js`: the `services` map, the request
handlers that read or change it (register, renew, list, list all, deregister) and the
periodic cleanup run; of the discovery client of
`src/service registory/shared/service-discovery.js` (`discoverService`,
`getServiceInstance`); and of the breaker-protected client of
`src/circuit breaker pattren/services/order-service/clients/ServiceClient.js`.

Conventions of the embedding.

* Times are the integers returned by `Date.now()` (milliseconds).  Every handler that
  reads the clock receives the reading as an argument; `new Date().toISOString()` is
  received as the string it returns.
* `String.prototype.toUpperCase` is a parameter `toUpperCase : String → String` of every
  handler: nothing proved here depends on what it computes.
* JSON values that reach the handlers are modelled by `JsVal` (the primitive values,
  numbers being integers) and `PortField` (a primitive or an object with the fields `$`
  and `@enabled`).  On primitives `===` is equality of values.  Bodies whose
  `instanceId`, `hostName`, `status` or URL properties are objects or arrays are outside
  the model; the clients of the repository send strings and numbers.
* The states the registry can be in are `run toUpperCase ops []`: the empty map followed
  by any sequence of register, renew, deregister and cleanup operations.
* A JavaScript `Map` is an association list in insertion order; `mapHas`, `mapGet`,
  `mapSet` and `mapDelete` are `Map.prototype.has/get/set/delete`.
-/

namespace Registry

/-! ## JavaScript numbers

A JavaScript number is an IEEE double.  A finite double is given here by its rational
value, and an arithmetic operation gives the double nearest to the exact result, ties to
the even significand, with the subnormal numbers below `2 ^ (-1022)` and an infinity from
`2 ^ 1024` on.  The two zeros are not told apart: no operation used here does so. -/

/-- The number of binary digits of `n`; the first argument bounds the number of steps. -/
def bitLength : Nat → Nat → Nat
  | 0, _ => 0
  | fuel + 1, n => if n = 0 then 0 else bitLength fuel (n / 2) + 1

/-- The integer `e` with `2 ^ e <= |r| < 2 ^ (e + 1)`, for a rational `r` other than 0. -/
def log2Floor (r : ℚ) : ℤ :=
  if (2 : ℚ) ^ ((bitLength r.num.natAbs r.num.natAbs : ℤ) - (bitLength r.den r.den : ℤ)) ≤ |r|
  then (bitLength r.num.natAbs r.num.natAbs : ℤ) - (bitLength r.den r.den : ℤ)
  else (bitLength r.num.natAbs r.num.natAbs : ℤ) - (bitLength r.den r.den : ℤ) - 1

/-- The integer nearest to `x`, the even one of the two when `x` is halfway. -/
def roundHalfEven (x : ℚ) : ℤ :=
  if x - ⌊x⌋ < 1 / 2 then ⌊x⌋
  else if 1 / 2 < x - ⌊x⌋ then ⌊x⌋ + 1
  else if ⌊x⌋ % 2 = 0 then ⌊x⌋ else ⌊x⌋ + 1

/-- The exponent of the unit in the last place of the doubles around `r`: 53 binary
digits, and `2 ^ (-1074)` for the subnormal numbers. -/
def ulpExponent (r : ℚ) : ℤ := max (log2Floor r - 52) (-1074)

/-- The double nearest to `r`, ties to the even significand, without the upper bound of
the exponent. -/
def roundDouble (r : ℚ) : ℚ :=
  roundHalfEven (r / (2 : ℚ) ^ ulpExponent r) * (2 : ℚ) ^ ulpExponent r

/-- A JavaScript number: a finite double, given by its value (0 for both zeros),
`Infinity`, `-Infinity` or `NaN`. -/
inductive Num where
  | fin (value : ℚ)
  | posInf
  | negInf
  | nan
  deriving DecidableEq, Repr

instance (n : Nat) : OfNat Num n := ⟨.fin n⟩

/-- The result of an operation of which the exact value is `r`: the nearest double, or an
infinity when that is out of range. -/
def Num.ofRat (r : ℚ) : Num :=
  if (2 : ℚ) ^ 1024 ≤ roundDouble r then .posInf
  else if roundDouble r ≤ -(2 : ℚ) ^ 1024 then .negInf
  else .fin (roundDouble r)

/-- The value of `-a`. -/
def Num.neg : Num → Num
  | .fin a => .fin (-a)
  | .posInf => .negInf
  | .negInf => .posInf
  | .nan => .nan

/-- The value of `a + b`. -/
def Num.add : Num → Num → Num
  | .fin a, .fin b => Num.ofRat (a + b)
  | .nan, _ => .nan
  | _, .nan => .nan
  | .posInf, .negInf => .nan
  | .negInf, .posInf => .nan
  | .posInf, _ => .posInf
  | _, .posInf => .posInf
  | .negInf, _ => .negInf
  | _, .negInf => .negInf

/-- The value of `a - b`. -/
def Num.sub (a b : Num) : Num := Num.add a (Num.neg b)

/-- The value of `a * b`. -/
def Num.mul : Num → Num → Num
  | .fin a, .fin b => Num.ofRat (a * b)
  | .nan, _ => .nan
  | _, .nan => .nan
  | .fin a, .posInf => if a = 0 then .nan else if 0 < a then .posInf else .negInf
  | .fin a, .negInf => if a = 0 then .nan else if 0 < a then .negInf else .posInf
  | .posInf, .fin b => if b = 0 then .nan else if 0 < b then .posInf else .negInf
  | .negInf, .fin b => if b = 0 then .nan else if 0 < b then .negInf else .posInf
  | .posInf, .posInf => .posInf
  | .negInf, .negInf => .posInf
  | .posInf, .negInf => .negInf
  | .negInf, .posInf => .negInf

/-- The value of `a < b`. -/
def Num.lt : Num → Num → Bool
  | .fin a, .fin b => decide (a < b)
  | .fin _, .posInf => true
  | .negInf, .fin _ => true
  | .negInf, .posInf => true
  | _, _ => false

/-- The value of `a <= b`. -/
def Num.le : Num → Num → Bool
  | .fin a, .fin b => decide (a ≤ b)
  | .fin _, .posInf => true
  | .negInf, .fin _ => true
  | .negInf, .posInf => true
  | .posInf, .posInf => true
  | .negInf, .negInf => true
  | _, _ => false

/-- JavaScript truthiness of a number: 0 and `NaN` are falsy. -/
def Num.truthy : Num → Bool
  | .fin a => decide (a ≠ 0)
  | .nan => false
  | _ => true

instance : Add Num := ⟨Num.add⟩

instance : Sub Num := ⟨Num.sub⟩

instance : Mul Num := ⟨Num.mul⟩

instance : LT Num := ⟨fun a b => Num.lt a b = true⟩

instance : LE Num := ⟨fun a b => Num.le a b = true⟩

instance (a b : Num) : Decidable (a < b) := inferInstanceAs (Decidable (Num.lt a b = true))

instance (a b : Num) : Decidable (a ≤ b) := inferInstanceAs (Decidable (Num.le a b = true))

/-- The digits of `s` without the zeros at its end. -/
def stripZeros (s : String) : String :=
  String.mk (s.data.reverse.dropWhile (fun c => c = '0')).reverse

/-- The integer with the fewest significant decimal digits of which the nearest double is
the double `x`, an integer of at least 16 digits; of two such integers with the same
number of digits the nearer one, and the even one when they are equally near. -/
def shortestInteger (x : Nat) : Nat :=
  ((List.range 17).findSome? (fun i =>
    if (toString x).length ≤ i + 1 then some x
    else
      let p := 10 ^ ((toString x).length - (i + 1))
      let lo := x / p * p
      let hi := lo + p
      if roundDouble lo = x then
        if roundDouble hi = x then
          if x - lo < hi - x then some lo
          else if hi - x < x - lo then some hi
          else if (x / p) % 2 = 0 then some lo else some hi
        else some lo
      else if roundDouble hi = x then some hi
      else none)).getD x

/-- The string of the number with the integer value `n`, as `Number.prototype.toString`
and template literals give it: the decimal digits when `n` is in the range of the safe
integers; otherwise the shortest digits that give back the double nearest to `n`, filled
up with zeros below `10 ^ 21` and in exponent form from there on. -/
def integerToString (n : Int) : String :=
  if n.natAbs < 2 ^ 53 then toString n
  else if (2 : ℚ) ^ 1024 ≤ roundDouble n.natAbs then
    (if n < 0 then "-Infinity" else "Infinity")
  else
    let digits := toString (shortestInteger (roundDouble n.natAbs).num.natAbs)
    let sig := stripZeros digits
    (if n < 0 then "-" else "") ++
      (if digits.length ≤ 21 then digits
       else String.mk (sig.data.take 1) ++
         (if sig.length > 1 then "." ++ String.mk (sig.data.drop 1) else "") ++
         "e+" ++ toString (digits.length - 1))

/-! ## JavaScript values -/

/-- Primitive JavaScript values, as they come out of a parsed JSON body (`undefined`
stands for a missing property). -/
inductive JsVal where
  | undefined
  | null
  | bool (b : Bool)
  | num (n : Int)
  | str (s : String)
  deriving DecidableEq, Repr

/-- JavaScript truthiness (`!!v`) of a primitive value. -/
def JsVal.truthy : JsVal → Bool
  | .undefined => false
  | .null => false
  | .bool b => b
  | .num n => n != 0
  | .str s => s != ""

/-- The value of `a || b`. -/
def JsVal.or (a b : JsVal) : JsVal := if a.truthy then a else b

/-- String conversion used by template literals. -/
def JsVal.toStr : JsVal → String
  | .undefined => "undefined"
  | .null => "null"
  | .bool true => "true"
  | .bool false => "false"
  | .num n => integerToString n
  | .str s => s

/-- The `port` property of a request body: a primitive value, or an object of which the
fields `$` and `@enabled` are kept. -/
inductive PortField where
  | prim (v : JsVal)
  | obj (dollar : JsVal) (enabled : JsVal)
  deriving DecidableEq, Repr

/-- Truthiness of `instance.port`: an object is always truthy. -/
def PortField.truthy : PortField → Bool
  | .prim v => v.truthy
  | .obj _ _ => true

/-- The test `typeof instance.port === 'object'` (`null` is of type object too). -/
def PortField.isObject : PortField → Bool
  | .prim .null => true
  | .prim _ => false
  | .obj _ _ => true

/-- The property `instance.port.$` (it is `undefined` on a primitive). -/
def PortField.dollar : PortField → JsVal
  | .prim _ => .undefined
  | .obj d _ => d

/-! ## Data model -/

/-- The stored `leaseInfo` object. -/
structure LeaseInfo where
  renewalIntervalInSecs : Int
  durationInSecs : Int
  lastRenewalTimestamp : Int
  deriving DecidableEq, Repr

/-- The record `serviceInstance` stored in the registry. -/
structure ServiceInstance where
  instanceId : JsVal
  hostName : JsVal
  port : PortField
  status : JsVal
  healthCheckUrl : JsVal
  statusPageUrl : JsVal
  homePageUrl : JsVal
  lastUpdated : String
  leaseInfo : LeaseInfo
  deriving DecidableEq, Repr

/-- The object `req.body.instance` of a registration request. -/
structure InstanceBody where
  instanceId : JsVal
  hostName : JsVal
  port : PortField
  status : JsVal
  healthCheckUrl : JsVal
  statusPageUrl : JsVal
  homePageUrl : JsVal
  deriving DecidableEq, Repr

/-- The `services` map: service key to the array of its instances, in insertion order. -/
abbrev Services := List (String × List ServiceInstance)

/-- One element of `applications.application` in the answer of GET /eureka/v2/apps:
the object with the properties `name` and `instance`. -/
structure Application where
  name : String
  instances : List ServiceInstance
  deriving DecidableEq, Repr

/-- What a handler sends back as the body of its answer. -/
inductive Body where
  | empty
  | error (msg : String)
  | message (msg : String)
  | record (inst : ServiceInstance)
  | application (name : String) (instances : List ServiceInstance)
  | applications (application : List Application)
  deriving DecidableEq, Repr

/-- An HTTP answer: status code and body. -/
structure Response where
  status : Nat
  body : Body
  deriving DecidableEq, Repr

/-! ## Map operations -/

/-- The method `Map.prototype.has`. -/
def mapHas (k : String) : Services → Bool
  | [] => false
  | (k', _) :: rest => if k' = k then true else mapHas k rest

/-- The method `Map.prototype.get` (`none` for `undefined`). -/
def mapGet (k : String) : Services → Option (List ServiceInstance)
  | [] => none
  | (k', v) :: rest => if k' = k then some v else mapGet k rest

/-- The method `Map.prototype.set`: an existing key keeps its place, a new key goes last. -/
def mapSet (k : String) (v : List ServiceInstance) : Services → Services
  | [] => [(k, v)]
  | (k', v') :: rest => if k' = k then (k, v) :: rest else (k', v') :: mapSet k v rest

/-- The method `Map.prototype.delete`. -/
def mapDelete (k : String) (m : Services) : Services :=
  m.filter (fun e => decide (e.1 ≠ k))

/-- A list is a `Map` when no key occurs twice. -/
def IsMap (m : Services) : Prop := (m.map Prod.fst).Nodup

instance (m : Services) : Decidable (IsMap m) := by
  unfold IsMap; infer_instance

/-! ## Handlers -/

/-- The method `Array.prototype.findIndex` (`none` for the answer `-1`). -/
def findIndex (p : ServiceInstance → Bool) : List ServiceInstance → Option Nat
  | [] => none
  | x :: xs => if p x then some 0 else (findIndex p xs).map (· + 1)

/-- The value of `instance.port` when it is not an object. -/
def PortField.value : PortField → JsVal
  | .prim v => v
  | .obj _ _ => .undefined

/-- The record built by the registration handler from an accepted body. -/
def serviceInstance (b : InstanceBody) (iso : String) (now : Int) : ServiceInstance :=
  let port : JsVal := if b.port.isObject then b.port.dollar else b.port.value
  let portObj : PortField := if b.port.isObject then b.port
    else .obj b.port.value (.str "true")
  { instanceId := b.instanceId
    hostName := b.hostName
    port := portObj
    status := b.status.or (.str "UP")
    healthCheckUrl := b.healthCheckUrl.or
      (.str ("http://" ++ b.hostName.toStr ++ ":" ++ port.toStr ++ "/health"))
    statusPageUrl := b.statusPageUrl.or
      (.str ("http://" ++ b.hostName.toStr ++ ":" ++ port.toStr ++ "/info"))
    homePageUrl := b.homePageUrl.or
      (.str ("http://" ++ b.hostName.toStr ++ ":" ++ port.toStr ++ "/"))
    lastUpdated := iso
    leaseInfo :=
      { renewalIntervalInSecs := 30
        durationInSecs := 90
        lastRenewalTimestamp := now } }

/-- POST /eureka/v2/apps/:appName.  The body is `none` when `req.body.instance` is
missing or falsy; the answer 400 is given unless `instance.instanceId`,
`instance.hostName` and `instance.port` are all truthy. -/
def register (toUpperCase : String → String) (appName : String)
    (body : Option InstanceBody) (iso : String) (now : Int) (services : Services) :
    Response × Services :=
  match body with
  | none => (⟨400, .error "Invalid service instance data"⟩, services)
  | some b =>
    if !(b.instanceId.truthy && b.hostName.truthy && b.port.truthy) then
      (⟨400, .error "Invalid service instance data"⟩, services)
    else
      let serviceKey := toUpperCase appName
      let services1 := if mapHas serviceKey services then services
        else mapSet serviceKey [] services
      let existingInstances := (mapGet serviceKey services1).getD []
      let instanceIndex := findIndex (fun inst => inst.instanceId = b.instanceId)
        existingInstances
      let inst := serviceInstance b iso now
      let existingInstances1 := match instanceIndex with
        | some i => existingInstances.set i inst
        | none => existingInstances ++ [inst]
      (⟨204, .empty⟩, mapSet serviceKey existingInstances1 services1)

/-- The effect on an array of mutating the object that `Array.prototype.find` returns:
the first element satisfying `p` is replaced by its image under `f`. -/
def mutateFirst (p : ServiceInstance → Bool) (f : ServiceInstance → ServiceInstance) :
    List ServiceInstance → List ServiceInstance
  | [] => []
  | x :: xs => if p x then f x :: xs else x :: mutateFirst p f xs

/-- The two assignments of the renewal handler on the record found. -/
def bump (iso : String) (now : Int) (inst : ServiceInstance) : ServiceInstance :=
  { inst with
    leaseInfo := { inst.leaseInfo with lastRenewalTimestamp := now }
    lastUpdated := iso }

/-- PUT /eureka/v2/apps/:appName/:instanceId.  The record found is mutated in place, so
the array stored under the key changes at the position of that record only. -/
def renew (toUpperCase : String → String) (appName instanceId : String)
    (iso : String) (now : Int) (services : Services) : Response × Services :=
  let serviceKey := toUpperCase appName
  if mapHas serviceKey services then
    let instances := (mapGet serviceKey services).getD []
    match instances.find? (fun inst => inst.instanceId = .str instanceId) with
    | some inst =>
      (⟨200, .record (bump iso now inst)⟩,
        mapSet serviceKey
          (mutateFirst (fun inst => inst.instanceId = .str instanceId) (bump iso now)
            instances) services)
    | none => (⟨404, .error "Service instance not found"⟩, services)
  else (⟨404, .error "Service instance not found"⟩, services)

/-- GET /eureka/v2/apps/:appName.  The handler does not read the clock. -/
def listInstances (toUpperCase : String → String) (appName : String)
    (services : Services) : Response :=
  let serviceKey := toUpperCase appName
  if mapHas serviceKey services then
    let instances := (mapGet serviceKey services).getD []
    ⟨200, .application serviceKey (instances.filter (fun inst => inst.status = .str "UP"))⟩
  else ⟨404, .error "Application not found"⟩

/-- DELETE /eureka/v2/apps/:appName/:instanceId. -/
def deregister (toUpperCase : String → String) (appName instanceId : String)
    (services : Services) : Response × Services :=
  let serviceKey := toUpperCase appName
  if mapHas serviceKey services then
    let instances := (mapGet serviceKey services).getD []
    let filtered := instances.filter (fun inst => inst.instanceId ≠ .str instanceId)
    if filtered.length = 0 then
      (⟨200, .message "Service deregistered"⟩, mapDelete serviceKey services)
    else
      (⟨200, .message "Service deregistered"⟩, mapSet serviceKey filtered services)
  else (⟨404, .error "Service not found"⟩, services)

/-- The constant `timeout` of the cleanup run (120000 ms, two minutes). -/
def timeout : Int := 120000

/-- The callback of the cleanup run on one entry of the map. -/
def sweepEntry (now : Int) (services : Services)
    (entry : String × List ServiceInstance) : Services :=
  let activeInstances := entry.2.filter
    (fun inst => decide (now - inst.leaseInfo.lastRenewalTimestamp < timeout))
  if activeInstances.length = 0 then mapDelete entry.1 services
  else if activeInstances.length < entry.2.length then
    mapSet entry.1 activeInstances services
  else services

/-- One run of the periodic cleanup: `services.forEach` visits the entries in order
and the callback deletes or replaces the entry it is visiting. -/
def sweep (now : Int) (services : Services) : Services :=
  services.foldl (sweepEntry now) services

/-- The instance list carried by an answer (empty when the answer carries none). -/
def Response.instances (r : Response) : List ServiceInstance :=
  match r.body with
  | .application _ l => l
  | _ => []

/-- GET /eureka/v2/apps: one `Application` for every entry of the map, in the order of
`services.entries()`. -/
def listAll (services : Services) : Response :=
  ⟨200, .applications (services.map (fun e => ⟨e.1, e.2⟩))⟩

/-- The list `applications.application` carried by an answer (empty when the answer
carries none). -/
def Response.applications (r : Response) : List Application :=
  match r.body with
  | .applications l => l
  | _ => []

/-! ## Runs of the registry -/

/-- The operations that change the registry. -/
inductive Op where
  | register (appName : String) (body : Option InstanceBody) (iso : String) (now : Int)
  | renew (appName instanceId : String) (iso : String) (now : Int)
  | deregister (appName instanceId : String)
  | sweep (now : Int)
  deriving DecidableEq, Repr

/-- The registry after one operation. -/
def step (toUpperCase : String → String) (services : Services) : Op → Services
  | .register appName body iso now => (register toUpperCase appName body iso now services).2
  | .renew appName instanceId iso now =>
    (renew toUpperCase appName instanceId iso now services).2
  | .deregister appName instanceId => (deregister toUpperCase appName instanceId services).2
  | .sweep now => sweep now services

/-- The registry after a sequence of operations. -/
def run (toUpperCase : String → String) (ops : List Op) (services : Services) : Services :=
  ops.foldl (step toUpperCase) services

/-- An upper-casing function for the examples: it agrees with `toUpperCase` on ASCII. -/
def asciiUpper (s : String) : String := String.mk (s.data.map Char.toUpper)

/-- The registration body that `registerService` of the discovery client sends. -/
def clientBody (instanceId host : String) (port : Int) : InstanceBody :=
  { instanceId := .str instanceId
    hostName := .str host
    port := .obj (.num port) (.str "true")
    status := .str "UP"
    healthCheckUrl := .str ("http://" ++ host ++ ":" ++ toString port ++ "/health")
    statusPageUrl := .str ("http://" ++ host ++ ":" ++ toString port ++ "/info")
    homePageUrl := .str ("http://" ++ host ++ ":" ++ toString port ++ "/") }

/-! ## Double arithmetic of the instance selection

`Math.random()` returns a double in `[0, 1)` and `Math.random() * instances.length` is
the double nearest to the exact product (ties to the even significand).  A double in
`[0, 1)` is `m / 2 ^ k` for natural numbers `m < 2 ^ 53` and `k`; its product with the
natural number `n` is `m * n / 2 ^ k`, of which the significand `m * n` is rounded to 53
binary digits.  The exponent range is not bounded here (products below the smallest
normal double are below 1 on the machine too). -/

/-- The double `m / 2 ^ k` that `Math.random()` returned. -/
structure Draw where
  m : Nat
  k : Nat
  deriving DecidableEq, Repr

/-- The draw is a double of the interval `[0, 1)`: its significand has at most 53 binary
digits and its value is below 1. -/
def Draw.Valid (d : Draw) : Prop := d.m < 2 ^ 53 ∧ d.m < 2 ^ d.k

instance (d : Draw) : Decidable d.Valid := by
  unfold Draw.Valid; infer_instance

/-- The exact value of the draw. -/
def Draw.value (d : Draw) : ℚ := (d.m : ℚ) / 2 ^ d.k

/-- The quotient of `p` by `2 ^ sh` rounded to the nearest integer, ties to even. -/
def rne (p sh : Nat) : Nat :=
  if 2 ^ sh < 2 * (p % 2 ^ sh) ∨ (2 * (p % 2 ^ sh) = 2 ^ sh ∧ (p / 2 ^ sh) % 2 = 1)
  then p / 2 ^ sh + 1 else p / 2 ^ sh

/-- The number of binary digits that the significand `p` has beyond 53. -/
def excess (p : Nat) : Nat := Nat.size p - 53

/-- The index `Math.floor(Math.random() * n)`: the product `m * n / 2 ^ k` is rounded to
the double `rne (m * n) sh * 2 ^ sh / 2 ^ k` and `Math.floor` takes its integer part. -/
def selectIndex (d : Draw) (n : Nat) : Nat :=
  rne (d.m * n) (excess (d.m * n)) * 2 ^ excess (d.m * n) / 2 ^ d.k

/-! ## Discovery client (shared/service-discovery.js) -/

/-- An entry of `serviceCache`. -/
structure CacheEntry where
  instances : List ServiceInstance
  timestamp : Int
  deriving DecidableEq, Repr

/-- The map `serviceCache`, in insertion order. -/
abbrev ServiceCache := List (String × CacheEntry)

/-- The method `Map.prototype.get` on the cache. -/
def cacheGet (k : String) : ServiceCache → Option CacheEntry
  | [] => none
  | (k', v) :: rest => if k' = k then some v else cacheGet k rest

/-- The method `Map.prototype.set` on the cache. -/
def cacheSet (k : String) (v : CacheEntry) : ServiceCache → ServiceCache
  | [] => [(k, v)]
  | (k', v') :: rest => if k' = k then (k, v) :: rest else (k', v') :: cacheSet k v rest

/-- The field `cacheTimeout` (30 seconds). -/
def cacheTimeout : Int := 30000

/-- What `axios.get` on the registry gives: it throws (`failed`: a network error or an
answer with a status outside 2xx; an answer without `data` ends in the same `catch`), or
it resolves with an answer of which `response.data.application?.instance` is read
(`none` when that is undefined). -/
inductive RegistryReply where
  | failed
  | data (instances : Option (List ServiceInstance))
  deriving DecidableEq, Repr

/-- The reply that the registry in state `services` gives to the query of the discovery
client: the answer 404 makes `axios.get` throw. -/
def registryReply (toUpperCase : String → String) (services : Services)
    (serviceName : String) : RegistryReply :=
  if (listInstances toUpperCase serviceName services).status = 200
  then .data (some (listInstances toUpperCase serviceName services).instances)
  else .failed

/-- What a call of `discoverService` does: the list it returns, the cache it leaves and
whether it sent a query to the registry. -/
structure Discovered where
  instances : List ServiceInstance
  serviceCache : ServiceCache
  queried : Bool
  deriving DecidableEq, Repr

/-- The `try` block of `discoverService` and its `catch`: `reply` is the outcome of the
query and `fetched` the reading of `Date.now()` when the answer is stored. -/
def refresh (cacheKey : String) (serviceCache : ServiceCache) (reply : RegistryReply)
    (fetched : Int) : Discovered :=
  match reply with
  | .data d =>
    let instances := d.getD []
    let activeInstances := instances.filter (fun inst => inst.status = .str "UP")
    ⟨activeInstances, cacheSet cacheKey ⟨activeInstances, fetched⟩ serviceCache, true⟩
  | .failed => ⟨[], serviceCache, true⟩

/-- The method `discoverService`: `now` is the reading of `Date.now()` at the test of
the cache entry. -/
def discoverService (toUpperCase : String → String) (serviceCache : ServiceCache)
    (serviceName : String) (now : Int) (reply : RegistryReply) (fetched : Int) :
    Discovered :=
  let cacheKey := toUpperCase serviceName
  match cacheGet cacheKey serviceCache with
  | some cached =>
    if now - cached.timestamp < cacheTimeout then ⟨cached.instances, serviceCache, false⟩
    else refresh cacheKey serviceCache reply fetched
  | none => refresh cacheKey serviceCache reply fetched

/-- How a call of `getServiceInstance` ends: it returns a URL, it throws the error with
the given message, or it throws a `TypeError` on reading `instance.port` of
`undefined`. -/
inductive Resolution where
  | url (s : String)
  | error (message : String)
  | typeError
  deriving DecidableEq, Repr

/-- What a call of `getServiceInstance` does. -/
structure Resolved where
  result : Resolution
  serviceCache : ServiceCache
  queried : Bool
  deriving DecidableEq, Repr

/-- The URL built from the instance selected. -/
def instanceUrl (inst : ServiceInstance) : String :=
  let port : JsVal := if inst.port.isObject then inst.port.dollar else inst.port.value
  "http://" ++ inst.hostName.toStr ++ ":" ++ port.toStr

/-- The method `getServiceInstance`: `draw` is what `Math.random()` returns. -/
def getServiceInstance (toUpperCase : String → String) (serviceCache : ServiceCache)
    (serviceName : String) (now : Int) (reply : RegistryReply) (fetched : Int)
    (draw : Draw) : Resolved :=
  let found := discoverService toUpperCase serviceCache serviceName now reply fetched
  if found.instances.length = 0 then
    ⟨.error ("No instances available for service: " ++ serviceName),
      found.serviceCache, found.queried⟩
  else
    match found.instances[selectIndex draw found.instances.length]? with
    | some inst => ⟨.url (instanceUrl inst), found.serviceCache, found.queried⟩
    | none => ⟨.typeError, found.serviceCache, found.queried⟩

/-! ## Circuit breaker (order-service/clients/ServiceClient.js)

`ServiceClient` wraps its request function in a `CircuitBreaker` of the package
`opossum`, whose code is not part of the sources.  The breaker is modelled from section
4.3 of the specification; `getState` and `request` are those of `ServiceClient`. -/

/-- Modelled from the spec: the phase of a `CircuitState` (the class `CircuitBreaker` is
not in the sources). -/
inductive Phase where
  | closed
  | opened
  | halfOpen
  deriving DecidableEq, Repr

/-- Modelled from the spec: one bucket of the rolling window, the success and failure
counts of one time slice (the rolling window of `CircuitBreaker` is not in the
sources). -/
structure Bucket where
  slice : Int
  successes : Nat
  failures : Nat
  deriving DecidableEq, Repr

/-- The options of the breaker.  The fields `timeout`, `errorThresholdPercentage`,
`resetTimeout`, `rollingCountTimeout` and `rollingCountBuckets` are those of
`defaultOptions` in the constructor of `ServiceClient`; `minVolume` is the minimum
request volume of the specification, which the caller passes in `options`. -/
structure BreakerOptions where
  timeout : Int
  errorThresholdPercentage : Nat
  resetTimeout : Int
  rollingCountTimeout : Nat
  rollingCountBuckets : Nat
  minVolume : Nat
  deriving DecidableEq, Repr

/-- The object `defaultOptions` of the constructor of `ServiceClient`, spread with an
`options` object that sets the minimum volume. -/
def circuitBreakerOptions (minVolume : Nat) : BreakerOptions :=
  { timeout := 5000
    errorThresholdPercentage := 50
    resetTimeout := 30000
    rollingCountTimeout := 10000
    rollingCountBuckets := 10
    minVolume := minVolume }

/-- Modelled from the spec: the `CircuitState` of one protected dependency (the class
`CircuitBreaker` is not in the sources). -/
structure CircuitState where
  phase : Phase
  window : List Bucket
  openedAt : Int
  halfOpenProbeInFlight : Bool
  deriving DecidableEq, Repr

/-- Modelled from the spec: the initial state of a breaker, CLOSED with an empty window
(the class `CircuitBreaker` is not in the sources). -/
def CircuitState.initial : CircuitState :=
  { phase := .closed, window := [], openedAt := 0, halfOpenProbeInFlight := false }

/-- How the wrapped operation ends: `failure` stands for an error and for a timeout. -/
inductive Outcome where
  | success
  | failure
  deriving DecidableEq, Repr

/-- Modelled from the spec: the time slice of the rolling window that the time `t` falls
in; the lookback period is cut into slices of equal size (the rolling window of
`CircuitBreaker` is not in the sources). -/
def sliceOf (o : BreakerOptions) (t : Int) : Int :=
  t / ((o.rollingCountTimeout / o.rollingCountBuckets : Nat) : Int)

/-- Modelled from the spec: a bucket is not expired at time `now` when its slice is one
of the last `rollingCountBuckets` slices (the rolling window of `CircuitBreaker` is not
in the sources). -/
def Bucket.live (o : BreakerOptions) (now : Int) (b : Bucket) : Bool :=
  decide (sliceOf o now - o.rollingCountBuckets < b.slice)

/-- Modelled from the spec: the bucket of an outcome counted once (the rolling window of
`CircuitBreaker` is not in the sources). -/
def Bucket.count (b : Bucket) : Outcome → Bucket
  | .success => { b with successes := b.successes + 1 }
  | .failure => { b with failures := b.failures + 1 }

/-- Modelled from the spec: the outcome is counted in the bucket of slice `s`, which is
created when the window has none (the rolling window of `CircuitBreaker` is not in the
sources). -/
def addOutcome (s : Int) (x : Outcome) : List Bucket → List Bucket
  | [] => [Bucket.count ⟨s, 0, 0⟩ x]
  | b :: rest => if b.slice = s then b.count x :: rest else b :: addOutcome s x rest

/-- Modelled from the spec: recording an outcome at time `now` drops the expired buckets
and counts the outcome in the bucket of the current slice (the rolling window of
`CircuitBreaker` is not in the sources). -/
def recordOutcome (o : BreakerOptions) (now : Int) (x : Outcome) (w : List Bucket) :
    List Bucket :=
  addOutcome (sliceOf o now) x (w.filter (Bucket.live o now))

/-- Modelled from the spec: the number of failures in the window (the rolling window of
`CircuitBreaker` is not in the sources). -/
def windowFailures (w : List Bucket) : Nat := (w.map Bucket.failures).sum

/-- Modelled from the spec: the number of calls in the window (the rolling window of
`CircuitBreaker` is not in the sources). -/
def windowTotal (w : List Bucket) : Nat := (w.map (fun b => b.successes + b.failures)).sum

/-- Modelled from the spec: the exit condition of CLOSED, the minimum request volume is
met and the failure ratio over the window is at least the threshold (the class
`CircuitBreaker` is not in the sources). -/
def tripped (o : BreakerOptions) (w : List Bucket) : Bool :=
  decide (o.minVolume ≤ windowTotal w) &&
    decide (o.errorThresholdPercentage * windowTotal w ≤ 100 * windowFailures w)

/-- Modelled from the spec: the gate of `Execute` at time `now`.  In OPEN the call is
rejected until `now - openedAt >= resetTimeout`, from when the phase is HALF_OPEN; in
HALF_OPEN one call is let through as the probe and the calls that arrive while it is in
flight are rejected (the class `CircuitBreaker` is not in the sources).  The answer is
`true` when the call is let through. -/
def passGate (o : BreakerOptions) (now : Int) (st : CircuitState) : Bool × CircuitState :=
  match st.phase with
  | .closed => (true, st)
  | .opened =>
    if o.resetTimeout ≤ now - st.openedAt then
      (true, { st with phase := .halfOpen, halfOpenProbeInFlight := true })
    else (false, st)
  | .halfOpen =>
    if st.halfOpenProbeInFlight then (false, st)
    else (true, { st with halfOpenProbeInFlight := true })

/-- Modelled from the spec: the outcome of a call that was let through is reported at
time `now`.  In CLOSED it is recorded in the window and the circuit opens when the exit
condition holds; the probe of HALF_OPEN closes the circuit and resets the window on
success, and opens it again, restarting the timer, on failure (the class
`CircuitBreaker` is not in the sources). -/
def complete (o : BreakerOptions) (now : Int) (x : Outcome) (st : CircuitState) :
    CircuitState :=
  match st.phase with
  | .closed =>
    if tripped o (recordOutcome o now x st.window) then
      { phase := .opened, window := recordOutcome o now x st.window, openedAt := now,
        halfOpenProbeInFlight := false }
    else { st with window := recordOutcome o now x st.window }
  | .halfOpen =>
    match x with
    | .success =>
      { phase := .closed, window := [], openedAt := st.openedAt,
        halfOpenProbeInFlight := false }
    | .failure =>
      { phase := .opened, window := recordOutcome o now x st.window, openedAt := now,
        halfOpenProbeInFlight := false }
  | .opened => { st with window := recordOutcome o now x st.window }

/-- One call of the wrapped request function: when it starts, when it ends and how. -/
structure Call where
  started : Int
  finished : Int
  operation : Outcome
  deriving DecidableEq, Repr

/-- How `request` ends: with the response, with the error of the dependency, or with the
circuit-open error. -/
inductive CallResult where
  | response
  | dependencyError (serviceName : String)
  | circuitOpenError (serviceName : String)
  deriving DecidableEq, Repr

/-- What a call of `request` does: how it ends, whether the wrapped request function was
invoked, and the state it leaves. -/
structure Fired where
  result : CallResult
  invoked : Bool
  state : CircuitState
  deriving DecidableEq, Repr

/-- The method `request` of `ServiceClient` for a call that runs to its end before the
next one starts: `circuitBreaker.fire` passes the gate, invokes the request function and
reports its outcome; an error is thrown again with `serviceName` set. -/
def request (o : BreakerOptions) (serviceName : String) (c : Call) (st : CircuitState) :
    Fired :=
  match passGate o c.started st with
  | (true, st1) =>
    match c.operation with
    | .success => ⟨.response, true, complete o c.finished .success st1⟩
    | .failure => ⟨.dependencyError serviceName, true, complete o c.finished .failure st1⟩
  | (false, st1) => ⟨.circuitOpenError serviceName, false, st1⟩

/-- The state after a sequence of calls of `request`, one after the other. -/
def requestAll (o : BreakerOptions) (serviceName : String) (cs : List Call)
    (st : CircuitState) : CircuitState :=
  cs.foldl (fun st c => (request o serviceName c st).state) st

/-- Modelled from the spec: the flag `opened` of the breaker, set in the phase OPEN (the
class `CircuitBreaker` is not in the sources). -/
def CircuitState.opened (st : CircuitState) : Bool := st.phase = .opened

/-- Modelled from the spec: the flag `halfOpen` of the breaker, set in the phase
HALF_OPEN (the class `CircuitBreaker` is not in the sources). -/
def CircuitState.halfOpen (st : CircuitState) : Bool := st.phase = .halfOpen

/-- The property `state` of the object that `getState` of `ServiceClient` returns, from
the flags `opened` and `halfOpen` of the breaker. -/
def getState (opened halfOpen : Bool) : String :=
  if opened then "OPEN" else if halfOpen then "HALF_OPEN" else "CLOSED"

/-- Modelled from the spec: `Reset()` forces the phase CLOSED and clears the window (the
method `close` of `CircuitBreaker` is not in the sources). -/
def closeCircuit (st : CircuitState) : CircuitState :=
  { phase := .closed, window := [], openedAt := st.openedAt, halfOpenProbeInFlight := false }

/-- The method `reset` of `ServiceClient`: it calls `circuitBreaker.close()`. -/
def reset (st : CircuitState) : CircuitState := closeCircuit st

/-- The calls of `request` that start at the times `starts` while none of them has ended:
`circuitBreaker.fire` runs its gate when it is called, so the calls pass the gate one
after the other in the order in which they start, and no outcome is reported in between.
For each call the answer is `none` when the wrapped request function was invoked and
the call is in flight, and the circuit-open error when the call was rejected. -/
def requestConcurrently (o : BreakerOptions) (serviceName : String) :
    List Int → CircuitState → List (Option CallResult) × CircuitState
  | [], st => ([], st)
  | t :: ts, st =>
    match passGate o t st with
    | (true, st1) =>
      (none :: (requestConcurrently o serviceName ts st1).1,
        (requestConcurrently o serviceName ts st1).2)
    | (false, st1) =>
      (some (.circuitOpenError serviceName) :: (requestConcurrently o serviceName ts st1).1,
        (requestConcurrently o serviceName ts st1).2)

/-! ## Errors and their recognition (ServiceClient.isCircuitBreakerError) -/

/-- The properties of a thrown error that the order service reads: `name`, `message`
(`none` when it is undefined), `isCircuitBreakerOpen`, `response?.status` (`none` when
there is no response) and `serviceName` (set by `request`). -/
structure JsError where
  name : String
  message : Option String
  isCircuitBreakerOpen : JsVal
  responseStatus : Option Int
  serviceName : Option String
  deriving DecidableEq, Repr

/-- The test `s.includes(sub)` of `String.prototype.includes`. -/
def includes (s sub : String) : Bool :=
  s.data.tails.any (fun t => sub.data.isPrefixOf t)

/-- The static method `isCircuitBreakerError` of `ServiceClient`. -/
def isCircuitBreakerError (error : JsError) : Bool :=
  error.name = "CircuitBreakerOpenError" ||
    (match error.message with
      | some m => includes m "Circuit breaker is open"
      | none => false) ||
    error.isCircuitBreakerOpen = .bool true

/-! ## Inventory service of the circuit-breaker variant (inventory-service/index.js)

Quantities are JavaScript numbers.  The object `inventory` is an association list of its
own properties in insertion order; the names that it inherits from `Object.prototype` are
listed apart. -/

/-- One entry of the object `inventory`. -/
structure StockItem where
  productId : String
  quantity : Num
  reserved : Num
  deriving DecidableEq, Repr

/-- The object `inventory`: product id to entry. -/
abbrev Inventory := List (String × StockItem)

/-- The own property `k` of `inventory` (`none` when there is none). -/
def inventoryGet (k : String) : Inventory → Option StockItem
  | [] => none
  | (k', v) :: rest => if k' = k then some v else inventoryGet k rest

/-- The assignment to `inventory[productId]`: an existing property keeps its place, a
new one goes last. -/
def inventorySet (k : String) (v : StockItem) : Inventory → Inventory
  | [] => [(k, v)]
  | (k', v') :: rest =>
    if k' = k then (k, v) :: rest else (k', v') :: inventorySet k v rest

/-- The names of the properties that every object inherits from `Object.prototype`; each
is a function or, for `__proto__`, the prototype object itself. -/
def objectPrototypeNames : List String :=
  ["constructor", "__defineGetter__", "__defineSetter__", "hasOwnProperty",
   "__lookupGetter__", "__lookupSetter__", "isPrototypeOf", "propertyIsEnumerable",
   "toString", "valueOf", "__proto__", "toLocaleString"]

/-- What the property read `inventory[productId]` gives: an entry of the inventory, an
object inherited from `Object.prototype` (truthy, with neither `quantity` nor `reserved`
other than `undefined` or `NaN`), or `undefined`. -/
inductive Property where
  | own (item : StockItem)
  | inherited
  | absent
  deriving DecidableEq, Repr

/-- The property read `inventory[productId]`. -/
def inventoryProperty (productId : String) (inventory : Inventory) : Property :=
  match inventoryGet productId inventory with
  | some item => .own item
  | none => if productId ∈ objectPrototypeNames then .inherited else .absent

/-- The test `!quantity || quantity <= 0` of the three handlers. -/
def invalidQuantity (quantity : Num) : Bool :=
  !quantity.truthy || decide (quantity ≤ 0)

/-- The initial value of `inventory`. -/
def initialInventory : Inventory :=
  [("PROD001", ⟨"PROD001", 100, 0⟩), ("PROD002", ⟨"PROD002", 50, 0⟩),
   ("PROD003", ⟨"PROD003", 200, 0⟩), ("PROD004", ⟨"PROD004", 75, 0⟩),
   ("PROD005", ⟨"PROD005", 30, 0⟩)]

/-- The state of the inventory service: the inventory and the counter `requestCount`
(it stays below `2 ^ 53`, where `requestCount++` is exact). -/
structure InventoryService where
  inventory : Inventory
  requestCount : Nat
  deriving DecidableEq, Repr

/-- The inventory service when it starts. -/
def InventoryService.initial : InventoryService := ⟨initialInventory, 0⟩

/-- The requests that change the inventory, with the number `quantity` of the body. -/
inductive StockRequest where
  | reserve (productId : String) (quantity : Num)
  | release (productId : String) (quantity : Num)
  | addStock (productId : String) (quantity : Num)
  deriving DecidableEq, Repr

/-- The test of the failure middleware on the counter after `requestCount++`. -/
def failureWindow (requestCount : Nat) : Bool :=
  decide (requestCount % 10 ≥ 7) && decide (requestCount % 10 ≤ 9)

/-- POST /inventory/:productId/reserve: the status answered and the inventory left.
For an inherited name `available` is `NaN`, the test `available < quantity` fails and
`reserved` of the inherited object, which is no entry of the inventory, becomes `NaN`. -/
def reserveStock (productId : String) (quantity : Num) (inventory : Inventory) :
    Nat × Inventory :=
  if invalidQuantity quantity then (400, inventory)
  else
    match inventoryProperty productId inventory with
    | .absent => (404, inventory)
    | .inherited => (200, inventory)
    | .own item =>
      if item.quantity - item.reserved < quantity then (400, inventory)
      else (200, inventorySet productId { item with reserved := item.reserved + quantity }
        inventory)

/-- POST /inventory/:productId/release: the status answered and the inventory left.
For an inherited name the test `item.reserved < quantity` fails on `undefined` or `NaN`
and `reserved` of the inherited object becomes `NaN`. -/
def releaseStock (productId : String) (quantity : Num) (inventory : Inventory) :
    Nat × Inventory :=
  if invalidQuantity quantity then (400, inventory)
  else
    match inventoryProperty productId inventory with
    | .absent => (404, inventory)
    | .inherited => (200, inventory)
    | .own item =>
      if item.reserved < quantity then (400, inventory)
      else (200, inventorySet productId { item with reserved := item.reserved - quantity }
        inventory)

/-- PUT /inventory/:productId: the status answered and the inventory left.  A name that
is `undefined` gets a new entry with quantity 0 first; for an inherited name no entry is
made and `quantity` of the inherited object becomes `NaN`. -/
def addStock (productId : String) (quantity : Num) (inventory : Inventory) :
    Nat × Inventory :=
  if invalidQuantity quantity then (400, inventory)
  else
    match inventoryProperty productId inventory with
    | .absent => (200, inventorySet productId ⟨productId, 0 + quantity, 0⟩ inventory)
    | .inherited => (200, inventory)
    | .own item =>
      (200, inventorySet productId { item with quantity := item.quantity + quantity }
        inventory)

/-- The route handler of a request that changes the inventory. -/
def routeStock : StockRequest → Inventory → Nat × Inventory
  | .reserve productId quantity, inventory => reserveStock productId quantity inventory
  | .release productId quantity, inventory => releaseStock productId quantity inventory
  | .addStock productId quantity, inventory => addStock productId quantity inventory

/-- One request to the inventory service: the failure middleware counts it and answers
500 when `simulateFailure` is `true` in the query or the counter is in the failure
window; otherwise the route handler runs. -/
def serveStock (simulateFailure : Bool) (req : StockRequest) (svc : InventoryService) :
    Nat × InventoryService :=
  let requestCount := svc.requestCount + 1
  if simulateFailure || failureWindow requestCount then
    (500, ⟨svc.inventory, requestCount⟩)
  else
    ((routeStock req svc.inventory).1, ⟨(routeStock req svc.inventory).2, requestCount⟩)

/-- The inventory service after a sequence of requests, each with its `simulateFailure`
flag. -/
def serveAll (reqs : List (Bool × StockRequest)) (svc : InventoryService) :
    InventoryService :=
  reqs.foldl (fun svc r => (serveStock r.1 r.2 svc).2) svc

/-- The statuses answered to a sequence of requests, each with its `simulateFailure`
flag. -/
def serveStatuses : List (Bool × StockRequest) → InventoryService → List Nat
  | [], _ => []
  | r :: rest, svc => (serveStock r.1 r.2 svc).1 :: serveStatuses rest (serveStock r.1 r.2 svc).2

/-- The bookkeeping invariant of an inventory: every entry has
`0 <= reserved <= quantity`. -/
def Balanced (inventory : Inventory) : Prop :=
  ∀ e ∈ inventory, 0 ≤ e.2.reserved ∧ e.2.reserved ≤ e.2.quantity

/-- The number of the requests `start + 1`, ..., `start + n` that the failure window
rejects. -/
def rejectedIn (start n : Nat) : Nat :=
  ((List.range n).filter (fun i => failureWindow (start + 1 + i))).length

/-! ## Order service of the circuit-breaker variant (order-service/index.js)

The handler calls the other services through its clients.  What a call answers and what
it does to the world outside the order service is given by a value of `Clients σ`, for a
type `σ` of states of that world; the handler is defined for all clients.  Prices and
quantities are JavaScript numbers: a product and a sum are rounded to a double. -/

/-- An element of `req.body.items`. -/
structure ItemRequest where
  productId : JsVal
  quantity : Num
  deriving DecidableEq, Repr

/-- An element of the `items` of an order. -/
structure OrderItem where
  productId : JsVal
  quantity : Num
  price : Num
  subtotal : Num
  deriving DecidableEq, Repr

/-- An order of the circuit-breaker variant. -/
structure Order where
  id : String
  items : List OrderItem
  totalAmount : Num
  status : String
  createdAt : String
  deriving DecidableEq, Repr

/-- The state of the order service: the object `orders`, keyed by order id, and
`orderCounter`. -/
structure OrderStore where
  orders : List (String × Order)
  orderCounter : Nat
  deriving DecidableEq, Repr

/-- The order service when it starts. -/
def OrderStore.initial : OrderStore := ⟨[], 1⟩

/-- The property read `orders[orderId]` (`none` for `undefined`). -/
def ordersGet (k : String) : List (String × Order) → Option Order
  | [] => none
  | (k', v) :: rest => if k' = k then some v else ordersGet k rest

/-- The assignment `orders[orderId] = order`. -/
def ordersSet (k : String) (v : Order) : List (String × Order) → List (String × Order)
  | [] => [(k, v)]
  | (k', v') :: rest => if k' = k then (k, v) :: rest else (k', v') :: ordersSet k v rest

/-- The method `String.prototype.padStart` with a pad of one character. -/
def padStart (s : String) (targetLength : Nat) (pad : Char) : String :=
  String.mk (List.replicate (targetLength - s.length) pad) ++ s

/-- The order id made from the counter. -/
def orderIdOf (orderCounter : Nat) : String :=
  "ORD" ++ padStart (toString orderCounter) 6 '0'

/-- The clients `productClient` and `inventoryClient` as the handler uses them:
`getProduct` resolves with a product, of which the price `data.data.price` is read, or
throws; `checkAvailability` resolves with `isAvailable` and `available` of `data.data`
or throws; `reserve` and `release` resolve or throw (`some error`).  Each call also
gives the state in which it leaves the world. -/
structure Clients (σ : Type) where
  getProduct : JsVal → σ → Except JsError Num × σ
  checkAvailability : JsVal → Num → σ → Except JsError (Bool × Num) × σ
  reserve : JsVal → Num → σ → Option JsError × σ
  release : JsVal → Num → σ → Option JsError × σ

/-- The calls that the handler makes through the clients. -/
inductive ClientCall where
  | getProduct (productId : JsVal)
  | checkAvailability (productId : JsVal) (quantity : Num)
  | reserve (productId : JsVal) (quantity : Num)
  | release (productId : JsVal) (quantity : Num)
  deriving DecidableEq, Repr

/-- What the handler reads of the answer of a call. -/
inductive Reply where
  | product (price : Num)
  | availability (isAvailable : Bool) (available : Num)
  | done
  deriving DecidableEq, Repr

/-- How a call through a client ends: it resolves with a reply or it throws. -/
inductive CallOutcome where
  | ok (reply : Reply)
  | threw (error : JsError)
  deriving DecidableEq, Repr

/-- The outcome of a call that resolves with nothing to read or throws. -/
def CallOutcome.ofError : Option JsError → CallOutcome
  | none => .ok .done
  | some error => .threw error

/-- The answers of POST /orders. -/
inductive OrderAnswer where
  | invalidItems
  | invalidItem (item : ItemRequest)
  | insufficient (productId : JsVal) (available : Num) (requested : Num)
  | circuitOpen (service : String)
  | productNotFound (productId : JsVal)
  | inventoryUnavailable
  | failed (message : Option String)
  | created (order : Order)
  deriving DecidableEq, Repr

/-- The status code of an answer of POST /orders. -/
def OrderAnswer.status : OrderAnswer → Nat
  | .invalidItems => 400
  | .invalidItem _ => 400
  | .insufficient _ _ _ => 400
  | .circuitOpen _ => 503
  | .productNotFound _ => 404
  | .inventoryUnavailable => 503
  | .failed _ => 500
  | .created _ => 201

/-- The value of `error.serviceName || 'unknown'`. -/
def serviceNameOr (error : JsError) : String :=
  match error.serviceName with
  | some s => if s = "" then "unknown" else s
  | none => "unknown"

/-- The `catch` of the validation loop: 503 for an error that `isCircuitBreakerError`
recognises, 404 for an answer 404, and otherwise the error is thrown again and the outer
`catch` answers 500. -/
def validationCatch (error : JsError) (productId : JsVal) : OrderAnswer :=
  if isCircuitBreakerError error then .circuitOpen (serviceNameOr error)
  else if error.responseStatus = some 404 then .productNotFound productId
  else .failed error.message

/-- What the validation loop has done when it ends: the answer with which the handler
returns, if the loop ended it, the order items and the total so far, the state of the
world and the calls made with their outcomes. -/
structure LoopState (σ : Type) where
  answer : Option OrderAnswer
  orderItems : List OrderItem
  totalAmount : Num
  world : σ
  calls : List (ClientCall × CallOutcome)

/-- The validation loop of POST /orders over the items that are left. -/
def validateLoop {σ : Type} (clients : Clients σ) :
    List ItemRequest → List OrderItem → Num → σ → List (ClientCall × CallOutcome) →
    LoopState σ
  | [], orderItems, totalAmount, w, calls => ⟨none, orderItems, totalAmount, w, calls⟩
  | item :: rest, orderItems, totalAmount, w, calls =>
    if item.productId.truthy = false ∨ invalidQuantity item.quantity = true then
      ⟨some (.invalidItem item), orderItems, totalAmount, w, calls⟩
    else
      match (clients.getProduct item.productId w).1 with
      | .error error =>
        ⟨some (validationCatch error item.productId), orderItems, totalAmount,
          (clients.getProduct item.productId w).2,
          calls ++ [(.getProduct item.productId, .threw error)]⟩
      | .ok price =>
        match (clients.checkAvailability item.productId item.quantity
          (clients.getProduct item.productId w).2).1 with
        | .error error =>
          ⟨some (validationCatch error item.productId), orderItems, totalAmount,
            (clients.checkAvailability item.productId item.quantity
              (clients.getProduct item.productId w).2).2,
            calls ++ [(.getProduct item.productId, .ok (.product price)),
              (.checkAvailability item.productId item.quantity, .threw error)]⟩
        | .ok (isAvailable, available) =>
          if isAvailable = false then
            ⟨some (.insufficient item.productId available item.quantity), orderItems,
              totalAmount,
              (clients.checkAvailability item.productId item.quantity
                (clients.getProduct item.productId w).2).2,
              calls ++ [(.getProduct item.productId, .ok (.product price)),
                (.checkAvailability item.productId item.quantity,
                  .ok (.availability isAvailable available))]⟩
          else
            validateLoop clients rest
              (orderItems ++ [⟨item.productId, item.quantity, price,
                price * item.quantity⟩])
              (totalAmount + price * item.quantity)
              (clients.checkAvailability item.productId item.quantity
                (clients.getProduct item.productId w).2).2
              (calls ++ [(.getProduct item.productId, .ok (.product price)),
                (.checkAvailability item.productId item.quantity,
                  .ok (.availability isAvailable available))])

/-- The loop that releases the items already reserved: an error of a release is logged
and the loop goes on. -/
def releaseLoop {σ : Type} (clients : Clients σ) :
    List OrderItem → σ → List (ClientCall × CallOutcome) →
    σ × List (ClientCall × CallOutcome)
  | [], w, calls => (w, calls)
  | reservedItem :: rest, w, calls =>
    releaseLoop clients rest
      (clients.release reservedItem.productId reservedItem.quantity w).2
      (calls ++ [(.release reservedItem.productId reservedItem.quantity,
        .ofError (clients.release reservedItem.productId reservedItem.quantity w).1)])

/-- The `catch` of the reserve loop after the releases: 503 for an error that
`isCircuitBreakerError` recognises, and otherwise the error is thrown again and the outer
`catch` answers 500. -/
def reserveCatch (error : JsError) : OrderAnswer :=
  if isCircuitBreakerError error then .inventoryUnavailable else .failed error.message

/-- What the reserve loop has done when it ends: the position of the item whose reserve
failed and the error, if there is one, the state of the world and the calls made. -/
structure ReserveState (σ : Type) where
  failure : Option (Nat × JsError)
  world : σ
  calls : List (ClientCall × CallOutcome)

/-- The reserve loop of POST /orders over the items from position `k` on.  When the
reserve of the item at position `k` fails, `orderItems.indexOf(item)` is `k`, the
position of that very object, and the items `orderItems.slice(0, k)` are released. -/
def reserveLoop {σ : Type} (clients : Clients σ) (orderItems : List OrderItem) :
    Nat → List OrderItem → σ → List (ClientCall × CallOutcome) → ReserveState σ
  | _, [], w, calls => ⟨none, w, calls⟩
  | k, item :: rest, w, calls =>
    match (clients.reserve item.productId item.quantity w).1 with
    | none =>
      reserveLoop clients orderItems (k + 1) rest
        (clients.reserve item.productId item.quantity w).2
        (calls ++ [(.reserve item.productId item.quantity, .ok .done)])
    | some error =>
      ⟨some (k, error),
        (releaseLoop clients (orderItems.take k)
          (clients.reserve item.productId item.quantity w).2
          (calls ++ [(.reserve item.productId item.quantity, .threw error)])).1,
        (releaseLoop clients (orderItems.take k)
          (clients.reserve item.productId item.quantity w).2
          (calls ++ [(.reserve item.productId item.quantity, .threw error)])).2⟩

/-- What a call of POST /orders does: its answer, the store and the world it leaves, and
the calls it made through the clients. -/
structure Handled (σ : Type) where
  answer : OrderAnswer
  store : OrderStore
  world : σ
  calls : List (ClientCall × CallOutcome)

/-- POST /orders: `items` is `none` when `req.body.items` is missing or not an array, and
`iso` is what `new Date().toISOString()` returns. -/
def createOrder {σ : Type} (clients : Clients σ) (items : Option (List ItemRequest))
    (iso : String) (store : OrderStore) (w : σ) : Handled σ :=
  match items with
  | none => ⟨.invalidItems, store, w, []⟩
  | some [] => ⟨.invalidItems, store, w, []⟩
  | some (item :: rest) =>
    match (validateLoop clients (item :: rest) [] 0 w []).answer with
    | some answer =>
      ⟨answer, store, (validateLoop clients (item :: rest) [] 0 w []).world,
        (validateLoop clients (item :: rest) [] 0 w []).calls⟩
    | none =>
      match (reserveLoop clients (validateLoop clients (item :: rest) [] 0 w []).orderItems 0
        (validateLoop clients (item :: rest) [] 0 w []).orderItems
        (validateLoop clients (item :: rest) [] 0 w []).world
        (validateLoop clients (item :: rest) [] 0 w []).calls).failure with
      | some (_, error) =>
        ⟨reserveCatch error, store,
          (reserveLoop clients (validateLoop clients (item :: rest) [] 0 w []).orderItems 0
            (validateLoop clients (item :: rest) [] 0 w []).orderItems
            (validateLoop clients (item :: rest) [] 0 w []).world
            (validateLoop clients (item :: rest) [] 0 w []).calls).world,
          (reserveLoop clients (validateLoop clients (item :: rest) [] 0 w []).orderItems 0
            (validateLoop clients (item :: rest) [] 0 w []).orderItems
            (validateLoop clients (item :: rest) [] 0 w []).world
            (validateLoop clients (item :: rest) [] 0 w []).calls).calls⟩
      | none =>
        ⟨.created
            { id := orderIdOf store.orderCounter
              items := (validateLoop clients (item :: rest) [] 0 w []).orderItems
              totalAmount := (validateLoop clients (item :: rest) [] 0 w []).totalAmount
              status := "PENDING"
              createdAt := iso },
          ⟨ordersSet (orderIdOf store.orderCounter)
              { id := orderIdOf store.orderCounter
                items := (validateLoop clients (item :: rest) [] 0 w []).orderItems
                totalAmount := (validateLoop clients (item :: rest) [] 0 w []).totalAmount
                status := "PENDING"
                createdAt := iso }
              store.orders,
            store.orderCounter + 1⟩,
          (reserveLoop clients (validateLoop clients (item :: rest) [] 0 w []).orderItems 0
            (validateLoop clients (item :: rest) [] 0 w []).orderItems
            (validateLoop clients (item :: rest) [] 0 w []).world
            (validateLoop clients (item :: rest) [] 0 w []).calls).world,
          (reserveLoop clients (validateLoop clients (item :: rest) [] 0 w []).orderItems 0
            (validateLoop clients (item :: rest) [] 0 w []).orderItems
            (validateLoop clients (item :: rest) [] 0 w []).world
            (validateLoop clients (item :: rest) [] 0 w []).calls).calls⟩

/-! ## The order service wired to the inventory service

The clients of the order service over the inventory service of this variant.  A call of
the inventory client is answered by the service, or it is not sent (the breaker rejects
it, the connection fails), or it is sent and handled but its answer does not come back
in time (the `timeout` of 5000 ms of the client).  Which of these happens to the calls,
in their order, is given by a list; a call after the end of the list is answered. -/

/-- What happens to a call of the inventory client; the error is the one the client
throws when the call is not answered. -/
inductive Delivery where
  | answered
  | notSent (error : JsError)
  | unanswered (error : JsError)
  deriving DecidableEq, Repr

/-- The world of the order service: the inventory service and what happens to the next
calls of the inventory client. -/
structure Wire where
  service : InventoryService
  deliveries : List Delivery
  deriving DecidableEq, Repr

/-- The error that the client throws for an answer with a status outside 2xx:
`error.response.status` holds the status and `request` has set `serviceName`. -/
def statusError (serviceName : String) (status : Nat) : JsError :=
  { name := "AxiosError"
    message := some ("Request failed with status code " ++ toString status)
    isCircuitBreakerOpen := .undefined
    responseStatus := some status
    serviceName := some serviceName }

/-- GET /inventory/:productId/availability: the status of an error answer, or
`isAvailable` and `available`; `parsed` is `parseInt(quantity)` of the query.  For an
inherited name `available` is `NaN` and `isAvailable` is false. -/
def availability (productId : String) (parsed : Num) (inventory : Inventory) :
    Except Nat (Bool × Num) :=
  match inventoryProperty productId inventory with
  | .absent => .error 404
  | .inherited => .ok (false, .nan)
  | .own item =>
    .ok (decide ((if parsed.truthy then parsed else 1) ≤ item.quantity - item.reserved),
      item.quantity - item.reserved)

/-- One request for the availability to the inventory service, behind the failure
middleware. -/
def serveAvailability (productId : String) (parsed : Num) (svc : InventoryService) :
    Except Nat (Bool × Num) × InventoryService :=
  if failureWindow (svc.requestCount + 1) then
    (.error 500, ⟨svc.inventory, svc.requestCount + 1⟩)
  else
    (availability productId parsed svc.inventory,
      ⟨svc.inventory, svc.requestCount + 1⟩)

/-- What happens to the next call, and the deliveries of the calls after it. -/
def nextDelivery (w : Wire) : Delivery × List Delivery :=
  match w.deliveries with
  | [] => (.answered, [])
  | d :: rest => (d, rest)

/-- The method `checkAvailability` of the inventory client over the wire; the number
`quantity` goes into the query as a string, and `queryQuantity quantity` is what
`parseInt` makes of that string. -/
def wiredAvailability (queryQuantity : Num → Num) (productId : JsVal) (quantity : Num)
    (w : Wire) : Except JsError (Bool × Num) × Wire :=
  match (nextDelivery w).1 with
  | .answered =>
    (match (serveAvailability productId.toStr (queryQuantity quantity) w.service).1 with
      | .ok r => .ok r
      | .error status => .error (statusError "inventory-service" status),
      ⟨(serveAvailability productId.toStr (queryQuantity quantity) w.service).2,
        (nextDelivery w).2⟩)
  | .notSent error => (.error error, ⟨w.service, (nextDelivery w).2⟩)
  | .unanswered error =>
    (.error error,
      ⟨(serveAvailability productId.toStr (queryQuantity quantity) w.service).2,
        (nextDelivery w).2⟩)

/-- The methods `reserve` and `release` of the inventory client over the wire. -/
def wiredStock (req : StockRequest) (w : Wire) : Option JsError × Wire :=
  match (nextDelivery w).1 with
  | .answered =>
    (if (serveStock false req w.service).1 = 200 then none
      else some (statusError "inventory-service" (serveStock false req w.service).1),
      ⟨(serveStock false req w.service).2, (nextDelivery w).2⟩)
  | .notSent error => (some error, ⟨w.service, (nextDelivery w).2⟩)
  | .unanswered error =>
    (some error, ⟨(serveStock false req w.service).2, (nextDelivery w).2⟩)

/-- The clients over the wire; the product service answers the price of a product of
its table `prices` and 404 for another id. -/
def wiredClients (queryQuantity : Num → Num) (prices : String → Option Num) :
    Clients Wire where
  getProduct := fun productId w =>
    match prices productId.toStr with
    | some price => (.ok price, w)
    | none => (.error (statusError "product-service" 404), w)
  checkAvailability := wiredAvailability queryQuantity
  reserve := fun productId quantity w => wiredStock (.reserve productId.toStr quantity) w
  release := fun productId quantity w => wiredStock (.release productId.toStr quantity) w

/-! ## Order service of the registry variant (order-service/server.js)

The handlers find the other services through the discovery client and call them with
axios; what these calls answer and do is given by a value of `Peers σ`. -/

/-- An order of the registry variant. -/
structure RegistryOrder where
  id : Nat
  customerId : JsVal
  items : List OrderItem
  totalAmount : Num
  status : String
  createdAt : String
  updatedAt : String
  deriving DecidableEq, Repr

/-- The state of the order service: the array `orders` and `orderIdCounter`. -/
structure RegistryOrders where
  orders : List RegistryOrder
  orderIdCounter : Nat
  deriving DecidableEq, Repr

/-- The order service when it starts. -/
def RegistryOrders.initial : RegistryOrders := ⟨[], 1⟩

/-- The calls of the handlers to the other services: `getServiceInstance` resolves with
a URL or throws, the GET of a product resolves with a product, of which the price is
read, the GET of an inventory entry with `quantity` and `reserved`, and a POST of
`action` (reserve, release, deduct) with a quantity resolves or throws. -/
structure Peers (σ : Type) where
  getServiceInstance : String → σ → Except JsError String × σ
  getProduct : String → JsVal → σ → Except JsError Num × σ
  getInventory : String → JsVal → σ → Except JsError (Num × Num) × σ
  post : String → JsVal → String → Num → σ → Option JsError × σ

/-- The calls that a handler makes. -/
inductive PeerCall where
  | getServiceInstance (serviceName : String)
  | getProduct (url : String) (productId : JsVal)
  | getInventory (url : String) (productId : JsVal)
  | post (url : String) (productId : JsVal) (action : String) (quantity : Num)
  deriving DecidableEq, Repr

/-- What the handler reads of the answer of a call. -/
inductive PeerReply where
  | url (u : String)
  | product (price : Num)
  | stock (quantity : Num) (reserved : Num)
  | done
  deriving DecidableEq, Repr

/-- How a call ends: it resolves with a reply or it throws. -/
inductive PeerOutcome where
  | ok (reply : PeerReply)
  | threw (error : JsError)
  deriving DecidableEq, Repr

/-- The answers of POST /api/orders. -/
inductive RegistryAnswer where
  | required
  | insufficient (productId : JsVal) (available : Num) (requested : Num)
  | failed (details : Option String)
  | created (order : RegistryOrder)
  deriving DecidableEq, Repr

/-- The status code of an answer of POST /api/orders. -/
def RegistryAnswer.status : RegistryAnswer → Nat
  | .required => 400
  | .insufficient _ _ _ => 400
  | .failed _ => 500
  | .created _ => 201

/-- What the loop of POST /api/orders has done when it ends. -/
structure PeerLoopState (σ : Type) where
  answer : Option RegistryAnswer
  validatedItems : List OrderItem
  totalAmount : Num
  world : σ
  calls : List (PeerCall × PeerOutcome)

/-- The loop of POST /api/orders over the items that are left: product, inventory
entry, test of the available amount, reserve. -/
def orderLoop {σ : Type} (peers : Peers σ) (inventoryUrl productUrl : String) :
    List ItemRequest → List OrderItem → Num → σ → List (PeerCall × PeerOutcome) →
    PeerLoopState σ
  | [], validatedItems, totalAmount, w, calls =>
    ⟨none, validatedItems, totalAmount, w, calls⟩
  | item :: rest, validatedItems, totalAmount, w, calls =>
    match (peers.getProduct productUrl item.productId w).1 with
    | .error error =>
      ⟨some (.failed error.message), validatedItems, totalAmount,
        (peers.getProduct productUrl item.productId w).2,
        calls ++ [(.getProduct productUrl item.productId, .threw error)]⟩
    | .ok price =>
      match (peers.getInventory inventoryUrl item.productId
        (peers.getProduct productUrl item.productId w).2).1 with
      | .error error =>
        ⟨some (.failed error.message), validatedItems, totalAmount,
          (peers.getInventory inventoryUrl item.productId
            (peers.getProduct productUrl item.productId w).2).2,
          calls ++ [(.getProduct productUrl item.productId, .ok (.product price)),
            (.getInventory inventoryUrl item.productId, .threw error)]⟩
      | .ok (quantity, reserved) =>
        if quantity - reserved < item.quantity then
          ⟨some (.insufficient item.productId (quantity - reserved) item.quantity),
            validatedItems, totalAmount,
            (peers.getInventory inventoryUrl item.productId
              (peers.getProduct productUrl item.productId w).2).2,
            calls ++ [(.getProduct productUrl item.productId, .ok (.product price)),
              (.getInventory inventoryUrl item.productId, .ok (.stock quantity reserved))]⟩
        else
          match (peers.post inventoryUrl item.productId "reserve" item.quantity
            (peers.getInventory inventoryUrl item.productId
              (peers.getProduct productUrl item.productId w).2).2).1 with
          | some error =>
            ⟨some (.failed error.message), validatedItems, totalAmount,
              (peers.post inventoryUrl item.productId "reserve" item.quantity
                (peers.getInventory inventoryUrl item.productId
                  (peers.getProduct productUrl item.productId w).2).2).2,
              calls ++ [(.getProduct productUrl item.productId, .ok (.product price)),
                (.getInventory inventoryUrl item.productId, .ok (.stock quantity reserved)),
                (.post inventoryUrl item.productId "reserve" item.quantity, .threw error)]⟩
          | none =>
            orderLoop peers inventoryUrl productUrl rest
              (validatedItems ++ [⟨item.productId, item.quantity, price,
                price * item.quantity⟩])
              (totalAmount + price * item.quantity)
              (peers.post inventoryUrl item.productId "reserve" item.quantity
                (peers.getInventory inventoryUrl item.productId
                  (peers.getProduct productUrl item.productId w).2).2).2
              (calls ++ [(.getProduct productUrl item.productId, .ok (.product price)),
                (.getInventory inventoryUrl item.productId, .ok (.stock quantity reserved)),
                (.post inventoryUrl item.productId "reserve" item.quantity, .ok .done)])

/-- What a call of a handler of the registry variant does: its answer, the orders and
the world it leaves, and the calls it made. -/
structure PeerHandled (α σ : Type) where
  answer : α
  store : RegistryOrders
  world : σ
  calls : List (PeerCall × PeerOutcome)

/-- POST /api/orders: `items` is `none` when `req.body.items` is missing, `createdAt`
and `updatedAt` are what the two calls of `new Date().toISOString()` return. -/
def createRegistryOrder {σ : Type} (peers : Peers σ) (customerId : JsVal)
    (items : Option (List ItemRequest)) (createdAt updatedAt : String)
    (store : RegistryOrders) (w : σ) : PeerHandled RegistryAnswer σ :=
  match items with
  | none => ⟨.required, store, w, []⟩
  | some items =>
    if customerId.truthy = false ∨ items.length = 0 then ⟨.required, store, w, []⟩
    else
      match (peers.getServiceInstance "INVENTORY-SERVICE" w).1 with
      | .error error =>
        ⟨.failed error.message, store, (peers.getServiceInstance "INVENTORY-SERVICE" w).2,
          [(.getServiceInstance "INVENTORY-SERVICE", .threw error)]⟩
      | .ok inventoryUrl =>
        match (peers.getServiceInstance "PRODUCT-SERVICE"
          (peers.getServiceInstance "INVENTORY-SERVICE" w).2).1 with
        | .error error =>
          ⟨.failed error.message, store,
            (peers.getServiceInstance "PRODUCT-SERVICE"
              (peers.getServiceInstance "INVENTORY-SERVICE" w).2).2,
            [(.getServiceInstance "INVENTORY-SERVICE", .ok (.url inventoryUrl)),
              (.getServiceInstance "PRODUCT-SERVICE", .threw error)]⟩
        | .ok productUrl =>
          match (orderLoop peers inventoryUrl productUrl items [] 0
            (peers.getServiceInstance "PRODUCT-SERVICE"
              (peers.getServiceInstance "INVENTORY-SERVICE" w).2).2
            [(.getServiceInstance "INVENTORY-SERVICE", .ok (.url inventoryUrl)),
              (.getServiceInstance "PRODUCT-SERVICE", .ok (.url productUrl))]).answer with
          | some answer =>
            ⟨answer, store,
              (orderLoop peers inventoryUrl productUrl items [] 0
                (peers.getServiceInstance "PRODUCT-SERVICE"
                  (peers.getServiceInstance "INVENTORY-SERVICE" w).2).2
                [(.getServiceInstance "INVENTORY-SERVICE", .ok (.url inventoryUrl)),
                  (.getServiceInstance "PRODUCT-SERVICE", .ok (.url productUrl))]).world,
              (orderLoop peers inventoryUrl productUrl items [] 0
                (peers.getServiceInstance "PRODUCT-SERVICE"
                  (peers.getServiceInstance "INVENTORY-SERVICE" w).2).2
                [(.getServiceInstance "INVENTORY-SERVICE", .ok (.url inventoryUrl)),
                  (.getServiceInstance "PRODUCT-SERVICE", .ok (.url productUrl))]).calls⟩
          | none =>
            ⟨.created
                { id := store.orderIdCounter
                  customerId := customerId
                  items := (orderLoop peers inventoryUrl productUrl items [] 0
                    (peers.getServiceInstance "PRODUCT-SERVICE"
                      (peers.getServiceInstance "INVENTORY-SERVICE" w).2).2
                    [(.getServiceInstance "INVENTORY-SERVICE", .ok (.url inventoryUrl)),
                      (.getServiceInstance "PRODUCT-SERVICE",
                        .ok (.url productUrl))]).validatedItems
                  totalAmount := (orderLoop peers inventoryUrl productUrl items [] 0
                    (peers.getServiceInstance "PRODUCT-SERVICE"
                      (peers.getServiceInstance "INVENTORY-SERVICE" w).2).2
                    [(.getServiceInstance "INVENTORY-SERVICE", .ok (.url inventoryUrl)),
                      (.getServiceInstance "PRODUCT-SERVICE",
                        .ok (.url productUrl))]).totalAmount
                  status := "PENDING"
                  createdAt := createdAt
                  updatedAt := updatedAt },
              ⟨store.orders ++
                [{ id := store.orderIdCounter
                   customerId := customerId
                   items := (orderLoop peers inventoryUrl productUrl items [] 0
                     (peers.getServiceInstance "PRODUCT-SERVICE"
                       (peers.getServiceInstance "INVENTORY-SERVICE" w).2).2
                     [(.getServiceInstance "INVENTORY-SERVICE", .ok (.url inventoryUrl)),
                       (.getServiceInstance "PRODUCT-SERVICE",
                         .ok (.url productUrl))]).validatedItems
                   totalAmount := (orderLoop peers inventoryUrl productUrl items [] 0
                     (peers.getServiceInstance "PRODUCT-SERVICE"
                       (peers.getServiceInstance "INVENTORY-SERVICE" w).2).2
                     [(.getServiceInstance "INVENTORY-SERVICE", .ok (.url inventoryUrl)),
                       (.getServiceInstance "PRODUCT-SERVICE",
                         .ok (.url productUrl))]).totalAmount
                   status := "PENDING"
                   createdAt := createdAt
                   updatedAt := updatedAt }],
                store.orderIdCounter + 1⟩,
              (orderLoop peers inventoryUrl productUrl items [] 0
                (peers.getServiceInstance "PRODUCT-SERVICE"
                  (peers.getServiceInstance "INVENTORY-SERVICE" w).2).2
                [(.getServiceInstance "INVENTORY-SERVICE", .ok (.url inventoryUrl)),
                  (.getServiceInstance "PRODUCT-SERVICE", .ok (.url productUrl))]).world,
              (orderLoop peers inventoryUrl productUrl items [] 0
                (peers.getServiceInstance "PRODUCT-SERVICE"
                  (peers.getServiceInstance "INVENTORY-SERVICE" w).2).2
                [(.getServiceInstance "INVENTORY-SERVICE", .ok (.url inventoryUrl)),
                  (.getServiceInstance "PRODUCT-SERVICE", .ok (.url productUrl))]).calls⟩

/-- The array `validStatuses` of PUT /api/orders/:id/status. -/
def validStatuses : List String :=
  ["PENDING", "CONFIRMED", "SHIPPED", "DELIVERED", "CANCELLED"]

/-- The index `orders.findIndex(o => o.id === parseInt(req.params.id))` (`none` for
-1). -/
def findOrderIndex (id : Option Int) : List RegistryOrder → Option Nat
  | [] => none
  | o :: rest =>
    if some (o.id : Int) = id then some 0 else (findOrderIndex id rest).map (· + 1)

/-- The answers of PUT /api/orders/:id/status. -/
inductive StatusAnswer where
  | notFound
  | invalidStatus
  | updated (order : RegistryOrder)
  deriving DecidableEq, Repr

/-- The status code of an answer of PUT /api/orders/:id/status. -/
def StatusAnswer.status : StatusAnswer → Nat
  | .notFound => 404
  | .invalidStatus => 400
  | .updated _ => 200

/-- The loop of the POSTs of `action` for the items of an order; the first error ends
it. -/
def postLoop {σ : Type} (peers : Peers σ) (inventoryUrl action : String) :
    List OrderItem → σ → List (PeerCall × PeerOutcome) → σ × List (PeerCall × PeerOutcome)
  | [], w, calls => (w, calls)
  | item :: rest, w, calls =>
    match (peers.post inventoryUrl item.productId action item.quantity w).1 with
    | some error =>
      ((peers.post inventoryUrl item.productId action item.quantity w).2,
        calls ++ [(.post inventoryUrl item.productId action item.quantity, .threw error)])
    | none =>
      postLoop peers inventoryUrl action rest
        (peers.post inventoryUrl item.productId action item.quantity w).2
        (calls ++ [(.post inventoryUrl item.productId action item.quantity, .ok .done)])

/-- A `try` block of the status update: the inventory service is looked up and `action`
is posted for the items; an error is logged and nothing else. -/
def followUp {σ : Type} (peers : Peers σ) (action : String) (items : List OrderItem)
    (w : σ) (calls : List (PeerCall × PeerOutcome)) : σ × List (PeerCall × PeerOutcome) :=
  match (peers.getServiceInstance "INVENTORY-SERVICE" w).1 with
  | .error error =>
    ((peers.getServiceInstance "INVENTORY-SERVICE" w).2,
      calls ++ [(.getServiceInstance "INVENTORY-SERVICE", .threw error)])
  | .ok inventoryUrl =>
    postLoop peers inventoryUrl action items
      (peers.getServiceInstance "INVENTORY-SERVICE" w).2
      (calls ++ [(.getServiceInstance "INVENTORY-SERVICE", .ok (.url inventoryUrl))])

/-- PUT /api/orders/:id/status: `id` is `parseInt(req.params.id)` (`none` for `NaN`),
`status` is `req.body.status` and `iso` is what `new Date().toISOString()` returns.  The
handler runs to its end before another request is handled. -/
def updateStatus {σ : Type} (peers : Peers σ) (id : Option Int) (status : JsVal)
    (iso : String) (store : RegistryOrders) (w : σ) : PeerHandled StatusAnswer σ :=
  match findOrderIndex id store.orders with
  | none => ⟨.notFound, store, w, []⟩
  | some orderIndex =>
    match status with
    | .str s =>
      if s ∈ validStatuses then
        match store.orders[orderIndex]? with
        | none => ⟨.notFound, store, w, []⟩
        | some order =>
          let cancelled :=
            if s = "CANCELLED" ∧ order.status ≠ "CANCELLED" then
              followUp peers "release" order.items w []
            else (w, [])
          let confirmed :=
            if s = "CONFIRMED" ∧ order.status = "PENDING" then
              followUp peers "deduct" order.items cancelled.1 cancelled.2
            else cancelled
          ⟨.updated { order with status := s, updatedAt := iso },
            ⟨store.orders.set orderIndex { order with status := s, updatedAt := iso },
              store.orderIdCounter⟩,
            confirmed.1, confirmed.2⟩
      else ⟨.invalidStatus, store, w, []⟩
    | _ => ⟨.invalidStatus, store, w, []⟩

/-! ## Example data -/

/-- The body with which instance `A1` registers. -/
def bodyA1 : InstanceBody := clientBody "A1" "localhost" 3001

/-- The body with which instance `A2` registers. -/
def bodyA2 : InstanceBody := clientBody "A2" "localhost" 3002

/-- A body that is accepted and carries the status `DOWN`. -/
def bodyDown : InstanceBody := { bodyA1 with status := .str "DOWN" }

/-- Instance `A1` registers for service `x` at time 0 and the cleanup runs every 30 s;
no renewal is sent. -/
def opsA1 : List Op :=
  [.register "x" (some bodyA1) "t0" 0, .sweep 30000, .sweep 60000, .sweep 90000]

/-- Instances `A1` and `A2` register for service `x`, and `A1` registers again. -/
def opsA1A2 : List Op :=
  [.register "x" (some bodyA1) "t0" 0, .register "x" (some bodyA2) "t1" 1000,
   .register "x" (some bodyA1) "t2" 2000]

/-- The body of `A1` with the port given as the number 0. -/
def bodyPortZero : InstanceBody := { bodyA1 with port := .prim (.num 0) }

/-- The body of `A1` with the port given as the object whose `$` is 0. -/
def bodyPortZeroObj : InstanceBody := { bodyA1 with port := .obj (.num 0) (.str "true") }

/-- The body of `A1` with the port given as the number 3001. -/
def bodyPortNumber : InstanceBody := { bodyA1 with port := .prim (.num 3001) }

/-- Instance `A1` registers for service `x` with status `DOWN`, and `A2` registers for
service `y`. -/
def opsDown : List Op :=
  [.register "x" (some bodyDown) "t0" 0, .register "y" (some bodyA2) "t1" 1000]

/-- The record of `A1` as the registry stores it at time 0. -/
def recordA1 : ServiceInstance := serviceInstance bodyA1 "t0" 0

/-- A cache whose entry for `X` holds `A1` and was fetched at time 0. -/
def cacheA1 : ServiceCache := [("X", ⟨[recordA1], 0⟩)]

/-- A draw of `Math.random()`: the double `1 / 2`. -/
def drawHalf : Draw := ⟨1, 1⟩

/-- A draw of `Math.random()`: the double `2573485501354569 / 2 ^ 52`, which is
`4 / 7 - 1 / (7 * 2 ^ 52)`, about 0.5714285714285714. -/
def drawTie : Draw := ⟨2573485501354569, 52⟩

/-- The record of `A2` as the registry stores it at time 1000. -/
def recordA2 : ServiceInstance := serviceInstance bodyA2 "t1" 1000

/-- The four calls of the scenario, one a second from time 0: two failures, a success
and a failure. -/
def callsFFSF : List Call :=
  [⟨0, 100, .failure⟩, ⟨1000, 1100, .failure⟩, ⟨2000, 2100, .success⟩,
   ⟨3000, 3100, .failure⟩]

/-- A registration body that carries an instanceId, a host name and a port only. -/
def hostBody (instanceId host : String) (port : PortField) : InstanceBody :=
  { instanceId := .str instanceId
    hostName := .str host
    port := port
    status := .undefined
    healthCheckUrl := .undefined
    statusPageUrl := .undefined
    homePageUrl := .undefined }

/-- A breaker in the phase HALF_OPEN of which no probe is in flight yet. -/
def halfOpenState : CircuitState :=
  { phase := .halfOpen, window := [], openedAt := 0, halfOpenProbeInFlight := false }

/-- An error with none of the three marks of a circuit-open error: its name is `Error`
and its message is `Breaker is open`. -/
def plainError : JsError :=
  { name := "Error", message := some "Breaker is open", isCircuitBreakerOpen := .undefined,
    responseStatus := none, serviceName := some "inventory-service" }

/-- Six requests to the inventory service, none with `simulateFailure`. -/
def stockRequests : List (Bool × StockRequest) :=
  [(false, .reserve "PROD001" 5), (false, .reserve "PROD002" 50),
   (false, .release "PROD001" 2), (false, .addStock "PROD006" 10),
   (false, .reserve "PROD006" 4), (false, .release "PROD002" 1)]

/-- The double of 0.1. -/
def tenth : Num := .fin (3602879701896397 / 36028797018963968)

/-- The double of 0.2. -/
def fifth : Num := .fin (3602879701896397 / 18014398509481984)

/-- A reserve of 0.1, a reserve of 0.2 and a release of 0.2 of `PROD001`. -/
def fractionRequests : List (Bool × StockRequest) :=
  [(false, .reserve "PROD001" tenth), (false, .reserve "PROD001" fifth),
   (false, .release "PROD001" fifth)]

/-- Add 2 ^ 53 - 94 pieces to `PROD001`, reserve 3 and reserve 2 ^ 53 + 4. -/
def largeRequests : List (Bool × StockRequest) :=
  [(false, .addStock "PROD001" (.fin (2 ^ 53 - 94))), (false, .reserve "PROD001" 3),
   (false, .reserve "PROD001" (.fin (2 ^ 53 + 4)))]

/-- Ten requests to the inventory service, none with `simulateFailure`. -/
def tenRequests : List (Bool × StockRequest) :=
  List.replicate 10 (false, .reserve "PROD001" 1)

/-- Peers that answer every call: every product costs 25 and every inventory entry holds
100 pieces of which none is reserved. -/
def upPeers : Peers Unit where
  getServiceInstance := fun serviceName w => (.ok ("http://localhost/" ++ serviceName), w)
  getProduct := fun _ _ w => (.ok 25, w)
  getInventory := fun _ _ w => (.ok (100, 0), w)
  post := fun _ _ _ _ w => (none, w)

/-- Peers of which every call throws. -/
def downPeers : Peers Unit where
  getServiceInstance := fun _ w => (.error plainError, w)
  getProduct := fun _ _ w => (.error plainError, w)
  getInventory := fun _ _ w => (.error plainError, w)
  post := fun _ _ _ _ w => (some plainError, w)

/-- The orders of the registry variant after the first order, of two pieces of product
1, has been created. -/
def freshStore : RegistryOrders :=
  (createRegistryOrder upPeers (.str "CUST001") (some [⟨.num 1, 2⟩])
    "2024-01-01T00:00:00.000Z" "2024-01-01T00:00:00.000Z" .initial ()).store

/-- The order that `freshStore` holds. -/
def freshOrder : RegistryOrder :=
  { id := 1
    customerId := .str "CUST001"
    items := [⟨.num 1, 2, 25, 50⟩]
    totalAmount := 50
    status := "PENDING"
    createdAt := "2024-01-01T00:00:00.000Z"
    updatedAt := "2024-01-01T00:00:00.000Z" }

/-- The prices of two products of the product service: the doubles of 1299.99 and
29.99. -/
def catalogue : String → Option Num :=
  fun productId =>
    if productId = "PROD001" then some (.fin (5717416483970089 / 4398046511104))
    else if productId = "PROD002" then some (.fin (8441434551552573 / 281474976710656))
    else none

/-- What `parseInt` makes of the string of a whole number below `10 ^ 21`: the number
itself.  It stands for `parseInt` on such quantities only. -/
def wholeQuery : Num → Num := fun quantity => quantity

/-- An order of five pieces of `PROD001` and three of `PROD002`. -/
def twoItems : List ItemRequest := [⟨.str "PROD001", 5⟩, ⟨.str "PROD002", 3⟩]

/-- The order that the order service of the circuit-breaker variant creates first for
`twoItems` at the prices of `catalogue`: the subtotals are the doubles of 6499.95 and
89.97 and the total is the double of 6589.92. -/
def firstOrder : Order :=
  { id := "ORD000001"
    items :=
      [⟨.str "PROD001", 5, .fin (5717416483970089 / 4398046511104),
          .fin (7146770604962611 / 1099511627776)⟩,
       ⟨.str "PROD002", 3, .fin (8441434551552573 / 281474976710656),
          .fin (3165537956832215 / 35184372088832)⟩]
    totalAmount := .fin (3622846833056809 / 549755813888)
    status := "PENDING"
    createdAt := "2024-01-01T00:00:00.000Z" }

/-- Clients of which every call is rejected with `plainError`. -/
def openClients : Clients Unit where
  getProduct := fun _ w => (.error plainError, w)
  checkAvailability := fun _ _ w => (.error plainError, w)
  reserve := fun _ _ w => (some plainError, w)
  release := fun _ _ w => (some plainError, w)

/-- The error of a call that is not answered within the timeout. -/
def timeoutError : JsError :=
  { name := "Error", message := some "Timed out after 5000ms",
    isCircuitBreakerOpen := .undefined, responseStatus := none,
    serviceName := some "inventory-service" }

/-- The inventory service at its start, with every call answered. -/
def wireUp : Wire := ⟨.initial, []⟩

/-- The inventory service at its start; the fourth call of the inventory client is
handled by the service, but its answer does not come back in time. -/
def wireLate : Wire :=
  ⟨.initial, [.answered, .answered, .answered, .unanswered timeoutError]⟩

/-- The inventory service at its start; the fourth call of the inventory client is
rejected by the open circuit. -/
def wireOpen : Wire :=
  ⟨.initial, [.answered, .answered, .answered, .notSent plainError]⟩

/-- What `parseInt` makes of the string of a number `quantity` with
`10 ^ -6 <= quantity < 10 ^ 21`: the string is in decimal form without exponent, and
`parseInt` reads its digits up to the point, which gives the integer part.  It stands for
`parseInt` on such quantities only. -/
def integerPart : Num → Num
  | .fin value => .fin ⌊value⌋
  | other => other

/-- An order of 0.2 pieces of `PROD001` and 50.5 pieces of `PROD002`. -/
def fractionItems : List ItemRequest :=
  [⟨.str "PROD001", fifth⟩, ⟨.str "PROD002", .fin (101 / 2)⟩]

/-- The inventory service after a reserve of 0.1 pieces of `PROD001`; every call of the
inventory client is answered. -/
def wireTenth : Wire := ⟨serveAll [(false, .reserve "PROD001" tenth)] .initial, []⟩

/-! ## Auxiliary definitions of the proofs -/

/-- The product lookups of a log that were answered, with the prices answered. -/
def productReplies (calls : List (ClientCall × CallOutcome)) : List (JsVal × Num) :=
  calls.filterMap (fun e =>
    match e with
    | (.getProduct productId, .ok (.product price)) => some (productId, price)
    | _ => none)

/-- The product lookups of a log of the registry variant that were answered, with the
prices answered. -/
def peerProductReplies (calls : List (PeerCall × PeerOutcome)) : List (JsVal × Num) :=
  calls.filterMap (fun e =>
    match e with
    | (.getProduct _ productId, .ok (.product price)) => some (productId, price)
    | _ => none)

/-- The calls of a validation loop that passes: for each item the product lookup and the
availability check. -/
def validationCalls : List ItemRequest → List ClientCall
  | [] => []
  | item :: rest =>
    .getProduct item.productId :: .checkAvailability item.productId item.quantity ::
      validationCalls rest

/-- The reserve call for an item of the request. -/
def reserveCall (item : ItemRequest) : ClientCall := .reserve item.productId item.quantity

/-- The release call for an item of the request. -/
def releaseCall (item : ItemRequest) : ClientCall := .release item.productId item.quantity

/-- The reserve call for an order item. -/
def reserveOf (item : OrderItem) : ClientCall := .reserve item.productId item.quantity

/-- The release call for an order item. -/
def releaseOf (item : OrderItem) : ClientCall := .release item.productId item.quantity

/-- No call of the inventory client is handled by the service without its answer coming
back. -/
def NoUnanswered (deliveries : List Delivery) : Prop :=
  ∀ d ∈ deliveries, ∀ error, d ≠ .unanswered error

/-- No release of a log threw. -/
def ReleasesSucceed (calls : List (ClientCall × CallOutcome)) : Prop :=
  ∀ e ∈ calls, ∀ productId quantity error, e ≠ (.release productId quantity, .threw error)

/-- The whole number that a quantity stands for (0 for a number that is not finite). -/
def wholeOf : Num → ℤ
  | .fin a => ⌊a⌋
  | _ => 0

/-- The change of the `reserved` amount of an entry by `d`, in exact arithmetic; an
inventory without the entry is left as it is. -/
def adjustReserved (productId : String) (d : ℤ) (inventory : Inventory) : Inventory :=
  match inventoryGet productId inventory with
  | none => inventory
  | some item =>
    match item.reserved with
    | .fin r => inventorySet productId { item with reserved := .fin (r + d) } inventory
    | _ => inventory

/-- The inventory after the items have been reserved, in exact arithmetic. -/
def reserveAll (items : List OrderItem) (inventory : Inventory) : Inventory :=
  items.foldl
    (fun inv item => adjustReserved item.productId.toStr (wholeOf item.quantity) inv)
    inventory

/-- The inventory after the items have been released, in exact arithmetic. -/
def releaseAll (items : List OrderItem) (inventory : Inventory) : Inventory :=
  items.foldl
    (fun inv item => adjustReserved item.productId.toStr (-wholeOf item.quantity) inv)
    inventory

/-- An inventory of whole pieces within `bound`: the quantity and the reserved amount of
every entry are integers with `0 <= reserved <= quantity <= bound`. -/
def Whole (bound : ℤ) (inventory : Inventory) : Prop :=
  ∀ e ∈ inventory, ∃ q r : ℤ,
    e.2.quantity = .fin q ∧ e.2.reserved = .fin r ∧ 0 ≤ r ∧ r ≤ q ∧ q ≤ bound

/-- The quantity of a request. -/
def StockRequest.quantity : StockRequest → Num
  | .reserve _ quantity => quantity
  | .release _ quantity => quantity
  | .addStock _ quantity => quantity

/-- The pieces that a request can add to the stock of a product. -/
def addedBy : StockRequest → ℤ
  | .addStock _ (.fin a) => max ⌈a⌉ 0
  | _ => 0

/-- The pieces that the requests of a sequence can add to the stock of a product. -/
def addedTotal (reqs : List (Bool × StockRequest)) : ℤ :=
  (reqs.map (fun r => addedBy r.2)).sum

/-- The instances of an array that the cleanup run at time `now` keeps. -/
def active (now : Int) (l : List ServiceInstance) : List ServiceInstance :=
  l.filter (fun inst => decide (now - inst.leaseInfo.lastRenewalTimestamp < timeout))

/-- Closed form of the cleanup run on a map (`sweep_eq_sweepClosed`): every entry keeps
its active instances, and an entry that keeps none is dropped. -/
def sweepClosed (now : Int) (m : Services) : Services :=
  m.filterMap (fun e =>
    if (active now e.2).length = 0 then none else some (e.1, active now e.2))

/-- The array stored under the upper-cased service name (empty when there is none). -/
def stored (toUpperCase : String → String) (appName : String) (m : Services) :
    List ServiceInstance :=
  (mapGet (toUpperCase appName) m).getD []

/-- No two records under one service key have the same `instanceId`. -/
def UniqueIds (m : Services) : Prop :=
  ∀ e ∈ m, (e.2.map ServiceInstance.instanceId).Nodup

/-- No service key maps to an empty array. -/
def NoEmptyEntry (m : Services) : Prop :=
  ∀ e ∈ m, e.2 ≠ []

/-- The array that the registration handler stores for a service: the new record
replaces the first record with its `instanceId`, or is pushed when there is none. -/
def upsert (inst : ServiceInstance) (l : List ServiceInstance) : List ServiceInstance :=
  match findIndex (fun x => x.instanceId = inst.instanceId) l with
  | some i => l.set i inst
  | none => l ++ [inst]

/-- The three invariants of the `services` map together. -/
def Inv (m : Services) : Prop := IsMap m ∧ UniqueIds m ∧ NoEmptyEntry m

/-! ## Lemmas on the numbers -/

theorem bitLength_spec (fuel : Nat) : ∀ n : Nat, n ≤ fuel →
    n < 2 ^ bitLength fuel n ∧ (0 < n → 2 ^ (bitLength fuel n - 1) ≤ n) := by
  induction fuel with
  | zero =>
    intro n hn
    have : n = 0 := by omega
    subst this
    simp [bitLength]
  | succ fuel ih =>
    intro n hn
    by_cases h0 : n = 0
    · subst h0
      simp [bitLength]
    · have hhalf : n / 2 ≤ fuel := by omega
      obtain ⟨h1, h2⟩ := ih (n / 2) hhalf
      simp only [bitLength, h0, if_false, Nat.add_sub_cancel]
      constructor
      · rw [pow_succ]
        omega
      · intro _
        by_cases hz : n / 2 = 0
        · have hb : bitLength fuel (n / 2) = 0 := by
            rw [hz]
            cases fuel <;> simp [bitLength]
          rw [hb]
          simp
          omega
        · have h3 := h2 (Nat.pos_of_ne_zero hz)
          have h4 : 0 < bitLength fuel (n / 2) := by
            by_contra hc
            have : bitLength fuel (n / 2) = 0 := by omega
            rw [this] at h1
            simp at h1
            exact hz h1
          have h5 : 2 ^ bitLength fuel (n / 2) = 2 * 2 ^ (bitLength fuel (n / 2) - 1) := by
            rw [← pow_succ']
            congr 1
            omega
          rw [h5]
          omega

theorem log2Floor_le (r : ℚ) (hr : r ≠ 0) : (2 : ℚ) ^ log2Floor r ≤ |r| := by
  unfold log2Floor
  split_ifs with h
  · exact h
  · have hn : 0 < r.num.natAbs := Int.natAbs_pos.2 (Rat.num_ne_zero.2 hr)
    have hd : 0 < r.den := r.den_pos
    obtain ⟨_, hn2⟩ := bitLength_spec r.num.natAbs r.num.natAbs le_rfl
    obtain ⟨hd1, _⟩ := bitLength_spec r.den r.den le_rfl
    have hn3 := hn2 hn
    have habs : |r| = (r.num.natAbs : ℚ) / (r.den : ℚ) := by
      rw [← Rat.num_div_den r, abs_div, Rat.num_div_den]
      simp [Nat.cast_natAbs]
    rw [habs, le_div_iff₀ (by exact_mod_cast hd)]
    have hbn : 0 < bitLength r.num.natAbs r.num.natAbs := by
      by_contra hc
      have h0 : bitLength r.num.natAbs r.num.natAbs = 0 := by omega
      have := (bitLength_spec r.num.natAbs r.num.natAbs le_rfl).1
      rw [h0, pow_zero] at this
      omega
    have e1 : ((bitLength r.num.natAbs r.num.natAbs : ℤ) - (bitLength r.den r.den : ℤ) - 1) =
        ((bitLength r.num.natAbs r.num.natAbs - 1 : ℕ) : ℤ) - (bitLength r.den r.den : ℕ) := by
      rw [Nat.cast_sub (Nat.succ_le_of_lt hbn)]
      push_cast
      ring
    rw [e1, zpow_sub₀ (by norm_num : (2 : ℚ) ≠ 0), zpow_natCast, zpow_natCast]
    rw [div_mul_eq_mul_div, div_le_iff₀ (by positivity)]
    have hA : ((2 : ℚ) ^ (bitLength r.num.natAbs r.num.natAbs - 1)) ≤ (r.num.natAbs : ℚ) := by
      exact_mod_cast hn3
    have hB : (r.den : ℚ) ≤ (2 : ℚ) ^ bitLength r.den r.den := by
      exact_mod_cast hd1.le
    calc (2 : ℚ) ^ (bitLength r.num.natAbs r.num.natAbs - 1) * (r.den : ℚ)
        ≤ (r.num.natAbs : ℚ) * (r.den : ℚ) := by
          exact mul_le_mul_of_nonneg_right hA (by positivity)
      _ ≤ (r.num.natAbs : ℚ) * (2 : ℚ) ^ bitLength r.den r.den := by
          exact mul_le_mul_of_nonneg_left hB (by positivity)

theorem roundHalfEven_intCast (z : ℤ) : roundHalfEven (z : ℚ) = z := by
  simp [roundHalfEven]

theorem roundDouble_intCast (n : ℤ) (h : |n| < 2 ^ 53) : roundDouble (n : ℚ) = n := by
  by_cases h0 : n = 0
  · subst h0
    simp [roundDouble, roundHalfEven]
  · have hr : (n : ℚ) ≠ 0 := by exact_mod_cast h0
    have hle := log2Floor_le (n : ℚ) hr
    have hlt : |(n : ℚ)| < (2 : ℚ) ^ ((53 : ℕ) : ℤ) := by
      rw [zpow_natCast]
      exact_mod_cast h
    have hlf : log2Floor (n : ℚ) < ((53 : ℕ) : ℤ) :=
      (zpow_lt_zpow_iff_right₀ (by norm_num : (1 : ℚ) < 2)).1 (lt_of_le_of_lt hle hlt)
    have hu : ulpExponent (n : ℚ) ≤ 0 := by
      unfold ulpExponent
      exact max_le (by omega) (by norm_num)
    obtain ⟨k, hk⟩ : ∃ k : ℕ, ulpExponent (n : ℚ) = -(k : ℤ) :=
      ⟨(-ulpExponent (n : ℚ)).toNat, by omega⟩
    unfold roundDouble
    rw [hk, zpow_neg, zpow_natCast, div_inv_eq_mul]
    have : (n : ℚ) * (2 : ℚ) ^ k = ((n * 2 ^ k : ℤ) : ℚ) := by push_cast; ring
    rw [this, roundHalfEven_intCast]
    push_cast
    field_simp

theorem Num.ofRat_intCast (n : ℤ) (h : |n| < 2 ^ 53) : Num.ofRat (n : ℚ) = .fin (n : ℚ) := by
  have hq : |(n : ℚ)| < (2 : ℚ) ^ 53 := by exact_mod_cast h
  have h1 : (2 : ℚ) ^ 53 < (2 : ℚ) ^ 1024 := by norm_num
  obtain ⟨hlo, hhi⟩ := abs_lt.1 hq
  unfold Num.ofRat
  rw [roundDouble_intCast n h, if_neg (by linarith), if_neg (by linarith)]

theorem Num.add_intCast (a b : ℤ) (h : |a + b| < 2 ^ 53) :
    (Num.fin (a : ℚ)) + (Num.fin (b : ℚ)) = Num.fin ((a + b : ℤ) : ℚ) := by
  show Num.add _ _ = _
  simp only [Num.add]
  rw [← Int.cast_add, Num.ofRat_intCast _ h]

theorem Num.sub_intCast (a b : ℤ) (h : |a - b| < 2 ^ 53) :
    (Num.fin (a : ℚ)) - (Num.fin (b : ℚ)) = Num.fin ((a - b : ℤ) : ℚ) := by
  show Num.sub _ _ = _
  simp only [Num.sub, Num.neg, Num.add]
  rw [← sub_eq_add_neg, ← Int.cast_sub, Num.ofRat_intCast _ h]

/-! ## Lemmas on the map operations -/

theorem mapHas_eq_isSome (k : String) (m : Services) :
    mapHas k m = (mapGet k m).isSome := by
  induction m with
  | nil => rfl
  | cons e rest ih =>
    obtain ⟨k', v⟩ := e
    by_cases h : k' = k <;> simp [mapHas, mapGet, h, ih]

theorem mapHas_false_iff (k : String) (m : Services) :
    mapHas k m = false ↔ mapGet k m = none := by
  rw [mapHas_eq_isSome]; cases mapGet k m <;> simp

theorem mapHas_true_iff (k : String) (m : Services) :
    mapHas k m = true ↔ ∃ l, mapGet k m = some l := by
  rw [mapHas_eq_isSome]; cases mapGet k m <;> simp

theorem mapGet_mapSet_self (k : String) (v : List ServiceInstance) (m : Services) :
    mapGet k (mapSet k v m) = some v := by
  induction m with
  | nil => simp [mapSet, mapGet]
  | cons e rest ih =>
    obtain ⟨k', v'⟩ := e
    by_cases h : k' = k <;> simp [mapSet, mapGet, h, ih]

theorem mapGet_mapSet_ne {k k' : String} (h : k' ≠ k) (v : List ServiceInstance)
    (m : Services) : mapGet k' (mapSet k v m) = mapGet k' m := by
  induction m with
  | nil => simp [mapSet, mapGet, Ne.symm h]
  | cons e rest ih =>
    obtain ⟨k2, v2⟩ := e
    by_cases h2 : k2 = k
    · subst h2
      simp [mapSet, mapGet, Ne.symm h]
    · by_cases h3 : k2 = k'
      · subst h3
        simp [mapSet, mapGet, h2]
      · simp [mapSet, mapGet, h2, h3, ih]

theorem mapDelete_cons (k k' : String) (v : List ServiceInstance) (rest : Services) :
    mapDelete k ((k', v) :: rest) =
      if k' = k then mapDelete k rest else (k', v) :: mapDelete k rest := by
  by_cases h : k' = k <;> simp [mapDelete, List.filter_cons, h]

theorem mapGet_mapDelete_self (k : String) (m : Services) :
    mapGet k (mapDelete k m) = none := by
  induction m with
  | nil => rfl
  | cons e rest ih =>
    obtain ⟨k', v'⟩ := e
    rw [mapDelete_cons]
    by_cases h : k' = k <;> simp [mapGet, h, ih]

theorem mapGet_mapDelete_ne {k k' : String} (h : k' ≠ k) (m : Services) :
    mapGet k' (mapDelete k m) = mapGet k' m := by
  induction m with
  | nil => rfl
  | cons e rest ih =>
    obtain ⟨k2, v2⟩ := e
    rw [mapDelete_cons]
    by_cases h2 : k2 = k
    · subst h2
      simp [mapGet, Ne.symm h, ih]
    · by_cases h3 : k2 = k'
      · subst h3
        simp [mapGet, h2]
      · simp [mapGet, h2, h3, ih]

theorem mem_of_mapGet {k : String} {l : List ServiceInstance} {m : Services}
    (h : mapGet k m = some l) : (k, l) ∈ m := by
  induction m with
  | nil => simp [mapGet] at h
  | cons e rest ih =>
    obtain ⟨k', v'⟩ := e
    by_cases hk : k' = k
    · subst hk
      simp [mapGet] at h
      simp [h]
    · simp [mapGet, hk] at h
      exact List.mem_cons_of_mem _ (ih h)

theorem mem_mapSet {e : String × List ServiceInstance} {k : String}
    {v : List ServiceInstance} {m : Services} (h : e ∈ mapSet k v m) :
    e = (k, v) ∨ e ∈ m := by
  induction m with
  | nil => simp [mapSet] at h; exact Or.inl h
  | cons e' rest ih =>
    obtain ⟨k', v'⟩ := e'
    by_cases hk : k' = k
    · simp [mapSet, hk] at h
      rcases h with h | h
      · exact Or.inl h
      · exact Or.inr (List.mem_cons_of_mem _ h)
    · simp [mapSet, hk] at h
      rcases h with h | h
      · exact Or.inr (by simp [h])
      · rcases ih h with h1 | h1
        · exact Or.inl h1
        · exact Or.inr (List.mem_cons_of_mem _ h1)

theorem mem_mapDelete {e : String × List ServiceInstance} {k : String} {m : Services}
    (h : e ∈ mapDelete k m) : e ∈ m :=
  List.mem_of_mem_filter h

theorem keys_mapSet_of_has {k : String} (v : List ServiceInstance) {m : Services}
    (h : mapHas k m = true) : (mapSet k v m).map Prod.fst = m.map Prod.fst := by
  induction m with
  | nil => simp [mapHas] at h
  | cons e rest ih =>
    obtain ⟨k', v'⟩ := e
    by_cases hk : k' = k
    · simp [mapSet, hk]
    · simp [mapHas, hk] at h
      simp [mapSet, hk, ih h]

theorem not_mem_keys_of_mapHas_false {k : String} {m : Services}
    (h : mapHas k m = false) : k ∉ m.map Prod.fst := by
  induction m with
  | nil => simp
  | cons e rest ih =>
    obtain ⟨k', v'⟩ := e
    by_cases hk : k' = k
    · simp [mapHas, hk] at h
    · simp [mapHas, hk] at h
      simp only [List.map_cons, List.mem_cons, not_or]
      exact ⟨fun h' => hk h'.symm, ih h⟩

theorem keys_mapSet_of_not_has {k : String} (v : List ServiceInstance) {m : Services}
    (h : mapHas k m = false) : (mapSet k v m).map Prod.fst = m.map Prod.fst ++ [k] := by
  induction m with
  | nil => simp [mapSet]
  | cons e rest ih =>
    obtain ⟨k', v'⟩ := e
    by_cases hk : k' = k
    · simp [mapHas, hk] at h
    · simp [mapHas, hk] at h
      simp [mapSet, hk, ih h]

theorem isMap_mapSet (k : String) (v : List ServiceInstance) {m : Services}
    (h : IsMap m) : IsMap (mapSet k v m) := by
  unfold IsMap at h ⊢
  cases hk : mapHas k m
  · rw [keys_mapSet_of_not_has v hk]
    have := not_mem_keys_of_mapHas_false hk
    exact List.Nodup.append h (by simp) (by simpa using this)
  · rw [keys_mapSet_of_has v hk]; exact h

theorem isMap_mapDelete (k : String) {m : Services} (h : IsMap m) :
    IsMap (mapDelete k m) := by
  unfold IsMap at h ⊢
  exact (List.Nodup.sublist ((List.filter_sublist _).map Prod.fst) h)

theorem mapSet_eq_self {k : String} {l : List ServiceInstance} {m : Services}
    (h : mapGet k m = some l) : mapSet k l m = m := by
  induction m with
  | nil => simp [mapGet] at h
  | cons e rest ih =>
    obtain ⟨k', v'⟩ := e
    by_cases hk : k' = k
    · subst hk
      simp [mapGet] at h
      simp [mapSet, h]
    · simp [mapGet, hk] at h
      simp [mapSet, hk, ih h]

theorem mapSet_mapSet (k : String) (v w : List ServiceInstance) (m : Services) :
    mapSet k w (mapSet k v m) = mapSet k w m := by
  induction m with
  | nil => simp [mapSet]
  | cons e rest ih =>
    obtain ⟨k', v'⟩ := e
    by_cases hk : k' = k <;> simp [mapSet, hk, ih]

theorem mapDelete_eq_self {k : String} {m : Services} (h : mapHas k m = false) :
    mapDelete k m = m := by
  have := not_mem_keys_of_mapHas_false h
  unfold mapDelete
  rw [List.filter_eq_self]
  intro e he
  have : e.1 ≠ k := fun h' => this (h' ▸ List.mem_map_of_mem Prod.fst he)
  simpa using this

/-! ## The cleanup run in closed form -/

theorem mapDelete_append_cons {k : String} (v : List ServiceInstance) {p rest : Services}
    (hp : k ∉ p.map Prod.fst) (hr : k ∉ rest.map Prod.fst) :
    mapDelete k (p ++ (k, v) :: rest) = p ++ rest := by
  have h1 : mapDelete k p = p := by
    unfold mapDelete
    rw [List.filter_eq_self]
    intro e he
    have : e.1 ≠ k := fun h' => hp (h' ▸ List.mem_map_of_mem Prod.fst he)
    simpa using this
  have h2 : mapDelete k rest = rest := by
    unfold mapDelete
    rw [List.filter_eq_self]
    intro e he
    have : e.1 ≠ k := fun h' => hr (h' ▸ List.mem_map_of_mem Prod.fst he)
    simpa using this
  have h3 : mapDelete k (p ++ (k, v) :: rest) = mapDelete k p ++ mapDelete k ((k, v) :: rest) := by
    unfold mapDelete; exact List.filter_append _ _
  rw [h3, mapDelete_cons, if_pos rfl, h1, h2]

theorem mapSet_append_cons {k : String} (a v : List ServiceInstance) {p : Services}
    (rest : Services) (hp : k ∉ p.map Prod.fst) :
    mapSet k a (p ++ (k, v) :: rest) = p ++ (k, a) :: rest := by
  induction p with
  | nil => simp [mapSet]
  | cons e p ih =>
    obtain ⟨k', v'⟩ := e
    simp only [List.map_cons, List.mem_cons, not_or] at hp
    have hk : ¬ k' = k := fun h => hp.1 h.symm
    simp [mapSet, hk, ih hp.2]

theorem sweepEntry_eq (now : Int) (services : Services) (k : String)
    (v : List ServiceInstance) :
    sweepEntry now services (k, v) =
      if (active now v).length = 0 then mapDelete k services
      else if (active now v).length < v.length then mapSet k (active now v) services
      else services := rfl

theorem active_eq_self {now : Int} {v : List ServiceInstance}
    (h : ¬ (active now v).length < v.length) : active now v = v := by
  have hle : (active now v).length ≤ v.length := List.length_filter_le _ _
  have heq : (active now v).length = v.length := by omega
  unfold active at heq ⊢
  exact List.filter_eq_self.mpr (List.filter_length_eq_length.mp heq)

theorem sweepClosed_cons (now : Int) (k : String) (v : List ServiceInstance)
    (rest : Services) :
    sweepClosed now ((k, v) :: rest) =
      if (active now v).length = 0 then sweepClosed now rest
      else (k, active now v) :: sweepClosed now rest := by
  unfold sweepClosed
  rw [List.filterMap_cons]
  by_cases h0 : (active now v).length = 0
  · rw [if_pos h0]; simp only [h0, if_true]
  · rw [if_neg h0]; simp only [h0, if_false]

theorem sweep_fold (now : Int) (rest : Services) :
    ∀ p : Services, IsMap (p ++ rest) →
      List.foldl (sweepEntry now) (p ++ rest) rest = p ++ sweepClosed now rest := by
  induction rest with
  | nil => intro p _; simp [sweepClosed]
  | cons e rest ih =>
    intro p hmap
    obtain ⟨k, v⟩ := e
    have hnd : (p.map Prod.fst ++ k :: rest.map Prod.fst).Nodup := by
      simpa [IsMap] using hmap
    have hkp : k ∉ p.map Prod.fst := by
      intro hin
      exact (List.nodup_append.mp hnd).2.2 hin (List.mem_cons_self _ _)
    have hkr : k ∉ rest.map Prod.fst :=
      (List.nodup_cons.mp (List.nodup_append.mp hnd).2.1).1
    have hrest : IsMap (p ++ rest) := by
      unfold IsMap
      have hsub : List.Sublist (p ++ rest) (p ++ (k, v) :: rest) :=
        List.Sublist.append_left (List.sublist_cons_self _ _) _
      exact List.Nodup.sublist (hsub.map Prod.fst) hmap
    have hkeys : ∀ a : List ServiceInstance, IsMap ((p ++ [(k, a)]) ++ rest) := by
      intro a
      unfold IsMap
      simpa [IsMap] using hmap
    rw [List.foldl_cons, sweepEntry_eq]
    by_cases h0 : (active now v).length = 0
    · rw [if_pos h0, mapDelete_append_cons v hkp hkr, ih p hrest, sweepClosed_cons,
        if_pos h0]
    · rw [if_neg h0]
      by_cases h1 : (active now v).length < v.length
      · rw [if_pos h1, mapSet_append_cons _ v rest hkp]
        have := ih (p ++ [(k, active now v)]) (hkeys _)
        simp only [List.append_assoc, List.singleton_append] at this
        rw [this, sweepClosed_cons, if_neg h0]
      · rw [if_neg h1]
        have := ih (p ++ [(k, v)]) (hkeys _)
        simp only [List.append_assoc, List.singleton_append] at this
        rw [this, sweepClosed_cons, if_neg h0, active_eq_self h1]

theorem sweep_eq_sweepClosed (now : Int) {m : Services} (h : IsMap m) :
    sweep now m = sweepClosed now m := by
  have := sweep_fold now m [] (by simpa using h)
  simpa [sweep] using this

theorem mem_sweepClosed {now : Int} {m : Services} {e : String × List ServiceInstance}
    (h : e ∈ sweepClosed now m) :
    ∃ v, (e.1, v) ∈ m ∧ e.2 = active now v ∧ active now v ≠ [] := by
  unfold sweepClosed at h
  rw [List.mem_filterMap] at h
  obtain ⟨⟨k, v⟩, hmem, hv⟩ := h
  by_cases h0 : (active now v).length = 0
  · simp [h0] at hv
  · simp only [h0, if_false, Option.some.injEq] at hv
    subst hv
    exact ⟨v, hmem, rfl, fun hnil => h0 (by simp [hnil])⟩

theorem keys_sweepClosed_sublist (now : Int) (m : Services) :
    List.Sublist ((sweepClosed now m).map Prod.fst) (m.map Prod.fst) := by
  induction m with
  | nil => simp [sweepClosed]
  | cons e rest ih =>
    obtain ⟨k, v⟩ := e
    rw [sweepClosed_cons]
    by_cases h0 : (active now v).length = 0
    · rw [if_pos h0]
      exact List.Sublist.cons _ ih
    · rw [if_neg h0]
      exact List.Sublist.cons₂ _ ih

theorem isMap_sweep (now : Int) {m : Services} (h : IsMap m) : IsMap (sweep now m) := by
  rw [sweep_eq_sweepClosed now h]
  exact List.Nodup.sublist (keys_sweepClosed_sublist now m) h

theorem mapGet_none_of_not_mem_keys {k : String} {m : Services}
    (h : k ∉ m.map Prod.fst) : mapGet k m = none := by
  rw [← mapHas_false_iff]
  cases hh : mapHas k m
  · rfl
  · obtain ⟨l, hl⟩ := (mapHas_true_iff _ _).mp hh
    exact absurd (List.mem_map_of_mem Prod.fst (mem_of_mapGet hl)) h

theorem mapGet_sweepClosed (now : Int) (k : String) {m : Services} (h : IsMap m) :
    mapGet k (sweepClosed now m) =
      match mapGet k m with
      | none => none
      | some v => if (active now v).length = 0 then none else some (active now v) := by
  induction m with
  | nil => simp [sweepClosed, mapGet]
  | cons e rest ih =>
    obtain ⟨k', v⟩ := e
    have hrest : IsMap rest := (List.nodup_cons.mp h).2
    have hk' : k' ∉ rest.map Prod.fst := (List.nodup_cons.mp h).1
    have ih := ih hrest
    rw [sweepClosed_cons]
    by_cases hk : k' = k
    · subst hk
      by_cases h0 : (active now v).length = 0
      · rw [if_pos h0, ih, mapGet_none_of_not_mem_keys hk']
        simp only [mapGet, if_true, h0]
      · rw [if_neg h0]
        simp only [mapGet, if_true, h0, if_false]
    · by_cases h0 : (active now v).length = 0
      · rw [if_pos h0, ih]
        simp only [mapGet, hk, if_false]
      · rw [if_neg h0]
        simp only [mapGet, hk, if_false]
        exact ih

/-! ## The handlers in closed form -/

theorem serviceInstance_instanceId (b : InstanceBody) (iso : String) (now : Int) :
    (serviceInstance b iso now).instanceId = b.instanceId := rfl

theorem upsert_nil (inst : ServiceInstance) : upsert inst [] = [inst] := rfl

theorem upsert_cons (inst x : ServiceInstance) (xs : List ServiceInstance) :
    upsert inst (x :: xs) =
      if x.instanceId = inst.instanceId then inst :: xs else x :: upsert inst xs := by
  unfold upsert
  by_cases h : x.instanceId = inst.instanceId
  · simp [findIndex, h]
  · simp only [findIndex, h, decide_False, if_false, Bool.false_eq_true]
    cases findIndex (fun x => decide (x.instanceId = inst.instanceId)) xs <;> simp

theorem upsert_ne_nil (inst : ServiceInstance) (l : List ServiceInstance) :
    upsert inst l ≠ [] := by
  cases l with
  | nil => simp [upsert_nil]
  | cons x xs => rw [upsert_cons]; split <;> simp

theorem mem_upsert_self (inst : ServiceInstance) (l : List ServiceInstance) :
    inst ∈ upsert inst l := by
  induction l with
  | nil => simp [upsert_nil]
  | cons x xs ih =>
    rw [upsert_cons]
    split
    · exact List.mem_cons_self _ _
    · exact List.mem_cons_of_mem _ ih

theorem ids_upsert (inst : ServiceInstance) (l : List ServiceInstance) :
    (upsert inst l).map ServiceInstance.instanceId =
      if inst.instanceId ∈ l.map ServiceInstance.instanceId
      then l.map ServiceInstance.instanceId
      else l.map ServiceInstance.instanceId ++ [inst.instanceId] := by
  induction l with
  | nil => simp [upsert_nil]
  | cons x xs ih =>
    rw [upsert_cons]
    by_cases h : x.instanceId = inst.instanceId
    · simp [h]
    · have h' : ¬ inst.instanceId = x.instanceId := fun e => h e.symm
      rw [if_neg h, List.map_cons, ih]
      by_cases hm : inst.instanceId ∈ xs.map ServiceInstance.instanceId
      · rw [if_pos hm, if_pos (by simp [hm])]
        rfl
      · rw [if_neg hm, if_neg (by simpa [h'] using hm)]
        rfl

theorem nodup_ids_upsert (inst : ServiceInstance) {l : List ServiceInstance}
    (h : (l.map ServiceInstance.instanceId).Nodup) :
    ((upsert inst l).map ServiceInstance.instanceId).Nodup := by
  rw [ids_upsert]
  split
  · exact h
  · rename_i hm
    exact List.Nodup.append h (by simp) (by simpa using hm)

theorem register_invalid {toUpperCase : String → String} {appName : String}
    {b : InstanceBody} {iso : String} {now : Int} {services : Services}
    (h : (b.instanceId.truthy && b.hostName.truthy && b.port.truthy) = false) :
    register toUpperCase appName (some b) iso now services =
      (⟨400, .error "Invalid service instance data"⟩, services) := by
  simp only [register, h, Bool.not_false, if_true]

theorem register_valid {toUpperCase : String → String} {appName : String}
    {b : InstanceBody} {iso : String} {now : Int} {services : Services}
    (h : (b.instanceId.truthy && b.hostName.truthy && b.port.truthy) = true) :
    register toUpperCase appName (some b) iso now services =
      (⟨204, .empty⟩,
        mapSet (toUpperCase appName)
          (upsert (serviceInstance b iso now) (stored toUpperCase appName services))
          services) := by
  simp only [register, h, Bool.not_true, Bool.false_eq_true, if_false]
  cases hh : mapHas (toUpperCase appName) services
  · have hnone := (mapHas_false_iff _ _).mp hh
    simp only [Bool.false_eq_true, if_false, mapGet_mapSet_self, Option.getD_some,
      mapSet_mapSet, stored, hnone, Option.getD_none]
    rfl
  · simp only [if_true, stored]
    rfl

theorem register_none (toUpperCase : String → String) (appName : String)
    (iso : String) (now : Int) (services : Services) :
    register toUpperCase appName none iso now services =
      (⟨400, .error "Invalid service instance data"⟩, services) := rfl

theorem mutateFirst_ids (p : ServiceInstance → Bool) (iso : String) (now : Int)
    (l : List ServiceInstance) :
    (mutateFirst p (bump iso now) l).map ServiceInstance.instanceId =
      l.map ServiceInstance.instanceId := by
  induction l with
  | nil => rfl
  | cons x xs ih =>
    unfold mutateFirst
    split
    · rfl
    · simp [ih]

theorem mutateFirst_length (p : ServiceInstance → Bool)
    (f : ServiceInstance → ServiceInstance) (l : List ServiceInstance) :
    (mutateFirst p f l).length = l.length := by
  induction l with
  | nil => rfl
  | cons x xs ih =>
    unfold mutateFirst
    split <;> simp [ih]

theorem renew_eq (toUpperCase : String → String) (appName instanceId : String)
    (iso : String) (now : Int) (services : Services) :
    renew toUpperCase appName instanceId iso now services =
      match (stored toUpperCase appName services).find?
          (fun inst => inst.instanceId = .str instanceId) with
      | some inst =>
        (⟨200, .record (bump iso now inst)⟩,
          mapSet (toUpperCase appName)
            (mutateFirst (fun inst => inst.instanceId = .str instanceId) (bump iso now)
              (stored toUpperCase appName services)) services)
      | none => (⟨404, .error "Service instance not found"⟩, services) := by
  simp only [renew, stored]
  cases hh : mapHas (toUpperCase appName) services
  · rw [(mapHas_false_iff _ _).mp hh]
    simp
  · simp only [if_true]

theorem deregister_state (toUpperCase : String → String) (appName instanceId : String)
    (services : Services) :
    (deregister toUpperCase appName instanceId services).2 =
      if mapHas (toUpperCase appName) services then
        if (stored toUpperCase appName services).filter
            (fun inst => inst.instanceId ≠ .str instanceId) = []
        then mapDelete (toUpperCase appName) services
        else mapSet (toUpperCase appName)
          ((stored toUpperCase appName services).filter
            (fun inst => inst.instanceId ≠ .str instanceId)) services
      else services := by
  unfold deregister stored
  simp only [List.length_eq_zero]
  split
  · split <;> rfl
  · rfl

/-! ## Invariants of the reachable states -/

theorem allValues_mapSet (P : List ServiceInstance → Prop) {k : String}
    {v : List ServiceInstance} {m : Services} (hm : ∀ e ∈ m, P e.2) (hv : P v) :
    ∀ e ∈ mapSet k v m, P e.2 := by
  intro e he
  rcases mem_mapSet he with h | h
  · rw [h]; exact hv
  · exact hm e h

theorem uniqueIds_mapSet {k : String} {v : List ServiceInstance} {m : Services}
    (hm : UniqueIds m) (hv : (v.map ServiceInstance.instanceId).Nodup) :
    UniqueIds (mapSet k v m) :=
  allValues_mapSet (fun l => (l.map ServiceInstance.instanceId).Nodup) hm hv

theorem noEmptyEntry_mapSet {k : String} {v : List ServiceInstance} {m : Services}
    (hm : NoEmptyEntry m) (hv : v ≠ []) : NoEmptyEntry (mapSet k v m) :=
  allValues_mapSet (fun l => l ≠ []) hm hv

theorem uniqueIds_mapDelete {k : String} {m : Services} (hm : UniqueIds m) :
    UniqueIds (mapDelete k m) :=
  fun e he => hm e (mem_mapDelete he)

theorem noEmptyEntry_mapDelete {k : String} {m : Services} (hm : NoEmptyEntry m) :
    NoEmptyEntry (mapDelete k m) :=
  fun e he => hm e (mem_mapDelete he)

theorem stored_eq_of_mapGet {toUpperCase : String → String} {appName : String}
    {m : Services} {l : List ServiceInstance} (h : mapGet (toUpperCase appName) m = some l) :
    stored toUpperCase appName m = l := by
  simp [stored, h]

theorem nodup_ids_stored (toUpperCase : String → String) (appName : String)
    {m : Services} (hm : UniqueIds m) :
    ((stored toUpperCase appName m).map ServiceInstance.instanceId).Nodup := by
  unfold stored
  cases h : mapGet (toUpperCase appName) m with
  | none => simp
  | some l => exact hm _ (mem_of_mapGet h)

theorem stored_ne_nil_of_has {toUpperCase : String → String} {appName : String}
    {m : Services} (hm : NoEmptyEntry m) (h : mapHas (toUpperCase appName) m = true) :
    stored toUpperCase appName m ≠ [] := by
  obtain ⟨l, hl⟩ := (mapHas_true_iff _ _).mp h
  rw [stored_eq_of_mapGet hl]
  exact hm _ (mem_of_mapGet hl)

theorem inv_nil : Inv [] := by
  refine ⟨?_, ?_, ?_⟩
  · simp [IsMap]
  · intro e he; simp at he
  · intro e he; simp at he

theorem inv_register (toUpperCase : String → String) (appName : String)
    (body : Option InstanceBody) (iso : String) (now : Int) {m : Services} (h : Inv m) :
    Inv (register toUpperCase appName body iso now m).2 := by
  cases body with
  | none => exact h
  | some b =>
    cases hv : (b.instanceId.truthy && b.hostName.truthy && b.port.truthy)
    · rw [register_invalid hv]; exact h
    · rw [register_valid hv]
      obtain ⟨h1, h2, h3⟩ := h
      refine ⟨isMap_mapSet _ _ h1, ?_, ?_⟩
      · exact uniqueIds_mapSet h2
          (nodup_ids_upsert _ (nodup_ids_stored toUpperCase appName h2))
      · exact noEmptyEntry_mapSet h3 (upsert_ne_nil _ _)

theorem inv_renew (toUpperCase : String → String) (appName instanceId : String)
    (iso : String) (now : Int) {m : Services} (h : Inv m) :
    Inv (renew toUpperCase appName instanceId iso now m).2 := by
  rw [renew_eq]
  cases hf : (stored toUpperCase appName m).find?
      (fun inst => inst.instanceId = .str instanceId) with
  | none => exact h
  | some inst =>
    obtain ⟨h1, h2, h3⟩ := h
    refine ⟨isMap_mapSet _ _ h1, ?_, ?_⟩
    · refine uniqueIds_mapSet h2 ?_
      rw [mutateFirst_ids]
      exact nodup_ids_stored toUpperCase appName h2
    · refine noEmptyEntry_mapSet h3 ?_
      intro hnil
      have hlen := mutateFirst_length (fun inst => inst.instanceId = .str instanceId)
        (bump iso now) (stored toUpperCase appName m)
      rw [hnil] at hlen
      have hmem := List.mem_of_find?_eq_some hf
      have : stored toUpperCase appName m = [] := List.length_eq_zero.mp hlen.symm
      rw [this] at hmem
      simp at hmem

theorem inv_deregister (toUpperCase : String → String) (appName instanceId : String)
    {m : Services} (h : Inv m) :
    Inv (deregister toUpperCase appName instanceId m).2 := by
  rw [deregister_state]
  obtain ⟨h1, h2, h3⟩ := h
  split
  · split
    · exact ⟨isMap_mapDelete _ h1, uniqueIds_mapDelete h2, noEmptyEntry_mapDelete h3⟩
    · rename_i hne
      refine ⟨isMap_mapSet _ _ h1, uniqueIds_mapSet h2 ?_, noEmptyEntry_mapSet h3 hne⟩
      exact List.Nodup.sublist ((List.filter_sublist _).map _)
        (nodup_ids_stored toUpperCase appName h2)
  · exact ⟨h1, h2, h3⟩

theorem inv_sweep (now : Int) {m : Services} (h : Inv m) : Inv (sweep now m) := by
  obtain ⟨h1, h2, h3⟩ := h
  refine ⟨isMap_sweep now h1, ?_, ?_⟩
  · rw [sweep_eq_sweepClosed now h1]
    intro e he
    obtain ⟨v, hv, he2, _⟩ := mem_sweepClosed he
    rw [he2]
    exact List.Nodup.sublist ((List.filter_sublist _).map _) (h2 _ hv)
  · rw [sweep_eq_sweepClosed now h1]
    intro e he
    obtain ⟨v, _, he2, hne⟩ := mem_sweepClosed he
    rw [he2]
    exact hne

theorem inv_step (toUpperCase : String → String) (op : Op) {m : Services} (h : Inv m) :
    Inv (step toUpperCase m op) := by
  cases op with
  | register appName body iso now => exact inv_register toUpperCase appName body iso now h
  | renew appName instanceId iso now => exact inv_renew toUpperCase appName instanceId iso now h
  | deregister appName instanceId => exact inv_deregister toUpperCase appName instanceId h
  | sweep now => exact inv_sweep now h

theorem inv_run (toUpperCase : String → String) (ops : List Op) :
    ∀ {m : Services}, Inv m → Inv (run toUpperCase ops m) := by
  induction ops with
  | nil => intro m h; exact h
  | cons op ops ih =>
    intro m h
    exact ih (inv_step toUpperCase op h)

theorem inv_reachable (toUpperCase : String → String) (ops : List Op) :
    Inv (run toUpperCase ops []) :=
  inv_run toUpperCase ops inv_nil

/-! ## What the handlers store and answer -/

theorem stored_mapSet (toUpperCase : String → String) (appName : String)
    (v : List ServiceInstance) (m : Services) :
    stored toUpperCase appName (mapSet (toUpperCase appName) v m) = v := by
  simp [stored, mapGet_mapSet_self]

theorem stored_mapDelete (toUpperCase : String → String) (appName : String)
    (m : Services) : stored toUpperCase appName (mapDelete (toUpperCase appName) m) = [] := by
  simp [stored, mapGet_mapDelete_self]

theorem stored_of_not_has {toUpperCase : String → String} {appName : String}
    {m : Services} (h : mapHas (toUpperCase appName) m = false) :
    stored toUpperCase appName m = [] := by
  simp [stored, (mapHas_false_iff _ _).mp h]

theorem mapGet_of_has {toUpperCase : String → String} {appName : String}
    {m : Services} (h : mapHas (toUpperCase appName) m = true) :
    mapGet (toUpperCase appName) m = some (stored toUpperCase appName m) := by
  obtain ⟨l, hl⟩ := (mapHas_true_iff _ _).mp h
  simp [stored, hl]

theorem listInstances_instances (toUpperCase : String → String) (appName : String)
    (m : Services) :
    (listInstances toUpperCase appName m).instances =
      (stored toUpperCase appName m).filter (fun inst => inst.status = .str "UP") := by
  simp only [listInstances]
  cases hh : mapHas (toUpperCase appName) m
  · simp [Response.instances, stored_of_not_has hh]
  · simp [Response.instances, stored]

theorem listInstances_status (toUpperCase : String → String) (appName : String)
    (m : Services) :
    (listInstances toUpperCase appName m).status =
      if mapHas (toUpperCase appName) m then 200 else 404 := by
  simp only [listInstances]
  cases hh : mapHas (toUpperCase appName) m <;> simp

theorem active_eq_nil_of_length {now : Int} {v : List ServiceInstance}
    (h : (active now v).length = 0) : active now v = [] :=
  List.length_eq_zero.mp h

theorem mapGet_sweep (toUpperCase : String → String) (appName : String) (now : Int)
    {m : Services} (h : IsMap m) :
    mapGet (toUpperCase appName) (sweep now m) =
      if active now (stored toUpperCase appName m) = [] then none
      else some (active now (stored toUpperCase appName m)) := by
  rw [sweep_eq_sweepClosed now h, mapGet_sweepClosed now _ h]
  unfold stored
  cases hg : mapGet (toUpperCase appName) m with
  | none => simp [active]
  | some v => simp [List.length_eq_zero]

theorem stored_sweep (toUpperCase : String → String) (appName : String) (now : Int)
    {m : Services} (h : IsMap m) :
    stored toUpperCase appName (sweep now m) = active now (stored toUpperCase appName m) := by
  have hg := mapGet_sweep toUpperCase appName now h
  by_cases h0 : active now (stored toUpperCase appName m) = []
  · rw [if_pos h0] at hg
    rw [h0]
    simp [stored, hg]
  · rw [if_neg h0] at hg
    exact stored_eq_of_mapGet hg

theorem mem_active {now : Int} {l : List ServiceInstance} {inst : ServiceInstance} :
    inst ∈ active now l ↔
      inst ∈ l ∧ now - inst.leaseInfo.lastRenewalTimestamp < timeout := by
  simp [active]

theorem sweep_fresh {now : Int} {m : Services} (h : IsMap m)
    {e : String × List ServiceInstance} (he : e ∈ sweep now m)
    {inst : ServiceInstance} (hi : inst ∈ e.2) :
    now - inst.leaseInfo.lastRenewalTimestamp < timeout := by
  rw [sweep_eq_sweepClosed now h] at he
  obtain ⟨v, _, he2, _⟩ := mem_sweepClosed he
  rw [he2] at hi
  exact (mem_active.mp hi).2

theorem stored_deregister (toUpperCase : String → String) (appName instanceId : String)
    (m : Services) :
    stored toUpperCase appName (deregister toUpperCase appName instanceId m).2 =
      (stored toUpperCase appName m).filter
        (fun inst => inst.instanceId ≠ .str instanceId) := by
  rw [deregister_state]
  cases hh : mapHas (toUpperCase appName) m
  · simp [stored_of_not_has hh]
  · simp only [if_true]
    split
    · rename_i hnil
      rw [stored_mapDelete, hnil]
    · rw [stored_mapSet]

theorem deregister_status (toUpperCase : String → String) (appName instanceId : String)
    (m : Services) :
    (deregister toUpperCase appName instanceId m).1.status =
      if mapHas (toUpperCase appName) m then 200 else 404 := by
  simp only [deregister]
  cases hh : mapHas (toUpperCase appName) m
  · simp
  · simp only [if_true]
    split <;> rfl

theorem upsert_eq_set {x : ServiceInstance} :
    ∀ {l : List ServiceInstance} {k : Nat} {r : ServiceInstance},
      (l.map ServiceInstance.instanceId).Nodup → l[k]? = some r →
      r.instanceId = x.instanceId → upsert x l = l.set k x := by
  intro l
  induction l with
  | nil => intro k r _ hk _; simp at hk
  | cons y ys ih =>
    intro k r hnd hk hr
    rw [upsert_cons]
    rw [List.map_cons, List.nodup_cons] at hnd
    cases k with
    | zero =>
      simp at hk
      subst hk
      simp [hr]
    | succ k =>
      simp at hk
      have hmem : r ∈ ys := List.mem_iff_getElem?.mpr ⟨k, hk⟩
      have hne : ¬ y.instanceId = x.instanceId := by
        intro hy
        apply hnd.1
        rw [hy, ← hr]
        exact List.mem_map_of_mem _ hmem
      rw [if_neg hne, ih hnd.2 hk hr]
      rfl

theorem upsert_upsert (x : ServiceInstance) (l : List ServiceInstance) :
    upsert x (upsert x l) = upsert x l := by
  induction l with
  | nil => simp [upsert_nil, upsert_cons]
  | cons y ys ih =>
    rw [upsert_cons]
    by_cases h : y.instanceId = x.instanceId
    · simp [h, upsert_cons]
    · rw [if_neg h, upsert_cons, if_neg h, ih]

theorem mutateFirst_eq_set {p : ServiceInstance → Bool}
    {f : ServiceInstance → ServiceInstance} :
    ∀ {l : List ServiceInstance} {old : ServiceInstance}, l.find? p = some old →
      ∃ k, l[k]? = some old ∧ mutateFirst p f l = l.set k (f old) := by
  intro l
  induction l with
  | nil => intro old h; simp at h
  | cons y ys ih =>
    intro old h
    by_cases hp : p y = true
    · rw [List.find?_cons_of_pos _ hp] at h
      simp only [Option.some.injEq] at h
      subst h
      exact ⟨0, by simp, by simp [mutateFirst, hp]⟩
    · rw [List.find?_cons_of_neg _ hp] at h
      obtain ⟨k, hk1, hk2⟩ := ih h
      exact ⟨k + 1, by simpa using hk1, by simp [mutateFirst, hp, hk2]⟩

theorem register_status_204 {toUpperCase : String → String} {appName : String}
    {body : Option InstanceBody} {iso : String} {now : Int} {m : Services}
    (h : (register toUpperCase appName body iso now m).1.status = 204) :
    ∃ b, body = some b ∧
      (b.instanceId.truthy && b.hostName.truthy && b.port.truthy) = true := by
  cases body with
  | none => simp [register_none] at h
  | some b =>
    cases hv : (b.instanceId.truthy && b.hostName.truthy && b.port.truthy)
    · rw [register_invalid hv] at h; simp at h
    · exact ⟨b, rfl, hv⟩

/-! ## The claims -/

/-- C1, as stated, fails: instance `A1` registers for service `x` at time 0 and is never
renewed, the cleanup runs at 30 s, 60 s and 90 s, and the list answered at 91 s still holds
`A1`, whose age of 91 000 ms exceeds the lease duration stamped on it (90 s). -/
theorem listInstances_returns_expired :
    ∃ inst ∈ (listInstances asciiUpper "x" (run asciiUpper opsA1 [])).instances,
      inst.instanceId = .str "A1" ∧
      91000 - inst.leaseInfo.lastRenewalTimestamp > inst.leaseInfo.durationInSecs * 1000 :=
  ⟨serviceInstance bodyA1 "t0" 0, by decide, by decide, by decide⟩

/-- C1, as amended: in every reachable registry state the list answered by ListInstances
is exactly the stored instances of the service with status `UP` (the handler makes no
lease check), and right after a cleanup run at time `now` it holds no instance with
`now - lastRenewalTimestamp` of 120 000 ms or more. -/
theorem listInstances_after_sweep (toUpperCase : String → String) (ops : List Op)
    (appName : String) :
    (listInstances toUpperCase appName (run toUpperCase ops [])).instances =
        (stored toUpperCase appName (run toUpperCase ops [])).filter
          (fun inst => inst.status = .str "UP") ∧
    ∀ (now : Int) (inst : ServiceInstance),
      inst ∈ (listInstances toUpperCase appName
        (sweep now (run toUpperCase ops []))).instances →
      now - inst.leaseInfo.lastRenewalTimestamp < 120000 := by
  refine ⟨listInstances_instances _ _ _, ?_⟩
  intro now inst hi
  rw [listInstances_instances, stored_sweep _ _ _ (inv_reachable toUpperCase ops).1] at hi
  exact (mem_active.mp (List.mem_of_mem_filter hi)).2

/-- Witness of C1 as amended: `A1` registered at time 0 is still answered after the
cleanup run at 100 s, and its age is below 120 000 ms. -/
theorem listInstances_after_sweep_witness :
    serviceInstance bodyA1 "t0" 0 ∈
        (listInstances asciiUpper "x" (sweep 100000 (run asciiUpper opsA1 []))).instances ∧
      (100000 : Int) - (serviceInstance bodyA1 "t0" 0).leaseInfo.lastRenewalTimestamp
        < 120000 :=
  ⟨by decide,
    (listInstances_after_sweep asciiUpper opsA1 "x").2 100000 _ (by decide)⟩

/-- C2: right after Deregister, ListInstances for that service returns no instance with
that instanceId, whatever the timestamps are, and the array stored for the service is
the former array without the records of that instanceId, in the former order. -/
theorem deregister_removes (toUpperCase : String → String) (services : Services)
    (appName instanceId : String) :
    (∀ inst ∈ (listInstances toUpperCase appName
        (deregister toUpperCase appName instanceId services).2).instances,
      inst.instanceId ≠ .str instanceId) ∧
    stored toUpperCase appName (deregister toUpperCase appName instanceId services).2 =
      (stored toUpperCase appName services).filter
        (fun inst => inst.instanceId ≠ .str instanceId) := by
  refine ⟨?_, stored_deregister _ _ _ _⟩
  intro inst hi
  rw [listInstances_instances, stored_deregister] at hi
  have := List.mem_of_mem_filter hi
  simpa using (List.mem_filter.mp this).2

/-- Witness of C2: after `A1` and `A2` registered for `x`, deregistering `A1` leaves
exactly the record of `A2`. -/
theorem deregister_removes_witness :
    stored asciiUpper "x" (deregister asciiUpper "x" "A1" (run asciiUpper opsA1A2 [])).2 =
      [serviceInstance bodyA2 "t1" 1000] :=
  ((deregister_removes asciiUpper (run asciiUpper opsA1A2 []) "x" "A1").2).trans
    (by decide)

/-- C3: in every reachable registry state in which the service holds a record with the
body's instanceId at index `k`, an accepted Register answers 204, leaves the number of
instances of the service unchanged, puts the new record at index `k` and leaves every
other index unchanged; and in every state, registering the same accepted body a second
time at the same time gives the directory that registering it once gives. -/
theorem register_overwrites_in_place (toUpperCase : String → String) (ops : List Op)
    (appName : String) (b : InstanceBody) (iso : String) (now : Int)
    (hvalid : (register toUpperCase appName (some b) iso now
      (run toUpperCase ops [])).1.status = 204) :
    (∀ (k : Nat) (r : ServiceInstance),
      (stored toUpperCase appName (run toUpperCase ops []))[k]? = some r →
      r.instanceId = b.instanceId →
      (stored toUpperCase appName
          (register toUpperCase appName (some b) iso now (run toUpperCase ops [])).2).length =
        (stored toUpperCase appName (run toUpperCase ops [])).length ∧
      (stored toUpperCase appName
          (register toUpperCase appName (some b) iso now (run toUpperCase ops [])).2)[k]? =
        some (serviceInstance b iso now) ∧
      ∀ j : Nat, j ≠ k →
        (stored toUpperCase appName
            (register toUpperCase appName (some b) iso now (run toUpperCase ops [])).2)[j]? =
          (stored toUpperCase appName (run toUpperCase ops []))[j]?) ∧
    ∀ services : Services,
      (register toUpperCase appName (some b) iso now
          (register toUpperCase appName (some b) iso now services).2).2 =
        (register toUpperCase appName (some b) iso now services).2 := by
  obtain ⟨b', hb', hv⟩ := register_status_204 hvalid
  cases hb'
  constructor
  · intro k r hk hr
    have hnd := nodup_ids_stored toUpperCase appName (inv_reachable toUpperCase ops).2.1
    have hlt : k < (stored toUpperCase appName (run toUpperCase ops [])).length :=
      (List.getElem?_eq_some.mp hk).1
    rw [register_valid hv, stored_mapSet,
      upsert_eq_set hnd hk (hr.trans (serviceInstance_instanceId b iso now).symm)]
    refine ⟨List.length_set _ _ _, ?_, ?_⟩
    · exact List.getElem?_set_self hlt
    · intro j hj
      exact List.getElem?_set_ne (Ne.symm hj)
  · intro services
    rw [register_valid hv, register_valid hv, stored_mapSet, upsert_upsert, mapSet_mapSet]

/-- Witness of C3: `A1` and `A2` are registered for `x`; registering `A1` again puts
the new record at index 0 and keeps the two instances. -/
theorem register_overwrites_in_place_witness :
    (stored asciiUpper "x"
        (register asciiUpper "x" (some bodyA1) "t3" 3000 (run asciiUpper opsA1A2 [])).2).length
        = (stored asciiUpper "x" (run asciiUpper opsA1A2 [])).length ∧
      (stored asciiUpper "x"
        (register asciiUpper "x" (some bodyA1) "t3" 3000 (run asciiUpper opsA1A2 [])).2)[0]?
        = some (serviceInstance bodyA1 "t3" 3000) :=
  have h := (register_overwrites_in_place asciiUpper opsA1A2 "x" bodyA1 "t3" 3000
    (by decide)).1 0 (serviceInstance bodyA1 "t2" 2000) (by decide) (by decide)
  ⟨h.1, h.2.1⟩

/-- C4, as stated, fails: a body with status `DOWN` is accepted (answer 204), the record
stored for its instanceId has status `DOWN`, and ListInstances for the service right
after the registration returns no instance. -/
theorem register_keeps_body_status :
    (register asciiUpper "x" (some bodyDown) "t0" 0 []).1.status = 204 ∧
    (∀ inst ∈ stored asciiUpper "x" (register asciiUpper "x" (some bodyDown) "t0" 0 []).2,
      inst.instanceId = .str "A1" ∧ inst.status ≠ .str "UP") ∧
    (listInstances asciiUpper "x"
      (register asciiUpper "x" (some bodyDown) "t0" 0 []).2).instances = [] := by
  decide

/-- C4, as amended: for every body accepted by Register (answer 204) in a reachable
state, the record stored for that instanceId is the one built from the body: its
`lastRenewalTimestamp` is the registration time and its status is the status of the body
when that is truthy and `UP` otherwise; when the body has no truthy status or has the
status `UP`, ListInstances returns the instance right after the registration. -/
theorem register_stores_record (toUpperCase : String → String) (ops : List Op)
    (appName : String) (body : Option InstanceBody) (iso : String) (now : Int)
    (h204 : (register toUpperCase appName body iso now
      (run toUpperCase ops [])).1.status = 204) :
    ∃ b, body = some b ∧
      serviceInstance b iso now ∈ stored toUpperCase appName
        (register toUpperCase appName body iso now (run toUpperCase ops [])).2 ∧
      (∀ r ∈ stored toUpperCase appName
          (register toUpperCase appName body iso now (run toUpperCase ops [])).2,
        r.instanceId = b.instanceId → r = serviceInstance b iso now) ∧
      (serviceInstance b iso now).leaseInfo.lastRenewalTimestamp = now ∧
      (serviceInstance b iso now).status =
        (if b.status.truthy then b.status else .str "UP") ∧
      (b.status.truthy = false ∨ b.status = .str "UP" →
        serviceInstance b iso now ∈ (listInstances toUpperCase appName
          (register toUpperCase appName body iso now (run toUpperCase ops [])).2).instances) := by
  obtain ⟨b, hb, hv⟩ := register_status_204 h204
  subst hb
  have hinv : Inv (register toUpperCase appName (some b) iso now
      (run toUpperCase ops [])).2 :=
    inv_register toUpperCase appName (some b) iso now (inv_reachable toUpperCase ops)
  have hnd := nodup_ids_stored toUpperCase appName hinv.2.1
  have hmem : serviceInstance b iso now ∈ stored toUpperCase appName
      (register toUpperCase appName (some b) iso now (run toUpperCase ops [])).2 := by
    rw [register_valid hv, stored_mapSet]
    exact mem_upsert_self _ _
  have hstatus : (serviceInstance b iso now).status =
      (if b.status.truthy then b.status else .str "UP") := rfl
  refine ⟨b, rfl, hmem, ?_, rfl, hstatus, ?_⟩
  · intro r hr hid
    exact List.inj_on_of_nodup_map hnd hr hmem
      (hid.trans (serviceInstance_instanceId b iso now).symm)
  · intro hs
    rw [listInstances_instances]
    refine List.mem_filter.mpr ⟨hmem, ?_⟩
    rw [hstatus]
    rcases hs with hs | hs
    · simp [hs]
    · simp [hs]

/-- Witness of C4 as amended: the body of `A1` is accepted in the empty registry and
`A1` is returned by ListInstances right after. -/
theorem register_stores_record_witness :
    ∃ b, some bodyA1 = some b ∧
      serviceInstance b "t0" 0 ∈ (listInstances asciiUpper "x"
        (register asciiUpper "x" (some bodyA1) "t0" 0 (run asciiUpper [] [])).2).instances :=
  have ⟨b, hb, _, _, _, _, h⟩ :=
    register_stores_record asciiUpper [] "x" (some bodyA1) "t0" 0 (by decide)
  ⟨b, hb, h (Or.inr (by cases hb; decide))⟩

/-- C5: in every registry state reachable from the empty directory by register, renew,
deregister and cleanup runs, no two records stored under the same service key have the
same instanceId. -/
theorem instanceId_unique (toUpperCase : String → String) (ops : List Op)
    (e : String × List ServiceInstance) (he : e ∈ run toUpperCase ops []) :
    (e.2.map ServiceInstance.instanceId).Nodup :=
  (inv_reachable toUpperCase ops).2.1 e he

/-- Witness of C5: after `A1`, `A2` and again `A1` registered for `x`, the entry of `X`
holds the two instanceIds `A1` and `A2` once each. -/
theorem instanceId_unique_witness :
    ("X", [serviceInstance bodyA1 "t2" 2000, serviceInstance bodyA2 "t1" 1000]) ∈
        run asciiUpper opsA1A2 [] ∧
      ([serviceInstance bodyA1 "t2" 2000, serviceInstance bodyA2 "t1" 1000].map
        ServiceInstance.instanceId).Nodup :=
  ⟨by decide,
    instanceId_unique asciiUpper opsA1A2
      ("X", [serviceInstance bodyA1 "t2" 2000, serviceInstance bodyA2 "t1" 1000])
      (by decide)⟩

/-- C6: Renew answers 404 exactly when no record with that instanceId is stored under
the upper-cased service name, and then leaves the directory unchanged; otherwise it
answers 200 with the renewed record, the array of the service changes at the index of
that record only, no other service changes, and of the record only
`leaseInfo.lastRenewalTimestamp` (set to `now`) and `lastUpdated` change. -/
theorem renew_spec (toUpperCase : String → String) (services : Services)
    (appName instanceId : String) (iso : String) (now : Int) :
    ((renew toUpperCase appName instanceId iso now services).1.status = 404 ↔
      ∀ inst ∈ stored toUpperCase appName services, inst.instanceId ≠ .str instanceId) ∧
    ((renew toUpperCase appName instanceId iso now services).1.status = 404 →
      (renew toUpperCase appName instanceId iso now services).2 = services) ∧
    ((renew toUpperCase appName instanceId iso now services).1.status ≠ 404 →
      ∃ (k : Nat) (old : ServiceInstance),
        (stored toUpperCase appName services)[k]? = some old ∧
        old.instanceId = .str instanceId ∧
        (renew toUpperCase appName instanceId iso now services).1 =
          ⟨200, .record (bump iso now old)⟩ ∧
        stored toUpperCase appName (renew toUpperCase appName instanceId iso now services).2 =
          (stored toUpperCase appName services).set k (bump iso now old) ∧
        (∀ key : String, key ≠ toUpperCase appName →
          mapGet key (renew toUpperCase appName instanceId iso now services).2 =
            mapGet key services) ∧
        (renew toUpperCase appName instanceId iso now services).2.map Prod.fst =
          services.map Prod.fst ∧
        (bump iso now old).leaseInfo.lastRenewalTimestamp = now ∧
        (bump iso now old).instanceId = old.instanceId ∧
        (bump iso now old).hostName = old.hostName ∧
        (bump iso now old).port = old.port ∧
        (bump iso now old).status = old.status ∧
        (bump iso now old).healthCheckUrl = old.healthCheckUrl ∧
        (bump iso now old).statusPageUrl = old.statusPageUrl ∧
        (bump iso now old).homePageUrl = old.homePageUrl ∧
        (bump iso now old).leaseInfo.renewalIntervalInSecs =
          old.leaseInfo.renewalIntervalInSecs ∧
        (bump iso now old).leaseInfo.durationInSecs = old.leaseInfo.durationInSecs) := by
  rw [renew_eq]
  cases hf : (stored toUpperCase appName services).find?
      (fun inst => inst.instanceId = .str instanceId) with
  | none =>
    refine ⟨⟨fun _ inst hi => ?_, fun _ => rfl⟩, fun _ => rfl, fun h => absurd rfl h⟩
    simpa using List.find?_eq_none.mp hf inst hi
  | some old =>
    have hmem := List.mem_of_find?_eq_some hf
    have hid : old.instanceId = .str instanceId := by simpa using List.find?_some hf
    refine ⟨⟨fun h => by simp at h, fun h => absurd hid (h old hmem)⟩,
      fun h => by simp at h, fun _ => ?_⟩
    obtain ⟨k, hk, hset⟩ := mutateFirst_eq_set (f := bump iso now) hf
    have hhas : mapHas (toUpperCase appName) services = true := by
      cases hh : mapHas (toUpperCase appName) services
      · rw [stored_of_not_has hh] at hmem; simp at hmem
      · rfl
    refine ⟨k, old, hk, hid, rfl, ?_, ?_, ?_, rfl, rfl, rfl, rfl, rfl, rfl, rfl, rfl, rfl, rfl⟩
    · show stored toUpperCase appName (mapSet _ _ services) = _
      rw [stored_mapSet, hset]
    · intro key hkey
      exact mapGet_mapSet_ne hkey _ _
    · exact keys_mapSet_of_has _ hhas

/-- Witness of C6: `A1` and `A2` are registered for `x`; renewing `A2` at 50 s answers
200 and renewing the unknown `A3` answers 404. -/
theorem renew_spec_witness :
    (renew asciiUpper "x" "A2" "t5" 50000 (run asciiUpper opsA1A2 [])).1 =
        ⟨200, .record (bump "t5" 50000 (serviceInstance bodyA2 "t1" 1000))⟩ ∧
      (renew asciiUpper "x" "A3" "t5" 50000 (run asciiUpper opsA1A2 [])).2 =
        run asciiUpper opsA1A2 [] :=
  ⟨by decide,
    (renew_spec asciiUpper (run asciiUpper opsA1A2 []) "x" "A3" "t5" 50000).2.1 (by decide)⟩

/-- C7, as stated, fails: `A1` registers for `x` at time 0 and is never renewed; the PUT
at 91 s, when the age of the record exceeds the lease duration stamped on it (90 s),
answers 200 and sets the timestamp to 91 000. -/
theorem renew_accepts_expired :
    (∃ inst ∈ stored asciiUpper "x" (run asciiUpper opsA1 []),
      inst.instanceId = .str "A1" ∧
      91000 - inst.leaseInfo.lastRenewalTimestamp > inst.leaseInfo.durationInSecs * 1000) ∧
    (renew asciiUpper "x" "A1" "t9" 91000 (run asciiUpper opsA1 [])).1.status = 200 ∧
    (stored asciiUpper "x"
      (renew asciiUpper "x" "A1" "t9" 91000 (run asciiUpper opsA1 [])).2).map
        (fun inst => inst.leaseInfo.lastRenewalTimestamp) = [91000] :=
  ⟨⟨serviceInstance bodyA1 "t0" 0, by decide, by decide, by decide⟩, by decide, by decide⟩

/-- C7, as amended: Renew does not look at the lease.  While a record with that
instanceId is stored it answers 200, whatever the age of the record; it answers 404 for
an expired instance once the record is gone, as after a cleanup run at a time `swept`
at which every record of that instanceId had `swept - lastRenewalTimestamp` of
120 000 ms or more, and then it leaves the directory unchanged. -/
theorem renew_ignores_lease (toUpperCase : String → String) (services : Services)
    (appName instanceId : String) (iso : String) (now : Int) :
    ((∃ inst ∈ stored toUpperCase appName services, inst.instanceId = .str instanceId) →
      (renew toUpperCase appName instanceId iso now services).1.status = 200) ∧
    (∀ swept : Int, IsMap services →
      (∀ inst ∈ stored toUpperCase appName services, inst.instanceId = .str instanceId →
        120000 ≤ swept - inst.leaseInfo.lastRenewalTimestamp) →
      renew toUpperCase appName instanceId iso now (sweep swept services) =
        (⟨404, .error "Service instance not found"⟩, sweep swept services)) := by
  constructor
  · rintro ⟨inst, hi, hid⟩
    rw [renew_eq]
    cases hf : (stored toUpperCase appName services).find?
        (fun inst => inst.instanceId = .str instanceId) with
    | none =>
      have := List.find?_eq_none.mp hf inst hi
      simp [hid] at this
    | some old => rfl
  · intro swept hmap hall
    rw [renew_eq]
    have hnone : (stored toUpperCase appName (sweep swept services)).find?
        (fun inst => inst.instanceId = .str instanceId) = none := by
      rw [List.find?_eq_none, stored_sweep _ _ _ hmap]
      intro x hx
      obtain ⟨hx1, hx2⟩ := mem_active.mp hx
      intro hp
      have := hall x hx1 (by simpa using hp)
      simp only [timeout] at hx2
      omega
    rw [hnone]

/-- Witness of C7 as amended: `A1`, registered at time 0 and never renewed, is renewed
with 200 at 91 s; after the cleanup run at 120 s the PUT answers 404. -/
theorem renew_ignores_lease_witness :
    (renew asciiUpper "x" "A1" "t9" 91000 (run asciiUpper opsA1 [])).1.status = 200 ∧
      (renew asciiUpper "x" "A1" "t9" 121000 (sweep 120000 (run asciiUpper opsA1 []))).1.status
        = 404 :=
  ⟨(renew_ignores_lease asciiUpper (run asciiUpper opsA1 []) "x" "A1" "t9" 91000).1
      ⟨serviceInstance bodyA1 "t0" 0, by decide, by decide⟩,
    congrArg (fun r => r.1.status)
      ((renew_ignores_lease asciiUpper (run asciiUpper opsA1 []) "x" "A1" "t9" 121000).2
        120000 (by decide) (by decide))⟩

/-- C8, as stated, fails: Deregister for a service name that the directory does not know
answers 404, not 200; and after `A1`, the only instance of `x`, is deregistered with
200, deregistering it again answers 404. -/
theorem deregister_unknown_service :
    (deregister asciiUpper "x" "A1" []).1.status = 404 ∧
    (deregister asciiUpper "x" "A1"
      (run asciiUpper [.register "x" (some bodyA1) "t0" 0] [])).1.status = 200 ∧
    (deregister asciiUpper "x" "A1"
      (deregister asciiUpper "x" "A1"
        (run asciiUpper [.register "x" (some bodyA1) "t0" 0] [])).2).1.status = 404 := by
  decide

/-- C8, as amended: in every reachable registry state Deregister answers 200 exactly
when the directory has an entry for the upper-cased service name and 404 otherwise;
it leaves the directory unchanged when the service name is unknown and when the
instanceId is not registered under the service; and applying it twice gives the
directory that applying it once gives. -/
theorem deregister_spec (toUpperCase : String → String) (ops : List Op)
    (appName instanceId : String) :
    ((deregister toUpperCase appName instanceId (run toUpperCase ops [])).1.status = 200 ↔
      mapHas (toUpperCase appName) (run toUpperCase ops []) = true) ∧
    ((deregister toUpperCase appName instanceId (run toUpperCase ops [])).1.status = 404 ↔
      mapHas (toUpperCase appName) (run toUpperCase ops []) = false) ∧
    (mapHas (toUpperCase appName) (run toUpperCase ops []) = false →
      (deregister toUpperCase appName instanceId (run toUpperCase ops [])).2 =
        run toUpperCase ops []) ∧
    ((∀ inst ∈ stored toUpperCase appName (run toUpperCase ops []),
        inst.instanceId ≠ .str instanceId) →
      (deregister toUpperCase appName instanceId (run toUpperCase ops [])).2 =
        run toUpperCase ops []) ∧
    (deregister toUpperCase appName instanceId
        (deregister toUpperCase appName instanceId (run toUpperCase ops [])).2).2 =
      (deregister toUpperCase appName instanceId (run toUpperCase ops [])).2 := by
  have hinv := inv_reachable toUpperCase ops
  generalize run toUpperCase ops [] = m at hinv ⊢
  refine ⟨?_, ?_, ?_, ?_, ?_⟩
  · rw [deregister_status]
    cases mapHas (toUpperCase appName) m <;> simp
  · rw [deregister_status]
    cases mapHas (toUpperCase appName) m <;> simp
  · intro hh
    rw [deregister_state, hh]
    simp
  · intro hall
    rw [deregister_state]
    cases hh : mapHas (toUpperCase appName) m
    · simp
    · have hself : (stored toUpperCase appName m).filter
          (fun inst => inst.instanceId ≠ .str instanceId) = stored toUpperCase appName m := by
        rw [List.filter_eq_self]
        intro a ha
        simpa using hall a ha
      rw [hself]
      simp only [if_true]
      rw [if_neg (stored_ne_nil_of_has hinv.2.2 hh)]
      exact mapSet_eq_self (mapGet_of_has hh)
  · rw [deregister_state toUpperCase appName instanceId m]
    cases hh : mapHas (toUpperCase appName) m
    · simp only [Bool.false_eq_true, if_false]
      rw [deregister_state, hh]
      simp
    · simp only [if_true]
      by_cases hnil : (stored toUpperCase appName m).filter
          (fun inst => inst.instanceId ≠ .str instanceId) = []
      · rw [if_pos hnil, deregister_state]
        have : mapHas (toUpperCase appName) (mapDelete (toUpperCase appName) m) = false := by
          rw [mapHas_false_iff]; exact mapGet_mapDelete_self _ _
        rw [this]
        simp
      · rw [if_neg hnil, deregister_state]
        have : mapHas (toUpperCase appName)
            (mapSet (toUpperCase appName) ((stored toUpperCase appName m).filter
              (fun inst => inst.instanceId ≠ .str instanceId)) m) = true := by
          rw [mapHas_true_iff]; exact ⟨_, mapGet_mapSet_self _ _ _⟩
        rw [this, stored_mapSet, List.filter_filter]
        simp only [Bool.and_self, if_true]
        rw [if_neg hnil, mapSet_mapSet]

/-- Witness of C8 as amended: with `A1` and `A2` registered for `x`, deregistering the
unknown `A3` answers 200 and changes nothing. -/
theorem deregister_spec_witness :
    (deregister asciiUpper "x" "A3" (run asciiUpper opsA1A2 [])).1.status = 200 ∧
      (deregister asciiUpper "x" "A3" (run asciiUpper opsA1A2 [])).2 =
        run asciiUpper opsA1A2 [] :=
  ⟨(deregister_spec asciiUpper opsA1A2 "x" "A3").1.mpr (by decide),
    (deregister_spec asciiUpper opsA1A2 "x" "A3").2.2.2.1 (by decide)⟩

/-- C9, as stated, fails: `A1` registers at time 0 and is never renewed; after the
cleanup run at 100 s its record is still stored, although its age of 100 000 ms exceeds
the lease duration stamped on it (90 s). -/
theorem sweep_keeps_expired :
    ∃ e ∈ sweep 100000 (run asciiUpper [.register "x" (some bodyA1) "t0" 0] []),
      ∃ inst ∈ e.2,
        100000 - inst.leaseInfo.lastRenewalTimestamp > inst.leaseInfo.durationInSecs * 1000 :=
  ⟨("X", [serviceInstance bodyA1 "t0" 0]), by decide, serviceInstance bodyA1 "t0" 0,
    by decide, by decide⟩

/-- C9, as amended: for every registry state and cleanup time `now`, after one run of the
periodic cleanup no record remains whose `now - leaseInfo.lastRenewalTimestamp` is
120 000 ms (the timeout of the cleanup) or more. -/
theorem sweep_evicts_stale (now : Int) (services : Services) (hmap : IsMap services)
    (e : String × List ServiceInstance) (he : e ∈ sweep now services)
    (inst : ServiceInstance) (hi : inst ∈ e.2) :
    ¬ (120000 ≤ now - inst.leaseInfo.lastRenewalTimestamp) := by
  have := sweep_fresh hmap he hi
  simp only [timeout] at this
  omega

/-- Witness of C9 as amended: `A1` renewed at 2 s and `A2` registered at 1 s; the cleanup
run at 121.5 s drops `A2` and keeps `A1`, whose age is below 120 000 ms. -/
theorem sweep_evicts_stale_witness :
    ("X", [serviceInstance bodyA1 "t2" 2000]) ∈ sweep 121500 (run asciiUpper opsA1A2 []) ∧
      ¬ ((120000 : Int) ≤
        121500 - (serviceInstance bodyA1 "t2" 2000).leaseInfo.lastRenewalTimestamp) :=
  ⟨by decide,
    sweep_evicts_stale 121500 (run asciiUpper opsA1A2 []) (by decide)
      ("X", [serviceInstance bodyA1 "t2" 2000]) (by decide)
      (serviceInstance bodyA1 "t2" 2000) (by decide)⟩

/-- C10: in every registry state reachable from the empty directory by register, renew,
deregister and cleanup runs, every service key of the map has at least one instance; in
particular, when Deregister removes all instances of a service, or a cleanup run finds
all of them past its timeout, the key is deleted and ListInstances answers 404. -/
theorem no_empty_entries (toUpperCase : String → String) (ops : List Op) :
    (∀ e ∈ run toUpperCase ops [], e.2 ≠ []) ∧
    (∀ appName instanceId : String,
      (∀ inst ∈ stored toUpperCase appName (run toUpperCase ops []),
        inst.instanceId = .str instanceId) →
      mapHas (toUpperCase appName)
          (deregister toUpperCase appName instanceId (run toUpperCase ops [])).2 = false ∧
        (listInstances toUpperCase appName
          (deregister toUpperCase appName instanceId (run toUpperCase ops [])).2).status
          = 404) ∧
    (∀ (appName : String) (now : Int),
      (∀ inst ∈ stored toUpperCase appName (run toUpperCase ops []),
        120000 ≤ now - inst.leaseInfo.lastRenewalTimestamp) →
      mapHas (toUpperCase appName) (sweep now (run toUpperCase ops [])) = false ∧
        (listInstances toUpperCase appName (sweep now (run toUpperCase ops []))).status
          = 404) := by
  have hinv := inv_reachable toUpperCase ops
  generalize run toUpperCase ops [] = m at hinv ⊢
  have h404 : ∀ (appName : String) (m' : Services),
      mapHas (toUpperCase appName) m' = false →
      mapHas (toUpperCase appName) m' = false ∧
        (listInstances toUpperCase appName m').status = 404 := by
    intro appName m' h
    refine ⟨h, ?_⟩
    rw [listInstances_status, h]
    simp
  refine ⟨hinv.2.2, ?_, ?_⟩
  · intro appName instanceId hall
    apply h404
    rw [deregister_state]
    cases hh : mapHas (toUpperCase appName) m
    · simpa using hh
    · have hnil : (stored toUpperCase appName m).filter
          (fun inst => inst.instanceId ≠ .str instanceId) = [] := by
        rw [List.filter_eq_nil_iff]
        intro a ha
        simpa using hall a ha
      simp only [if_true]
      rw [if_pos hnil, mapHas_false_iff]
      exact mapGet_mapDelete_self _ _
  · intro appName now hall
    apply h404
    rw [mapHas_false_iff, mapGet_sweep toUpperCase appName now hinv.1]
    have hnil : active now (stored toUpperCase appName m) = [] := by
      unfold active
      rw [List.filter_eq_nil_iff]
      intro a ha
      have := hall a ha
      simp only [timeout, decide_eq_true_eq]
      omega
    rw [if_pos hnil]

/-- Witness of C10: with `A1` the only instance of `x`, deregistering `A1` deletes the
key and so does the cleanup run at 120 s; ListInstances then answers 404. -/
theorem no_empty_entries_witness :
    (listInstances asciiUpper "x"
        (deregister asciiUpper "x" "A1" (run asciiUpper opsA1 [])).2).status = 404 ∧
      (listInstances asciiUpper "x" (sweep 120000 (run asciiUpper opsA1 []))).status = 404 :=
  ⟨((no_empty_entries asciiUpper opsA1).2.1 "x" "A1" (by decide)).2,
    ((no_empty_entries asciiUpper opsA1).2.2 "x" 120000 (by decide)).2⟩

/-- C11, as stated, fails: the body of `A1` with the port given as the number 0 carries
an instanceId, a hostName and a port, and it is answered 400 with the directory left
unchanged (the same port given as the object with `$` equal to 0 is answered 204). -/
theorem register_rejects_port_zero :
    bodyPortZero.instanceId = .str "A1" ∧ bodyPortZero.hostName = .str "localhost" ∧
    bodyPortZero.port = .prim (.num 0) ∧
    register asciiUpper "x" (some bodyPortZero) "t0" 0 [] =
      (⟨400, .error "Invalid service instance data"⟩, []) ∧
    (register asciiUpper "x" (some bodyPortZeroObj) "t0" 0 []).1.status = 204 := by
  decide

/-- C11, as amended: Register answers 400 or 204; it answers 400, leaving the directory
unchanged, exactly when the body has no `instance` or one of `instanceId`, `hostName`,
`port` of the instance is falsy, which covers a missing property; it answers 204 and
stores the record for every body whose `instanceId` and `hostName` are truthy and whose
port is a number other than 0 or an object. -/
theorem register_validation (toUpperCase : String → String) (appName : String)
    (body : Option InstanceBody) (iso : String) (now : Int) (services : Services) :
    ((register toUpperCase appName body iso now services).1.status = 400 ∨
      (register toUpperCase appName body iso now services).1.status = 204) ∧
    ((register toUpperCase appName body iso now services).1.status = 400 ↔
      ∀ b, body = some b →
        (b.instanceId.truthy && b.hostName.truthy && b.port.truthy) = false) ∧
    ((register toUpperCase appName body iso now services).1.status = 400 →
      (register toUpperCase appName body iso now services).2 = services) ∧
    (∀ b, body = some b →
      b.instanceId = .undefined ∨ b.hostName = .undefined ∨ b.port = .prim .undefined →
      (register toUpperCase appName body iso now services).1.status = 400) ∧
    ((register toUpperCase appName body iso now services).1.status = 204 →
      ∃ b, body = some b ∧
        serviceInstance b iso now ∈
          stored toUpperCase appName (register toUpperCase appName body iso now services).2) ∧
    (∀ b, body = some b → b.instanceId.truthy = true → b.hostName.truthy = true →
      ((∃ p : Int, p ≠ 0 ∧ b.port = .prim (.num p)) ∨ ∃ d e, b.port = .obj d e) →
      (register toUpperCase appName body iso now services).1.status = 204) := by
  cases body with
  | none =>
    rw [register_none]
    refine ⟨Or.inl rfl, ⟨fun _ b hb => by simp at hb, fun _ => rfl⟩, fun _ => rfl,
      fun b hb => by simp at hb, fun h => by simp at h, fun b hb => by simp at hb⟩
  | some b =>
    cases hv : (b.instanceId.truthy && b.hostName.truthy && b.port.truthy)
    · rw [register_invalid hv]
      refine ⟨Or.inl rfl, ⟨fun _ b' hb' => ?_, fun _ => rfl⟩, fun _ => rfl,
        fun _ _ _ => rfl, fun h => by simp at h, fun b' hb' h1 h2 h3 => ?_⟩
      · cases hb'; exact hv
      · cases hb'
        have hp : b.port.truthy = true := by
          rcases h3 with ⟨p, hp0, hp⟩ | ⟨d, e, hp⟩
          · simp [hp, PortField.truthy, JsVal.truthy, hp0]
          · simp [hp, PortField.truthy]
        simp [h1, h2, hp] at hv
    · rw [register_valid hv]
      refine ⟨Or.inr rfl, ⟨fun h => by simp at h, fun h => ?_⟩, fun h => by simp at h,
        fun b' hb' h3 => ?_, fun _ => ⟨b, rfl, ?_⟩, fun _ _ _ _ _ => rfl⟩
      · have := h b rfl
        rw [hv] at this
        simp at this
      · cases hb'
        simp only [Bool.and_eq_true] at hv
        rcases h3 with h3 | h3 | h3
        · simp [h3, JsVal.truthy] at hv
        · simp [h3, JsVal.truthy] at hv
        · simp [h3, PortField.truthy, JsVal.truthy] at hv
      · rw [stored_mapSet]
        exact mem_upsert_self _ _

/-- Witness of C11 as amended: the body of `A1` with the port given as the number 3001
is answered 204, and a body without `instance` is answered 400. -/
theorem register_validation_witness :
    (register asciiUpper "x" (some bodyPortNumber) "t0" 0 []).1.status = 204 ∧
      (register asciiUpper "x" none "t0" 0 []).2 = [] :=
  ⟨(register_validation asciiUpper "x" (some bodyPortNumber) "t0" 0 []).2.2.2.2.2
      bodyPortNumber rfl (by decide) (by decide) (Or.inl ⟨3001, by decide, rfl⟩),
    (register_validation asciiUpper "x" none "t0" 0 []).2.2.1 (by decide)⟩

/-- C12: GET /eureka/v2/apps/:appName answers 404 exactly when the map has no entry for
the upper-cased service name; otherwise it answers 200 with the upper-cased name and
exactly the stored instances of the service whose status is `UP`, in stored order, which
is the empty list when no stored instance is `UP`. -/
theorem listInstances_spec (toUpperCase : String → String) (appName : String)
    (services : Services) :
    ((listInstances toUpperCase appName services).status = 404 ↔
      mapGet (toUpperCase appName) services = none) ∧
    (∀ l, mapGet (toUpperCase appName) services = some l →
      listInstances toUpperCase appName services =
        ⟨200, .application (toUpperCase appName)
          (l.filter (fun inst => inst.status = .str "UP"))⟩) ∧
    (∀ l, mapGet (toUpperCase appName) services = some l →
      (∀ inst ∈ l, inst.status ≠ .str "UP") →
      listInstances toUpperCase appName services =
        ⟨200, .application (toUpperCase appName) []⟩) := by
  have h2 : ∀ l, mapGet (toUpperCase appName) services = some l →
      listInstances toUpperCase appName services =
        ⟨200, .application (toUpperCase appName)
          (l.filter (fun inst => inst.status = .str "UP"))⟩ := by
    intro l hl
    have hh : mapHas (toUpperCase appName) services = true :=
      (mapHas_true_iff _ _).mpr ⟨l, hl⟩
    simp only [listInstances, hh, if_true, hl, Option.getD_some]
  refine ⟨?_, h2, ?_⟩
  · rw [listInstances_status, ← mapHas_false_iff]
    cases mapHas (toUpperCase appName) services <;> simp
  · intro l hl hall
    rw [h2 l hl]
    have : l.filter (fun inst => decide (inst.status = .str "UP")) = [] := by
      rw [List.filter_eq_nil_iff]
      intro a ha
      simpa using hall a ha
    rw [this]

/-- Witness of C12: with `A1` registered for `x` with status `DOWN`, the GET for `x`
answers 200 with an empty list and the GET for the unknown `z` answers 404. -/
theorem listInstances_spec_witness :
    listInstances asciiUpper "x" (run asciiUpper opsDown []) =
        ⟨200, .application "X" []⟩ ∧
      (listInstances asciiUpper "z" (run asciiUpper opsDown [])).status = 404 :=
  ⟨(listInstances_spec asciiUpper "x" (run asciiUpper opsDown [])).2.2
      [serviceInstance bodyDown "t0" 0] (by decide) (by decide),
    (listInstances_spec asciiUpper "z" (run asciiUpper opsDown [])).1.mpr (by decide)⟩

/-- C13: for every registry state, GET /eureka/v2/apps answers 200 with
`applications.application` a list that has one element for every service key of the
map, in the order of the map, each carrying the key as `name` and the whole array stored
for that key, whatever the status of its instances, as `instance`; the names that the
dashboard test reads are the keys of the map. -/
theorem listAll_snapshot (services : Services) (hmap : IsMap services) :
    (listAll services).status = 200 ∧
    (listAll services).applications.length = services.length ∧
    (listAll services).applications.map Application.name = services.map Prod.fst ∧
    ((listAll services).applications.map Application.name).Nodup ∧
    (∀ app ∈ (listAll services).applications,
      mapGet app.name services = some app.instances) ∧
    (∀ k l, mapGet k services = some l → ⟨k, l⟩ ∈ (listAll services).applications) := by
  have hnames : (listAll services).applications.map Application.name =
      services.map Prod.fst := by
    simp [listAll, Response.applications]
  refine ⟨rfl, by simp [listAll, Response.applications], hnames, hnames ▸ hmap, ?_, ?_⟩
  · intro app happ
    simp only [listAll, Response.applications, List.mem_map] at happ
    obtain ⟨e, he, rfl⟩ := happ
    clear hnames
    induction services with
    | nil => simp at he
    | cons e' rest ih =>
      obtain ⟨k', v'⟩ := e'
      have hk' : k' ∉ rest.map Prod.fst := (List.nodup_cons.mp hmap).1
      rcases List.mem_cons.mp he with h | h
      · subst h
        simp [mapGet]
      · have hne : ¬ k' = e.1 := fun hk => hk' (hk ▸ List.mem_map_of_mem Prod.fst h)
        simp only [mapGet, hne, if_false]
        exact ih (List.nodup_cons.mp hmap).2 h
  · intro k l hkl
    simp only [listAll, Response.applications, List.mem_map]
    exact ⟨(k, l), mem_of_mapGet hkl, rfl⟩

/-- Witness of C13: with `A1` registered for `x` with status `DOWN` and `A2` for `y`,
the names in the answer are `X` and `Y`, and the entry of `X` carries the `DOWN` record. -/
theorem listAll_snapshot_witness :
    (listAll (run asciiUpper opsDown [])).applications.map Application.name = ["X", "Y"] ∧
      (⟨"X", [serviceInstance bodyDown "t0" 0]⟩ : Application) ∈
        (listAll (run asciiUpper opsDown [])).applications :=
  ⟨((listAll_snapshot (run asciiUpper opsDown []) (by decide)).2.2.1).trans (by decide),
    (listAll_snapshot (run asciiUpper opsDown []) (by decide)).2.2.2.2.2 "X"
      [serviceInstance bodyDown "t0" 0] (by decide)⟩

/-! ## The discovery client -/

theorem cacheGet_cacheSet_self (k : String) (v : CacheEntry) (c : ServiceCache) :
    cacheGet k (cacheSet k v c) = some v := by
  induction c with
  | nil => simp [cacheSet, cacheGet]
  | cons e rest ih =>
    obtain ⟨k', v'⟩ := e
    by_cases h : k' = k <;> simp [cacheSet, cacheGet, h, ih]

theorem cacheGet_cacheSet_ne {k k' : String} (h : k' ≠ k) (v : CacheEntry)
    (c : ServiceCache) : cacheGet k' (cacheSet k v c) = cacheGet k' c := by
  induction c with
  | nil => simp [cacheSet, cacheGet, Ne.symm h]
  | cons e rest ih =>
    obtain ⟨k2, v2⟩ := e
    by_cases h2 : k2 = k
    · subst h2
      simp [cacheSet, cacheGet, Ne.symm h]
    · by_cases h3 : k2 = k'
      · subst h3
        simp [cacheSet, cacheGet, h2]
      · simp [cacheSet, cacheGet, h2, h3, ih]

theorem discoverService_fresh {toUpperCase : String → String} {serviceCache : ServiceCache}
    {serviceName : String} {now : Int} {cached : CacheEntry}
    (reply : RegistryReply) (fetched : Int)
    (hc : cacheGet (toUpperCase serviceName) serviceCache = some cached)
    (hf : now - cached.timestamp < cacheTimeout) :
    discoverService toUpperCase serviceCache serviceName now reply fetched =
      ⟨cached.instances, serviceCache, false⟩ := by
  simp only [discoverService, hc, hf, if_true]

theorem discoverService_miss {toUpperCase : String → String} {serviceCache : ServiceCache}
    {serviceName : String} {now : Int} (reply : RegistryReply) (fetched : Int)
    (hstale : ∀ cached, cacheGet (toUpperCase serviceName) serviceCache = some cached →
      ¬ (now - cached.timestamp < cacheTimeout)) :
    discoverService toUpperCase serviceCache serviceName now reply fetched =
      refresh (toUpperCase serviceName) serviceCache reply fetched := by
  simp only [discoverService]
  cases hc : cacheGet (toUpperCase serviceName) serviceCache with
  | none => rfl
  | some cached => simp only [hstale cached hc, if_false]

theorem getServiceInstance_of_nil {toUpperCase : String → String}
    {serviceCache : ServiceCache} {serviceName : String} {now : Int}
    {reply : RegistryReply} {fetched : Int} (draw : Draw)
    (h : (discoverService toUpperCase serviceCache serviceName now reply fetched).instances
      = []) :
    (getServiceInstance toUpperCase serviceCache serviceName now reply fetched draw).result =
      .error ("No instances available for service: " ++ serviceName) := by
  simp [getServiceInstance, h]

theorem getServiceInstance_error_iff {toUpperCase : String → String}
    {serviceCache : ServiceCache} {serviceName : String} {now : Int}
    {reply : RegistryReply} {fetched : Int} {draw : Draw} {msg : String} :
    (getServiceInstance toUpperCase serviceCache serviceName now reply fetched draw).result =
      .error msg →
    (discoverService toUpperCase serviceCache serviceName now reply fetched).instances
      = [] := by
  intro h
  by_contra hne
  have hlen : ¬ (discoverService toUpperCase serviceCache serviceName now reply
      fetched).instances.length = 0 := fun h0 => hne (List.length_eq_zero.mp h0)
  simp only [getServiceInstance, hlen, if_false] at h
  split at h <;> simp at h

/-- C14: when the cache holds an entry for the upper-cased name with
`now - timestamp < 30000`, `discoverService` returns exactly the cached instances, sends
no query and leaves the cache unchanged; otherwise it queries the registry and, when the
query is answered, returns the `UP` instances of the answer and stores that same list
under the upper-cased name with the time of storing as timestamp, no other entry of the
cache being changed. -/
theorem discoverService_cache (toUpperCase : String → String) (serviceCache : ServiceCache)
    (serviceName : String) (now : Int) (reply : RegistryReply) (fetched : Int) :
    (∀ cached, cacheGet (toUpperCase serviceName) serviceCache = some cached →
      now - cached.timestamp < 30000 →
      discoverService toUpperCase serviceCache serviceName now reply fetched =
        ⟨cached.instances, serviceCache, false⟩) ∧
    ((∀ cached, cacheGet (toUpperCase serviceName) serviceCache = some cached →
        ¬ (now - cached.timestamp < 30000)) →
      (discoverService toUpperCase serviceCache serviceName now reply fetched).queried
        = true ∧
      ∀ d, reply = .data d →
        (discoverService toUpperCase serviceCache serviceName now reply fetched).instances =
          (d.getD []).filter (fun inst => inst.status = .str "UP") ∧
        cacheGet (toUpperCase serviceName)
          (discoverService toUpperCase serviceCache serviceName now reply
            fetched).serviceCache =
          some ⟨(d.getD []).filter (fun inst => inst.status = .str "UP"), fetched⟩ ∧
        ∀ k, k ≠ toUpperCase serviceName →
          cacheGet k (discoverService toUpperCase serviceCache serviceName now reply
            fetched).serviceCache = cacheGet k serviceCache) := by
  refine ⟨fun cached hc hf => discoverService_fresh reply fetched hc hf, fun hstale => ?_⟩
  rw [discoverService_miss reply fetched hstale]
  cases reply with
  | failed => exact ⟨rfl, fun d hd => by simp at hd⟩
  | data d' =>
    refine ⟨rfl, fun d hd => ?_⟩
    cases hd
    exact ⟨rfl, cacheGet_cacheSet_self _ _ _, fun k hk => cacheGet_cacheSet_ne hk _ _⟩

/-- Witness of C14: with `A1` cached for `X` at time 0, the lookup of `x` at 29.999 s is
served from the cache without a query; at 30 s the registry is queried and its answer,
the empty list, is returned and stored with the timestamp 30 005. -/
theorem discoverService_cache_witness :
    discoverService asciiUpper cacheA1 "x" 29999 .failed 29999 = ⟨[recordA1], cacheA1, false⟩ ∧
      cacheGet "X" (discoverService asciiUpper cacheA1 "x" 30000 (.data (some []))
        30005).serviceCache = some ⟨[], 30005⟩ :=
  ⟨(discoverService_cache asciiUpper cacheA1 "x" 29999 .failed 29999).1
      ⟨[recordA1], 0⟩ (by decide) (by decide),
    (((discoverService_cache asciiUpper cacheA1 "x" 30000 (.data (some [])) 30005).2
      (by decide)).2 (some []) rfl).2.1⟩

/-- C15: when the cache entry of the service has `now - timestamp >= 30000`, the list
that `discoverService` returns does not come from the cache: it is the list of `UP`
instances of the registry's answer, or the empty list when the query fails, and it is
the list that the same call returns on an empty cache. -/
theorem discoverService_never_stale (toUpperCase : String → String)
    (serviceCache : ServiceCache) (serviceName : String) (now : Int)
    (reply : RegistryReply) (fetched : Int) (cached : CacheEntry)
    (hc : cacheGet (toUpperCase serviceName) serviceCache = some cached)
    (hstale : 30000 ≤ now - cached.timestamp) :
    (discoverService toUpperCase serviceCache serviceName now reply fetched).instances =
      (match reply with
        | .failed => []
        | .data d => (d.getD []).filter (fun inst => inst.status = .str "UP")) ∧
    (discoverService toUpperCase serviceCache serviceName now reply fetched).instances =
      (discoverService toUpperCase [] serviceName now reply fetched).instances ∧
    (discoverService toUpperCase serviceCache serviceName now reply fetched).queried
      = true := by
  have hmiss : ∀ c, cacheGet (toUpperCase serviceName) serviceCache = some c →
      ¬ (now - c.timestamp < cacheTimeout) := by
    intro c hc'
    rw [hc] at hc'
    cases hc'
    simp only [cacheTimeout]
    omega
  have hempty : ∀ c, cacheGet (toUpperCase serviceName) [] = some c →
      ¬ (now - c.timestamp < cacheTimeout) := fun c h => by simp [cacheGet] at h
  rw [discoverService_miss reply fetched hmiss, discoverService_miss reply fetched hempty]
  cases reply <;> exact ⟨rfl, rfl, rfl⟩

/-- Witness of C15: with `A1` cached for `X` at time 0, the lookup of `x` at 30 s with a
failing registry returns the empty list, not the cached `A1`. -/
theorem discoverService_never_stale_witness :
    (discoverService asciiUpper cacheA1 "x" 30000 .failed 30000).instances = [] :=
  (discoverService_never_stale asciiUpper cacheA1 "x" 30000 .failed 30000 ⟨[recordA1], 0⟩
    (by decide) (by decide)).1

/-- C16, as stated, fails: the cache holds `A1` for `X`, fetched at time 0; at 31 s the
registry query fails, and `discoverService` returns the empty list instead of the cached
`A1`, so that `getServiceInstance` throws although the cached list is not empty. -/
theorem discoverService_drops_stale_on_failure :
    cacheGet "X" cacheA1 = some ⟨[recordA1], 0⟩ ∧
    (discoverService asciiUpper cacheA1 "x" 31000 .failed 31000).instances = [] ∧
    (getServiceInstance asciiUpper cacheA1 "x" 31000 .failed 31000 drawHalf).result =
      .error "No instances available for service: x" := by
  decide

/-- C16, as amended: when the registry query fails and the cache holds no entry for the
service or one with `now - timestamp >= 30000`, `discoverService` returns the empty list
and leaves the cache unchanged, and `getServiceInstance` throws the no-instances error;
cached instances are returned only from an entry with `now - timestamp < 30000`, and
then without a query. -/
theorem discoverService_on_failure (toUpperCase : String → String)
    (serviceCache : ServiceCache) (serviceName : String) (now : Int) (fetched : Int)
    (draw : Draw) :
    ((∀ cached, cacheGet (toUpperCase serviceName) serviceCache = some cached →
        30000 ≤ now - cached.timestamp) →
      discoverService toUpperCase serviceCache serviceName now .failed fetched =
        ⟨[], serviceCache, true⟩ ∧
      getServiceInstance toUpperCase serviceCache serviceName now .failed fetched draw =
        ⟨.error ("No instances available for service: " ++ serviceName),
          serviceCache, true⟩) ∧
    (∀ cached, cacheGet (toUpperCase serviceName) serviceCache = some cached →
      now - cached.timestamp < 30000 →
      discoverService toUpperCase serviceCache serviceName now .failed fetched =
        ⟨cached.instances, serviceCache, false⟩) := by
  refine ⟨fun hstale => ?_, fun cached hc hf => discoverService_fresh _ fetched hc hf⟩
  have hmiss : ∀ c, cacheGet (toUpperCase serviceName) serviceCache = some c →
      ¬ (now - c.timestamp < cacheTimeout) := by
    intro c hc
    have := hstale c hc
    simp only [cacheTimeout]
    omega
  have hd : discoverService toUpperCase serviceCache serviceName now .failed fetched =
      ⟨[], serviceCache, true⟩ := by
    rw [discoverService_miss _ fetched hmiss]
    rfl
  refine ⟨hd, ?_⟩
  simp [getServiceInstance, hd]

/-- Witness of C16 as amended: with `A1` cached for `X` at time 0 and a failing registry,
the lookup at 31 s returns the empty list and the lookup at 10 s returns `A1`. -/
theorem discoverService_on_failure_witness :
    discoverService asciiUpper cacheA1 "x" 31000 .failed 31000 = ⟨[], cacheA1, true⟩ ∧
      discoverService asciiUpper cacheA1 "x" 10000 .failed 10000 =
        ⟨[recordA1], cacheA1, false⟩ :=
  ⟨((discoverService_on_failure asciiUpper cacheA1 "x" 31000 31000 drawHalf).1
      (by decide)).1,
    (discoverService_on_failure asciiUpper cacheA1 "x" 10000 10000 drawHalf).2
      ⟨[recordA1], 0⟩ (by decide) (by decide)⟩

/-- C17: for every service name with no cache entry or only an expired one, when the
registry answers with an instance list that holds no `UP` instance (an empty list, or
none at all), `getServiceInstance` throws the error
`No instances available for service: ` followed by the name, and returns no URL. -/
theorem getServiceInstance_exhausted (toUpperCase : String → String)
    (serviceCache : ServiceCache) (serviceName : String) (now : Int)
    (d : Option (List ServiceInstance)) (fetched : Int) (draw : Draw)
    (hmiss : ∀ cached, cacheGet (toUpperCase serviceName) serviceCache = some cached →
      30000 ≤ now - cached.timestamp)
    (hnoUp : ∀ inst ∈ d.getD [], inst.status ≠ .str "UP") :
    (getServiceInstance toUpperCase serviceCache serviceName now (.data d) fetched
      draw).result = .error ("No instances available for service: " ++ serviceName) ∧
    ∀ u, (getServiceInstance toUpperCase serviceCache serviceName now (.data d) fetched
      draw).result ≠ .url u := by
  have hmiss' : ∀ c, cacheGet (toUpperCase serviceName) serviceCache = some c →
      ¬ (now - c.timestamp < cacheTimeout) := by
    intro c hc
    have := hmiss c hc
    simp only [cacheTimeout]
    omega
  have hnil : (discoverService toUpperCase serviceCache serviceName now (.data d)
      fetched).instances = [] := by
    rw [discoverService_miss _ fetched hmiss']
    simp only [refresh]
    rw [List.filter_eq_nil_iff]
    intro a ha
    simpa using hnoUp a ha
  have herr := getServiceInstance_of_nil draw hnil
  refine ⟨herr, fun u hu => ?_⟩
  rw [herr] at hu
  exact Resolution.noConfusion hu

/-- Witness of C17: the only instance registered for `x` has status `DOWN`; with an
empty cache, `getServiceInstance` for `x` throws the no-instances error. -/
theorem getServiceInstance_exhausted_witness :
    (getServiceInstance asciiUpper [] "x" 0
      (registryReply asciiUpper (run asciiUpper opsDown []) "x") 5 drawHalf).result =
      .error "No instances available for service: x" :=
  (getServiceInstance_exhausted asciiUpper [] "x" 0 (some []) 5 drawHalf
    (by decide) (by decide)).1

/-- C18, as stated, fails: the only instance registered for `x` has status `DOWN`; a
first lookup with an empty cache queries the registry and stores the empty list with the
timestamp 5; the lookup at 1 s then throws the no-instances error although the cache
holds an unexpired entry for the service and no query is made in that call. -/
theorem no_instances_from_cache :
    cacheGet "X" (getServiceInstance asciiUpper [] "x" 0
      (registryReply asciiUpper (run asciiUpper opsDown []) "x") 5 drawHalf).serviceCache =
      some ⟨[], 5⟩ ∧
    (1000 : Int) - 5 < 30000 ∧
    getServiceInstance asciiUpper
      (getServiceInstance asciiUpper [] "x" 0
        (registryReply asciiUpper (run asciiUpper opsDown []) "x") 5 drawHalf).serviceCache
      "x" 1000 (.data (some [recordA1])) 1000 drawHalf =
      ⟨.error "No instances available for service: x", [("X", ⟨[], 5⟩)], false⟩ := by
  decide

/-- C18, as amended: whenever `getServiceInstance` throws the no-instances error, either
the cache held an unexpired entry for the service whose instance list is empty, and no
query was made; or the cache held no unexpired entry for the service and a query was
made in that call which failed or returned no `UP` instance. -/
theorem no_instances_error_cases (toUpperCase : String → String)
    (serviceCache : ServiceCache) (serviceName : String) (now : Int)
    (reply : RegistryReply) (fetched : Int) (draw : Draw) (msg : String)
    (herr : (getServiceInstance toUpperCase serviceCache serviceName now reply fetched
      draw).result = .error msg) :
    (∃ cached, cacheGet (toUpperCase serviceName) serviceCache = some cached ∧
      now - cached.timestamp < 30000 ∧ cached.instances = [] ∧
      (getServiceInstance toUpperCase serviceCache serviceName now reply fetched
        draw).queried = false) ∨
    ((∀ cached, cacheGet (toUpperCase serviceName) serviceCache = some cached →
        30000 ≤ now - cached.timestamp) ∧
      (getServiceInstance toUpperCase serviceCache serviceName now reply fetched
        draw).queried = true ∧
      (reply = .failed ∨ ∃ d, reply = .data d ∧
        (d.getD []).filter (fun inst => inst.status = .str "UP") = [])) := by
  have hnil := getServiceInstance_error_iff herr
  have hq : (getServiceInstance toUpperCase serviceCache serviceName now reply fetched
      draw).queried =
      (discoverService toUpperCase serviceCache serviceName now reply fetched).queried := by
    simp only [getServiceInstance]
    split
    · rfl
    · split <;> rfl
  rw [hq]
  by_cases hfresh : ∃ cached, cacheGet (toUpperCase serviceName) serviceCache = some cached ∧
      now - cached.timestamp < cacheTimeout
  · obtain ⟨cached, hc, hf⟩ := hfresh
    left
    rw [discoverService_fresh reply fetched hc hf] at hnil ⊢
    exact ⟨cached, hc, hf, hnil, rfl⟩
  · right
    have hmiss : ∀ c, cacheGet (toUpperCase serviceName) serviceCache = some c →
        ¬ (now - c.timestamp < cacheTimeout) := fun c hc hf => hfresh ⟨c, hc, hf⟩
    rw [discoverService_miss reply fetched hmiss] at hnil ⊢
    refine ⟨fun c hc => ?_, ?_, ?_⟩
    · have := hmiss c hc
      simp only [cacheTimeout] at this
      omega
    · cases reply <;> rfl
    · cases reply with
      | failed => exact Or.inl rfl
      | data d => exact Or.inr ⟨d, rfl, hnil⟩

/-- Witness of C18 as amended: with `A1` cached for `X` at time 0 and a failing registry,
the lookup at 31 s throws the no-instances error after a query. -/
theorem no_instances_error_cases_witness :
    (getServiceInstance asciiUpper cacheA1 "x" 31000 .failed 31000 drawHalf).result =
        .error "No instances available for service: x" ∧
      ((∃ cached, cacheGet (asciiUpper "x") cacheA1 = some cached ∧
        (31000 : Int) - cached.timestamp < 30000 ∧ cached.instances = [] ∧
        (getServiceInstance asciiUpper cacheA1 "x" 31000 .failed 31000 drawHalf).queried
          = false) ∨
      ((∀ cached, cacheGet (asciiUpper "x") cacheA1 = some cached →
          30000 ≤ (31000 : Int) - cached.timestamp) ∧
        (getServiceInstance asciiUpper cacheA1 "x" 31000 .failed 31000 drawHalf).queried
          = true ∧
        (RegistryReply.failed = .failed ∨ ∃ d, RegistryReply.failed = .data d ∧
          (d.getD []).filter (fun inst => inst.status = .str "UP") = []))) :=
  ⟨by decide,
    no_instances_error_cases asciiUpper cacheA1 "x" 31000 .failed 31000 drawHalf
      "No instances available for service: x" (by decide)⟩

/-! ## The instance selection -/

theorem rne_cases (p sh : Nat) :
    rne p sh = p / 2 ^ sh ∨ (rne p sh = p / 2 ^ sh + 1 ∧ 2 ^ sh ≤ 2 * (p % 2 ^ sh)) := by
  unfold rne
  split
  · rename_i h
    right
    refine ⟨rfl, ?_⟩
    rcases h with h | ⟨h, _⟩ <;> omega
  · left; rfl

theorem pow_excess_lt {m n : Nat} (hm : m < 2 ^ 53) (hn : 0 < n) :
    2 ^ excess (m * n) < 2 * n := by
  by_cases h : excess (m * n) = 0
  · rw [h]; omega
  · have hsize : excess (m * n) + 52 < Nat.size (m * n) := by
      unfold excess at h ⊢; omega
    have h1 : 2 ^ (excess (m * n) + 52) ≤ m * n := Nat.lt_size.mp hsize
    have h2 : m * n < 2 ^ 53 * n := Nat.mul_lt_mul_of_pos_right hm hn
    rw [pow_add] at h1
    have h3 : 2 ^ excess (m * n) * 2 ^ 52 < (2 * n) * 2 ^ 52 := by
      calc 2 ^ excess (m * n) * 2 ^ 52 ≤ m * n := h1
        _ < 2 ^ 53 * n := h2
        _ = (2 * n) * 2 ^ 52 := by ring
    exact Nat.lt_of_mul_lt_mul_right h3

theorem excess_le {d : Draw} {n : Nat} (hd : d.Valid) (hn : n < 2 ^ 53) :
    excess (d.m * n) ≤ d.k := by
  have h : d.m * n < 2 ^ (d.k + 53) := by
    rw [pow_add]
    exact Nat.mul_lt_mul'' hd.2 hn
  have := Nat.size_le.mpr h
  unfold excess
  omega

theorem selectIndex_lt {d : Draw} {n : Nat} (hd : d.Valid) (hn : 0 < n) :
    selectIndex d n < n := by
  unfold selectIndex
  rw [Nat.div_lt_iff_lt_mul (by positivity)]
  have hA := pow_excess_lt hd.1 hn
  have hp : d.m * n + n ≤ n * 2 ^ d.k := by
    have := Nat.mul_le_mul_right n (Nat.succ_le_of_lt hd.2)
    calc d.m * n + n = (d.m + 1) * n := by ring
      _ ≤ 2 ^ d.k * n := this
      _ = n * 2 ^ d.k := by ring
  have hdm := Nat.div_add_mod (d.m * n) (2 ^ excess (d.m * n))
  rcases rne_cases (d.m * n) (excess (d.m * n)) with h | ⟨h, hr⟩
  · rw [h]
    have := Nat.div_mul_le_self (d.m * n) (2 ^ excess (d.m * n))
    omega
  · rw [h, Nat.add_mul, one_mul]
    have := Nat.div_mul_le_self (d.m * n) (2 ^ excess (d.m * n))
    rw [Nat.mul_comm] at hdm
    omega

theorem selectIndex_bounds {d : Draw} {n : Nat} (hd : d.Valid) (hn : n < 2 ^ 53) :
    d.m * n / 2 ^ d.k ≤ selectIndex d n ∧ selectIndex d n ≤ d.m * n / 2 ^ d.k + 1 := by
  have hsh := excess_le hd hn
  have hK : 2 ^ (d.k - excess (d.m * n)) * 2 ^ excess (d.m * n) = 2 ^ d.k :=
    pow_sub_mul_pow 2 hsh
  have hApos : 0 < 2 ^ excess (d.m * n) := by positivity
  have hKpos : 0 < 2 ^ d.k := by positivity
  have hAK : 2 ^ excess (d.m * n) ≤ 2 ^ d.k := Nat.pow_le_pow_right (by norm_num) hsh
  have hq0 : d.m * n / 2 ^ excess (d.m * n) ≤ rne (d.m * n) (excess (d.m * n)) := by
    rcases rne_cases (d.m * n) (excess (d.m * n)) with h | ⟨h, _⟩ <;> omega
  have hq1 : rne (d.m * n) (excess (d.m * n)) ≤ d.m * n / 2 ^ excess (d.m * n) + 1 := by
    rcases rne_cases (d.m * n) (excess (d.m * n)) with h | ⟨h, _⟩ <;> omega
  unfold selectIndex
  constructor
  · rw [Nat.le_div_iff_mul_le hKpos]
    have h1 : d.m * n / 2 ^ d.k * 2 ^ d.k ≤ d.m * n := Nat.div_mul_le_self _ _
    have h2 : d.m * n / 2 ^ d.k * 2 ^ (d.k - excess (d.m * n)) ≤
        d.m * n / 2 ^ excess (d.m * n) := by
      rw [Nat.le_div_iff_mul_le hApos, Nat.mul_assoc, hK]
      exact h1
    calc d.m * n / 2 ^ d.k * 2 ^ d.k
        = d.m * n / 2 ^ d.k * 2 ^ (d.k - excess (d.m * n)) * 2 ^ excess (d.m * n) := by
          rw [Nat.mul_assoc, hK]
      _ ≤ d.m * n / 2 ^ excess (d.m * n) * 2 ^ excess (d.m * n) :=
          Nat.mul_le_mul_right _ h2
      _ ≤ rne (d.m * n) (excess (d.m * n)) * 2 ^ excess (d.m * n) :=
          Nat.mul_le_mul_right _ hq0
  · have h1 : d.m * n < (d.m * n / 2 ^ d.k + 1) * 2 ^ d.k := by
      have := Nat.lt_succ_self (d.m * n / 2 ^ d.k)
      exact (Nat.div_lt_iff_lt_mul hKpos).mp this
    have h2 : rne (d.m * n) (excess (d.m * n)) * 2 ^ excess (d.m * n) ≤
        d.m * n + 2 ^ excess (d.m * n) := by
      calc rne (d.m * n) (excess (d.m * n)) * 2 ^ excess (d.m * n)
          ≤ (d.m * n / 2 ^ excess (d.m * n) + 1) * 2 ^ excess (d.m * n) :=
            Nat.mul_le_mul_right _ hq1
        _ = d.m * n / 2 ^ excess (d.m * n) * 2 ^ excess (d.m * n) + 2 ^ excess (d.m * n) := by
            ring
        _ ≤ d.m * n + 2 ^ excess (d.m * n) :=
            Nat.add_le_add_right (Nat.div_mul_le_self _ _) _
    have h3 : rne (d.m * n) (excess (d.m * n)) * 2 ^ excess (d.m * n) <
        (d.m * n / 2 ^ d.k + 1 + 1) * 2 ^ d.k := by
      calc rne (d.m * n) (excess (d.m * n)) * 2 ^ excess (d.m * n)
          ≤ d.m * n + 2 ^ excess (d.m * n) := h2
        _ < (d.m * n / 2 ^ d.k + 1) * 2 ^ d.k + 2 ^ d.k := by omega
        _ = (d.m * n / 2 ^ d.k + 1 + 1) * 2 ^ d.k := by ring
    exact Nat.lt_succ_iff.mp ((Nat.div_lt_iff_lt_mul hKpos).mpr h3)

theorem selectIndex_exact {d : Draw} {n : Nat} (h : d.m * n < 2 ^ 53) :
    selectIndex d n = d.m * n / 2 ^ d.k := by
  have h0 : excess (d.m * n) = 0 := by
    have := Nat.size_le.mpr h
    unfold excess; omega
  simp [selectIndex, rne, h0, Nat.mod_one]

theorem value_interval {d : Draw} {n i : Nat} (hn : 0 < n) :
    ((i : ℚ) / n ≤ d.value ↔ i * 2 ^ d.k ≤ d.m * n) ∧
    (d.value < ((i : ℚ) + 1) / n ↔ d.m * n < (i + 1) * 2 ^ d.k) := by
  have hn' : (0 : ℚ) < n := by exact_mod_cast hn
  have hk' : (0 : ℚ) < 2 ^ d.k := by positivity
  unfold Draw.value
  constructor
  · rw [div_le_div_iff₀ hn' hk']
    exact_mod_cast Iff.rfl
  · rw [div_lt_div_iff₀ hk' hn']
    exact_mod_cast Iff.rfl

theorem excess_eq {p s : Nat} (h1 : p < 2 ^ (s + 53)) (h2 : 2 ^ (s + 52) ≤ p) :
    excess p = s := by
  have h3 : Nat.size p ≤ s + 53 := Nat.size_le.mpr h1
  have h4 : s + 52 < Nat.size p := Nat.lt_size.mpr h2
  unfold excess
  generalize Nat.size p = z at h3 h4 ⊢
  omega

theorem selectIndex_of_excess {d : Draw} {n s : Nat} (h : excess (d.m * n) = s) :
    selectIndex d n = rne (d.m * n) s * 2 ^ s / 2 ^ d.k := by
  unfold selectIndex
  rw [h]

theorem rne_tie_odd {p sh : Nat} (h1 : 2 * (p % 2 ^ sh) = 2 ^ sh) (h2 : (p / 2 ^ sh) % 2 = 1) :
    rne p sh = p / 2 ^ sh + 1 := by
  unfold rne
  rw [if_pos (Or.inr ⟨h1, h2⟩)]

theorem getServiceInstance_url {toUpperCase : String → String}
    {serviceCache : ServiceCache} {serviceName : String} {now : Int}
    {reply : RegistryReply} {fetched : Int} {d : Draw}
    (hlt : selectIndex d
        (discoverService toUpperCase serviceCache serviceName now reply
          fetched).instances.length <
      (discoverService toUpperCase serviceCache serviceName now reply
        fetched).instances.length) :
    ∃ inst ∈ (discoverService toUpperCase serviceCache serviceName now reply
        fetched).instances,
      (getServiceInstance toUpperCase serviceCache serviceName now reply fetched d).result =
        .url (instanceUrl inst) := by
  have hne : ¬ (discoverService toUpperCase serviceCache serviceName now reply
      fetched).instances.length = 0 := by omega
  refine ⟨(discoverService toUpperCase serviceCache serviceName now reply
      fetched).instances[selectIndex d (discoverService toUpperCase serviceCache
        serviceName now reply fetched).instances.length], List.getElem_mem _, ?_⟩
  simp only [getServiceInstance, hne, if_false, List.getElem?_eq_getElem hlt]

/-- C19, as stated, fails: for a list of 7 instances the draw
`2573485501354569 / 2 ^ 52` is a double of `[0, 1)` that lies in the interval
`[3/7, 4/7)`, and the index selected for it is 4, not 3: the exact product
`4 - 2 ^ (-52)` lies midway between two doubles and is rounded to 4. -/
theorem selection_rounds_up :
    drawTie.Valid ∧ (3 : ℚ) / 7 ≤ drawTie.value ∧ drawTie.value < 4 / 7 ∧
    selectIndex drawTie 7 = 4 := by
  refine ⟨by decide, by norm_num [Draw.value, drawTie], by norm_num [Draw.value, drawTie], ?_⟩
  rw [selectIndex_of_excess (s := 1)
      (excess_eq (by norm_num [drawTie]) (by norm_num [drawTie])),
    rne_tie_odd (by norm_num [drawTie]) (by norm_num [drawTie])]
  norm_num [drawTie]

/-- C19, as amended: for every non-empty instance list of length `n` and every double
`r` of `[0, 1)` drawn, the index `Math.floor(r * n)` is below `n`, so that
`getServiceInstance` returns the URL of a member of the list; a draw of the interval
`[i/n, (i+1)/n)` selects the index `i`, or the index `i + 1` when the double product
rounds up to it, and it selects `i` whenever the exact product has at most 53 binary
digits. -/
theorem selectIndex_in_bounds (d : Draw) (n : Nat) (hd : d.Valid) (hn : 0 < n)
    (hn53 : n < 2 ^ 53) :
    selectIndex d n < n ∧
    (∀ (toUpperCase : String → String) (serviceCache : ServiceCache) (serviceName : String)
        (now : Int) (reply : RegistryReply) (fetched : Int),
      (discoverService toUpperCase serviceCache serviceName now reply
        fetched).instances.length = n →
      ∃ inst ∈ (discoverService toUpperCase serviceCache serviceName now reply
          fetched).instances,
        (getServiceInstance toUpperCase serviceCache serviceName now reply fetched
          d).result = .url (instanceUrl inst)) ∧
    (∀ i : Nat, (i : ℚ) / n ≤ d.value → d.value < ((i : ℚ) + 1) / n →
      (selectIndex d n = i ∨ selectIndex d n = i + 1) ∧
      (d.m * n < 2 ^ 53 → selectIndex d n = i)) := by
  have hlt := selectIndex_lt hd hn
  refine ⟨hlt, ?_, ?_⟩
  · intro toUpperCase serviceCache serviceName now reply fetched hlen
    apply getServiceInstance_url
    rw [hlen]
    exact hlt
  · intro i hlo hhi
    have h1 := (value_interval (d := d) (i := i) hn).1.mp hlo
    have h2 := (value_interval (d := d) (i := i) hn).2.mp hhi
    have hK : 0 < 2 ^ d.k := by positivity
    have hF : d.m * n / 2 ^ d.k = i := by
      apply Nat.le_antisymm
      · exact Nat.lt_succ_iff.mp ((Nat.div_lt_iff_lt_mul hK).mpr h2)
      · exact (Nat.le_div_iff_mul_le hK).mpr h1
    have hb := selectIndex_bounds hd hn53
    rw [hF] at hb
    refine ⟨by omega, fun hex => ?_⟩
    rw [selectIndex_exact hex, hF]

/-- Witness of C19 as amended: for a list of 2 instances the draw `1 / 2` selects the
index 1, which is below 2. -/
theorem selectIndex_in_bounds_witness :
    selectIndex drawHalf 2 < 2 ∧ selectIndex drawHalf 2 = 1 :=
  ⟨(selectIndex_in_bounds drawHalf 2 (by decide) (by decide) (by norm_num)).1,
    ((selectIndex_in_bounds drawHalf 2 (by decide) (by decide) (by norm_num)).2.2 1
      (by norm_num [Draw.value, drawHalf]) (by norm_num [Draw.value, drawHalf])).2
      (by norm_num [drawHalf])⟩

/-! ## The circuit breaker -/

theorem windowTotal_addOutcome (s : Int) (x : Outcome) (w : List Bucket) :
    windowTotal (addOutcome s x w) = windowTotal w + 1 := by
  induction w with
  | nil => cases x <;> simp [addOutcome, windowTotal, Bucket.count]
  | cons b rest ih =>
    unfold addOutcome
    split
    · cases x <;> simp [windowTotal, Bucket.count] <;> omega
    · simp only [windowTotal, List.map_cons, List.sum_cons] at ih ⊢
      omega

theorem windowFailures_addOutcome (s : Int) (x : Outcome) (w : List Bucket) :
    windowFailures (addOutcome s x w) =
      windowFailures w + (if x = .failure then 1 else 0) := by
  induction w with
  | nil => cases x <;> simp [addOutcome, windowFailures, Bucket.count]
  | cons b rest ih =>
    unfold addOutcome
    split
    · cases x
      · simp [windowFailures, Bucket.count]
      · simp [windowFailures, Bucket.count]
        omega
    · simp only [windowFailures, List.map_cons, List.sum_cons] at ih ⊢
      omega

theorem slice_addOutcome {s : Int} {x : Outcome} {w : List Bucket} {b : Bucket}
    (h : b ∈ addOutcome s x w) : b.slice = s ∨ ∃ b' ∈ w, b'.slice = b.slice := by
  induction w with
  | nil =>
    simp only [addOutcome, List.mem_singleton] at h
    left
    rw [h]
    cases x <;> rfl
  | cons b0 rest ih =>
    unfold addOutcome at h
    split at h
    · rename_i hs
      rcases List.mem_cons.mp h with h | h
      · left
        rw [h, ← hs]
        cases x <;> rfl
      · exact Or.inr ⟨b, List.mem_cons_of_mem _ h, rfl⟩
    · rcases List.mem_cons.mp h with h | h
      · exact Or.inr ⟨b0, List.mem_cons_self _ _, by rw [h]⟩
      · rcases ih h with h' | ⟨b', hb', hs'⟩
        · exact Or.inl h'
        · exact Or.inr ⟨b', List.mem_cons_of_mem _ hb', hs'⟩

theorem recordOutcome_step {o : BreakerOptions} {cs : List Call}
    (hwin : ∀ a ∈ cs, ∀ b ∈ cs,
      sliceOf o a.finished - o.rollingCountBuckets < sliceOf o b.finished)
    {w : List Bucket} (hw : ∀ b ∈ w, ∃ c ∈ cs, b.slice = sliceOf o c.finished)
    {c : Call} (hc : c ∈ cs) (x : Outcome) :
    windowTotal (recordOutcome o c.finished x w) = windowTotal w + 1 ∧
    windowFailures (recordOutcome o c.finished x w) =
      windowFailures w + (if x = .failure then 1 else 0) ∧
    ∀ b ∈ recordOutcome o c.finished x w, ∃ c' ∈ cs, b.slice = sliceOf o c'.finished := by
  have hlive : w.filter (Bucket.live o c.finished) = w := by
    rw [List.filter_eq_self]
    intro b hb
    obtain ⟨c', hc', hs⟩ := hw b hb
    simp only [Bucket.live, decide_eq_true_eq, hs]
    exact hwin c hc c' hc'
  unfold recordOutcome
  rw [hlive]
  refine ⟨windowTotal_addOutcome _ _ _, windowFailures_addOutcome _ _ _, ?_⟩
  intro b hb
  rcases slice_addOutcome hb with h | ⟨b', hb', hs⟩
  · exact ⟨c, hc, h⟩
  · obtain ⟨c', hc', hs'⟩ := hw b' hb'
    exact ⟨c', hc', hs ▸ hs'⟩

theorem request_closed (o : BreakerOptions) (serviceName : String) (c : Call)
    (w : List Bucket) (t : Int) :
    (request o serviceName c ⟨.closed, w, t, false⟩).state =
      if tripped o (recordOutcome o c.finished c.operation w) then
        ⟨.opened, recordOutcome o c.finished c.operation w, c.finished, false⟩
      else ⟨.closed, recordOutcome o c.finished c.operation w, t, false⟩ := by
  simp only [request, passGate]
  cases c.operation <;> simp only [complete]

theorem request_opened (o : BreakerOptions) (serviceName : String) (c : Call)
    (st : CircuitState) (hp : st.phase = .opened)
    (ht : c.started - st.openedAt < o.resetTimeout) :
    request o serviceName c st = ⟨.circuitOpenError serviceName, false, st⟩ := by
  have : ¬ o.resetTimeout ≤ c.started - st.openedAt := by omega
  simp only [request, passGate, hp, this, if_false]

theorem tripped_iff (o : BreakerOptions) (w : List Bucket) :
    tripped o w = true ↔
      o.minVolume ≤ windowTotal w ∧
        o.errorThresholdPercentage * windowTotal w ≤ 100 * windowFailures w := by
  simp [tripped]

/-- C20: for a breaker with an error threshold of 50 % and a minimum volume of 4, after
the outcomes failure, failure, success, failure of four calls that end within one
rolling window, `getState` reports `OPEN`, and the next `request`, which starts before
the reset timeout has elapsed, is rejected with the circuit-open error without the
wrapped request function being invoked. -/
theorem breaker_opens_on_threshold (o : BreakerOptions) (serviceName : String)
    (c1 c2 c3 c4 next : Call)
    (hthr : o.errorThresholdPercentage = 50) (hvol : o.minVolume = 4)
    (h1 : c1.operation = .failure) (h2 : c2.operation = .failure)
    (h3 : c3.operation = .success) (h4 : c4.operation = .failure)
    (hwin : ∀ a ∈ [c1, c2, c3, c4], ∀ b ∈ [c1, c2, c3, c4],
      sliceOf o a.finished - o.rollingCountBuckets < sliceOf o b.finished)
    (hnext : next.started - c4.finished < o.resetTimeout) :
    getState (requestAll o serviceName [c1, c2, c3, c4] .initial).opened
        (requestAll o serviceName [c1, c2, c3, c4] .initial).halfOpen = "OPEN" ∧
      request o serviceName next (requestAll o serviceName [c1, c2, c3, c4] .initial) =
        ⟨.circuitOpenError serviceName, false,
          requestAll o serviceName [c1, c2, c3, c4] .initial⟩ := by
  have s1 := recordOutcome_step hwin (w := []) (by simp) (c := c1) (by simp) .failure
  have s2 := recordOutcome_step hwin s1.2.2 (c := c2) (by simp) .failure
  have s3 := recordOutcome_step hwin s2.2.2 (c := c3) (by simp) .success
  have s4 := recordOutcome_step hwin s3.2.2 (c := c4) (by simp) .failure
  have t1 : tripped o (recordOutcome o c1.finished .failure []) = false := by
    rw [Bool.eq_false_iff, Ne, tripped_iff, s1.1, hvol]
    simp [windowTotal]
  have t2 : tripped o (recordOutcome o c2.finished .failure
      (recordOutcome o c1.finished .failure [])) = false := by
    rw [Bool.eq_false_iff, Ne, tripped_iff, s2.1, s1.1, hvol]
    simp [windowTotal]
  have t3 : tripped o (recordOutcome o c3.finished .success
      (recordOutcome o c2.finished .failure
        (recordOutcome o c1.finished .failure []))) = false := by
    rw [Bool.eq_false_iff, Ne, tripped_iff, s3.1, s2.1, s1.1, hvol]
    simp [windowTotal]
  have t4 : tripped o (recordOutcome o c4.finished .failure
      (recordOutcome o c3.finished .success
        (recordOutcome o c2.finished .failure
          (recordOutcome o c1.finished .failure [])))) = true := by
    rw [tripped_iff, s4.1, s3.1, s2.1, s1.1, s4.2.1, s3.2.1, s2.2.1, s1.2.1, hvol, hthr]
    simp [windowTotal, windowFailures]
  have hst : requestAll o serviceName [c1, c2, c3, c4] .initial =
      ⟨.opened, recordOutcome o c4.finished .failure
        (recordOutcome o c3.finished .success
          (recordOutcome o c2.finished .failure
            (recordOutcome o c1.finished .failure []))), c4.finished, false⟩ := by
    simp only [requestAll, List.foldl_cons, List.foldl_nil, CircuitState.initial,
      request_closed, h1, h2, h3, h4, t1, t2, t3, t4, if_true, if_false,
      Bool.false_eq_true]
  rw [hst]
  refine ⟨by simp [getState, CircuitState.opened], ?_⟩
  exact request_opened o serviceName next _ rfl hnext

/-- Witness of C20: the breaker of `inventory-service` with the default options and a
minimum volume of 4; after the four calls of the scenario `getState` reports `OPEN` and
the call that starts at 3.2 s is rejected without being invoked. -/
theorem breaker_opens_on_threshold_witness :
    getState
        (requestAll (circuitBreakerOptions 4) "inventory-service" callsFFSF .initial).opened
        (requestAll (circuitBreakerOptions 4) "inventory-service" callsFFSF .initial).halfOpen
        = "OPEN" ∧
      (request (circuitBreakerOptions 4) "inventory-service" ⟨3200, 3300, .success⟩
        (requestAll (circuitBreakerOptions 4) "inventory-service" callsFFSF
          .initial)).invoked = false :=
  have h := breaker_opens_on_threshold (circuitBreakerOptions 4) "inventory-service"
    ⟨0, 100, .failure⟩ ⟨1000, 1100, .failure⟩ ⟨2000, 2100, .success⟩
    ⟨3000, 3100, .failure⟩ ⟨3200, 3300, .success⟩ rfl rfl rfl rfl rfl rfl
    (by decide) (by decide)
  ⟨h.1, congrArg Fired.invoked h.2⟩

/-! ## The cleanup run and the live records -/

/-- C27: for every registry state and cleanup time `now`, the array stored under a
service key after the run is the former array without the records whose age
`now - leaseInfo.lastRenewalTimestamp` is 120 000 ms or more; so every record whose age
is at most 90 000 ms is still stored under the same key, these records keep their
relative order, and a service with at least one record whose records all have an age of
at most 90 000 ms keeps its array unchanged. -/
theorem sweep_keeps_live (now : Int) (services : Services) (hmap : IsMap services)
    (k : String) (l : List ServiceInstance) (hget : mapGet k services = some l) :
    (mapGet k (sweep now services)).getD [] =
      l.filter (fun inst => decide (now - inst.leaseInfo.lastRenewalTimestamp < 120000)) ∧
    (∀ inst ∈ l, now - inst.leaseInfo.lastRenewalTimestamp ≤ 90000 →
      inst ∈ (mapGet k (sweep now services)).getD []) ∧
    List.Sublist
      (l.filter (fun inst => decide (now - inst.leaseInfo.lastRenewalTimestamp ≤ 90000)))
      ((mapGet k (sweep now services)).getD []) ∧
    List.Sublist ((mapGet k (sweep now services)).getD []) l ∧
    (l ≠ [] → (∀ inst ∈ l, now - inst.leaseInfo.lastRenewalTimestamp ≤ 90000) →
      mapGet k (sweep now services) = some l) := by
  have hg : mapGet k (sweep now services) =
      if (active now l).length = 0 then none else some (active now l) := by
    rw [sweep_eq_sweepClosed now hmap, mapGet_sweepClosed now k hmap, hget]
  have hstored : (mapGet k (sweep now services)).getD [] = active now l := by
    rw [hg]
    by_cases h0 : (active now l).length = 0
    · rw [if_pos h0, List.length_eq_zero.mp h0]; rfl
    · rw [if_neg h0]; rfl
  rw [hstored]
  refine ⟨rfl, ?_, ?_, List.filter_sublist _, ?_⟩
  · intro inst hi hage
    refine mem_active.mpr ⟨hi, ?_⟩
    simp only [timeout]
    omega
  · apply List.monotone_filter_right
    intro inst hi
    simp only [decide_eq_true_eq, timeout] at hi ⊢
    omega
  · intro hne hall
    have hall' : active now l = l := by
      unfold active
      rw [List.filter_eq_self]
      intro a ha
      have := hall a ha
      simp only [decide_eq_true_eq, timeout]
      omega
    rw [hg, hall']
    have : ¬ l.length = 0 := fun h => hne (List.length_eq_zero.mp h)
    rw [if_neg this]

/-- Witness of C27: `A1` renewed at 2 s and `A2` registered at 1 s; the cleanup run at
91 s leaves the array of `X` unchanged. -/
theorem sweep_keeps_live_witness :
    mapGet "X" (sweep 91000 (run asciiUpper opsA1A2 [])) =
      some [serviceInstance bodyA1 "t2" 2000, serviceInstance bodyA2 "t1" 1000] :=
  (sweep_keeps_live 91000 (run asciiUpper opsA1A2 []) (by decide) "X"
    [serviceInstance bodyA1 "t2" 2000, serviceInstance bodyA2 "t1" 1000]
    (by decide)).2.2.2.2 (by decide) (by decide)

/-! ## The port between registry and discovery -/

theorem selectIndex_one {d : Draw} (hd : d.Valid) : selectIndex d 1 = 0 := by
  have := selectIndex_lt hd (n := 1) (by norm_num)
  omega

/-- C28, as stated, fails: for the host `localhost` and the port number 0 given as a
number, Register answers 400 and stores no record, so that no record has a port object
whose `$` is 0 and `getServiceInstance` builds no endpoint. -/
theorem port_zero_not_stored :
    register asciiUpper "x" (some (hostBody "A1" "localhost" (.prim (.num 0)))) "t0" 0 [] =
      (⟨400, .error "Invalid service instance data"⟩, []) ∧
    stored asciiUpper "x"
      (register asciiUpper "x" (some (hostBody "A1" "localhost" (.prim (.num 0))))
        "t0" 0 []).2 = [] ∧
    (getServiceInstance asciiUpper [] "x" 10
      (registryReply asciiUpper
        (register asciiUpper "x" (some (hostBody "A1" "localhost" (.prim (.num 0))))
          "t0" 0 []).2 "x") 20 drawHalf).result =
      .error "No instances available for service: x" := by
  decide

/-- C28, as amended: for every state of the registry, every body with a truthy
instanceId, the host name `h` (a non-empty string) and the port number `p`, given as a
number other than 0 or as an object whose `$` is `p`, whatever its other fields: Register
answers 204 and stores the record; the port of the record is an object whose `$` is `p`;
the endpoint built from that record is `http://h:` followed by the string of `p` as
JavaScript prints it, which is the decimal form of `p` when `|p| < 2 ^ 53`;
`getServiceInstance` returns that endpoint whenever the instance it selects is that
record; and it does so after the registration when the service had no instance before
and the body has no status or the status `UP`. -/
theorem port_round_trip (toUpperCase : String → String) (appName : String)
    (b : InstanceBody) (h : String) (p : Int) (iso : String) (now : Int)
    (services : Services) (hid : b.instanceId.truthy = true) (hhost : b.hostName = .str h)
    (hh : h ≠ "")
    (hport : (b.port = .prim (.num p) ∧ p ≠ 0) ∨ ∃ e, b.port = .obj (.num p) e) :
    (register toUpperCase appName (some b) iso now services).1.status = 204 ∧
    serviceInstance b iso now ∈
      stored toUpperCase appName (register toUpperCase appName (some b) iso now services).2 ∧
    (∃ e, (serviceInstance b iso now).port = .obj (.num p) e) ∧
    instanceUrl (serviceInstance b iso now) = "http://" ++ h ++ ":" ++ integerToString p ∧
    (p.natAbs < 2 ^ 53 →
      instanceUrl (serviceInstance b iso now) = "http://" ++ h ++ ":" ++ toString p) ∧
    (∀ (serviceCache : ServiceCache) (serviceName : String) (asked : Int)
      (reply : RegistryReply) (fetched : Int) (draw : Draw),
      (discoverService toUpperCase serviceCache serviceName asked reply fetched).instances[
          selectIndex draw (discoverService toUpperCase serviceCache serviceName asked reply
            fetched).instances.length]? = some (serviceInstance b iso now) →
      (getServiceInstance toUpperCase serviceCache serviceName asked reply fetched
        draw).result = .url ("http://" ++ h ++ ":" ++ integerToString p)) ∧
    (∀ (asked fetched : Int) (draw : Draw), draw.Valid →
      stored toUpperCase appName services = [] →
      b.status.truthy = false ∨ b.status = .str "UP" →
      (getServiceInstance toUpperCase [] appName asked
        (registryReply toUpperCase
          (register toUpperCase appName (some b) iso now services).2 appName)
        fetched draw).result = .url ("http://" ++ h ++ ":" ++ integerToString p)) := by
  have hv : (b.instanceId.truthy && b.hostName.truthy && b.port.truthy) = true := by
    rw [hid, hhost]
    rcases hport with ⟨hp, hp0⟩ | ⟨e, hp⟩
    · simp [JsVal.truthy, PortField.truthy, hh, hp, hp0]
    · simp [JsVal.truthy, PortField.truthy, hh, hp]
  have hportObj : ∃ e, (serviceInstance b iso now).port = .obj (.num p) e := by
    rcases hport with ⟨hp, _⟩ | ⟨e, hp⟩
    · exact ⟨.str "true", by simp [serviceInstance, hp, PortField.isObject,
        PortField.value]⟩
    · exact ⟨e, by simp [serviceInstance, hp, PortField.isObject]⟩
  have hname : (serviceInstance b iso now).hostName = .str h := by
    simp [serviceInstance, hhost]
  have hurl : instanceUrl (serviceInstance b iso now) =
      "http://" ++ h ++ ":" ++ integerToString p := by
    obtain ⟨e, he⟩ := hportObj
    simp only [instanceUrl, he, hname, PortField.isObject, if_true, PortField.dollar,
      JsVal.toStr]
  have hstored : stored toUpperCase appName
      (register toUpperCase appName (some b) iso now services).2 =
      upsert (serviceInstance b iso now) (stored toUpperCase appName services) := by
    rw [register_valid hv, stored_mapSet]
  refine ⟨by rw [register_valid hv], ?_, hportObj, hurl, ?_, ?_, ?_⟩
  · rw [hstored]
    exact mem_upsert_self _ _
  · intro hp
    rw [hurl]
    simp only [integerToString, hp, if_true]
  · intro serviceCache serviceName asked reply fetched draw hsel
    have hne : ¬ (discoverService toUpperCase serviceCache serviceName asked reply
        fetched).instances.length = 0 := by
      intro h0
      rw [List.length_eq_zero.1 h0] at hsel
      simp at hsel
    simp only [getServiceInstance, hne, if_false, hsel, hurl]
  · intro asked fetched draw hdraw hnone hstatus
    rw [hnone, upsert_nil] at hstored
    have hhas : mapHas (toUpperCase appName)
        (register toUpperCase appName (some b) iso now services).2 = true := by
      rw [register_valid hv, mapHas_true_iff]
      exact ⟨_, mapGet_mapSet_self _ _ _⟩
    have hup : (serviceInstance b iso now).status = .str "UP" := by
      rcases hstatus with hs | hs
      · simp [serviceInstance, JsVal.or, hs]
      · simp [serviceInstance, JsVal.or, hs, JsVal.truthy]
    have hreply : registryReply toUpperCase
        (register toUpperCase appName (some b) iso now services).2
        appName = .data (some [serviceInstance b iso now]) := by
      have hst : (listInstances toUpperCase appName
          (register toUpperCase appName (some b) iso now services).2).status = 200 := by
        rw [listInstances_status, hhas]; rfl
      have hin := listInstances_instances toUpperCase appName
        (register toUpperCase appName (some b) iso now services).2
      rw [hstored] at hin
      simp only [registryReply, hst, if_true, hin]
      simp [hup]
    rw [hreply]
    have hd : discoverService toUpperCase [] appName asked
        (.data (some [serviceInstance b iso now])) fetched =
        ⟨[serviceInstance b iso now],
          cacheSet (toUpperCase appName) ⟨[serviceInstance b iso now], fetched⟩ [],
          true⟩ := by
      simp [discoverService, cacheGet, refresh, hup]
    simp only [getServiceInstance, hd, List.length_singleton, selectIndex_one hdraw]
    simp [hurl]

/-- Witness of C28 as amended: `A1` registers for `x` with the host `localhost` and the
port given as the number 3001; the endpoint returned is `http://localhost:3001`. -/
theorem port_round_trip_witness :
    (getServiceInstance asciiUpper [] "x" 10
      (registryReply asciiUpper
        (register asciiUpper "x" (some (hostBody "A1" "localhost" (.prim (.num 3001))))
          "t0" 0 []).2 "x") 20 drawHalf).result =
      .url ("http://" ++ "localhost" ++ ":" ++ integerToString 3001) ∧
    instanceUrl (serviceInstance (hostBody "A1" "localhost" (.prim (.num 3001))) "t0" 0) =
      "http://" ++ "localhost" ++ ":" ++ toString (3001 : Int) :=
  ⟨(port_round_trip asciiUpper "x" (hostBody "A1" "localhost" (.prim (.num 3001)))
      "localhost" 3001 "t0" 0 [] (by decide) rfl (by decide)
      (Or.inl ⟨rfl, by decide⟩)).2.2.2.2.2.2 10 20 drawHalf (by decide) rfl
      (Or.inl (by decide)),
    (port_round_trip asciiUpper "x" (hostBody "A1" "localhost" (.prim (.num 3001)))
      "localhost" 3001 "t0" 0 [] (by decide) rfl (by decide)
      (Or.inl ⟨rfl, by decide⟩)).2.2.2.2.1 (by decide)⟩

/-! ## The probe of HALF_OPEN and the reset -/

theorem requestConcurrently_probe_in_flight (o : BreakerOptions) (serviceName : String)
    (starts : List Int) (st : CircuitState) (hp : st.phase = .halfOpen)
    (hf : st.halfOpenProbeInFlight = true) :
    requestConcurrently o serviceName starts st =
      (List.replicate starts.length (some (.circuitOpenError serviceName)), st) := by
  induction starts with
  | nil => rfl
  | cons t ts ih =>
    simp only [requestConcurrently, passGate, hp, hf, if_true, ih, List.length_cons,
      List.replicate_succ]

/-- C21: while the breaker is HALF_OPEN and no probe is in flight yet (the phase is
HALF_OPEN, or it is OPEN and the reset timeout has elapsed when the first call starts),
of any number of calls of `request` that start before any of them ends, two or more
included, the first one reaches the wrapped request function and every other one is
rejected with the circuit-open error: exactly one call is let through. -/
theorem half_open_single_probe (o : BreakerOptions) (serviceName : String)
    (t : Int) (ts : List Int) (st : CircuitState)
    (hst : (st.phase = .halfOpen ∧ st.halfOpenProbeInFlight = false) ∨
      (st.phase = .opened ∧ o.resetTimeout ≤ t - st.openedAt)) :
    (requestConcurrently o serviceName (t :: ts) st).1 =
      none :: List.replicate ts.length (some (.circuitOpenError serviceName)) ∧
    ((requestConcurrently o serviceName (t :: ts) st).1.filter
      (fun r => r = none)).length = 1 ∧
    (∀ r ∈ (requestConcurrently o serviceName (t :: ts) st).1.tail,
      r = some (.circuitOpenError serviceName)) ∧
    (requestConcurrently o serviceName (t :: ts) st).2.phase = .halfOpen := by
  have hmain : requestConcurrently o serviceName (t :: ts) st =
      (none :: List.replicate ts.length (some (.circuitOpenError serviceName)),
        { st with phase := .halfOpen, halfOpenProbeInFlight := true }) := by
    rcases hst with ⟨hp, hf⟩ | ⟨hp, ht⟩
    · simp only [requestConcurrently, passGate, hp, hf, Bool.false_eq_true, if_false]
      rw [requestConcurrently_probe_in_flight o serviceName ts
        ⟨.halfOpen, st.window, st.openedAt, true⟩ rfl rfl]
    · simp only [requestConcurrently, passGate, hp, ht, if_true]
      rw [requestConcurrently_probe_in_flight o serviceName ts
        ⟨.halfOpen, st.window, st.openedAt, true⟩ rfl rfl]
  rw [hmain]
  refine ⟨rfl, ?_, ?_, rfl⟩
  · have : (List.replicate ts.length (some (CallResult.circuitOpenError serviceName))).filter
        (fun r => decide (r = none)) = [] := by
      rw [List.filter_eq_nil_iff]
      intro a ha
      rw [List.eq_of_mem_replicate ha]
      simp
    simp [List.filter_cons, this]
  · intro r hr
    exact List.eq_of_mem_replicate hr

/-- Witness of C21: three calls start at 1 s, 1.001 s and 1.002 s on a breaker that is
HALF_OPEN; the first is let through and the other two are rejected. -/
theorem half_open_single_probe_witness :
    (requestConcurrently (circuitBreakerOptions 4) "inventory-service" [1000, 1001, 1002]
      halfOpenState).1 =
      [none, some (.circuitOpenError "inventory-service"),
        some (.circuitOpenError "inventory-service")] :=
  (half_open_single_probe (circuitBreakerOptions 4) "inventory-service" 1000 [1001, 1002]
    halfOpenState (Or.inl ⟨rfl, rfl⟩)).1

/-- C23: `getState` reports `OPEN` when the flag `opened` is set, otherwise `HALF_OPEN`
when the flag `halfOpen` is set, otherwise `CLOSED`, so exactly one of the three; and
for every state of the breaker, `getState` right after `reset` reports `CLOSED`. -/
theorem getState_spec (opened halfOpen : Bool) (st : CircuitState) :
    (getState opened halfOpen = "OPEN" ∨ getState opened halfOpen = "HALF_OPEN" ∨
      getState opened halfOpen = "CLOSED") ∧
    (getState opened halfOpen = "OPEN" ↔ opened = true) ∧
    (getState opened halfOpen = "HALF_OPEN" ↔ opened = false ∧ halfOpen = true) ∧
    (getState opened halfOpen = "CLOSED" ↔ opened = false ∧ halfOpen = false) ∧
    getState (reset st).opened (reset st).halfOpen = "CLOSED" := by
  refine ⟨?_, ?_, ?_, ?_, ?_⟩
  · cases opened <;> cases halfOpen <;> simp [getState]
  · cases opened <;> cases halfOpen <;> simp [getState]
  · cases opened <;> cases halfOpen <;> simp [getState]
  · cases opened <;> cases halfOpen <;> simp [getState]
  · simp [getState, reset, closeCircuit, CircuitState.opened, CircuitState.halfOpen]

/-- Witness of C23: the breaker that the four calls of the scenario opened reports
`OPEN`, and `CLOSED` after `reset`. -/
theorem getState_spec_witness :
    getState
        (requestAll (circuitBreakerOptions 4) "inventory-service" callsFFSF .initial).opened
        (requestAll (circuitBreakerOptions 4) "inventory-service" callsFFSF .initial).halfOpen
        = "OPEN" ∧
      getState
        (reset (requestAll (circuitBreakerOptions 4) "inventory-service" callsFFSF
          .initial)).opened
        (reset (requestAll (circuitBreakerOptions 4) "inventory-service" callsFFSF
          .initial)).halfOpen = "CLOSED" :=
  ⟨(getState_spec true false .initial).2.1.mpr rfl,
    (getState_spec true false
      (requestAll (circuitBreakerOptions 4) "inventory-service" callsFFSF .initial)).2.2.2.2⟩

/-! ## The inventory service -/

theorem mem_of_inventoryGet {k : String} {item : StockItem} {inv : Inventory}
    (h : inventoryGet k inv = some item) : (k, item) ∈ inv := by
  induction inv with
  | nil => simp [inventoryGet] at h
  | cons e rest ih =>
    obtain ⟨k', v'⟩ := e
    by_cases hk : k' = k
    · subst hk
      simp [inventoryGet] at h
      simp [h]
    · simp [inventoryGet, hk] at h
      exact List.mem_cons_of_mem _ (ih h)

theorem mem_inventorySet {e : String × StockItem} {k : String} {v : StockItem}
    {inv : Inventory} (h : e ∈ inventorySet k v inv) : e = (k, v) ∨ e ∈ inv := by
  induction inv with
  | nil => simp [inventorySet] at h; exact Or.inl h
  | cons e' rest ih =>
    obtain ⟨k', v'⟩ := e'
    by_cases hk : k' = k
    · simp [inventorySet, hk] at h
      rcases h with h | h
      · exact Or.inl h
      · exact Or.inr (List.mem_cons_of_mem _ h)
    · simp [inventorySet, hk] at h
      rcases h with h | h
      · exact Or.inr (by simp [h])
      · rcases ih h with h1 | h1
        · exact Or.inl h1
        · exact Or.inr (List.mem_cons_of_mem _ h1)

theorem inventoryGet_inventorySet_self (k : String) (v : StockItem) (inv : Inventory) :
    inventoryGet k (inventorySet k v inv) = some v := by
  induction inv with
  | nil => simp [inventorySet, inventoryGet]
  | cons e rest ih =>
    obtain ⟨k', v'⟩ := e
    by_cases h : k' = k <;> simp [inventorySet, inventoryGet, h, ih]

theorem inventorySet_inventorySet (k : String) (v w : StockItem) (inv : Inventory) :
    inventorySet k w (inventorySet k v inv) = inventorySet k w inv := by
  induction inv with
  | nil => simp [inventorySet]
  | cons e rest ih =>
    obtain ⟨k', v'⟩ := e
    by_cases hk : k' = k <;> simp [inventorySet, hk, ih]

theorem inventorySet_eq_self {k : String} {item : StockItem} {inv : Inventory}
    (h : inventoryGet k inv = some item) : inventorySet k item inv = inv := by
  induction inv with
  | nil => simp [inventoryGet] at h
  | cons e rest ih =>
    obtain ⟨k', v'⟩ := e
    by_cases hk : k' = k
    · subst hk
      simp [inventoryGet] at h
      simp [inventorySet, h]
    · simp [inventoryGet, hk] at h
      simp [inventorySet, hk, ih h]

theorem Num.zero_def : (0 : Num) = .fin 0 := by
  show Num.fin ((0 : ℕ) : ℚ) = _
  simp

theorem Num.fin_le_fin (a b : ℚ) : (Num.fin a ≤ Num.fin b) ↔ a ≤ b := by
  show Num.le _ _ = true ↔ _
  simp [Num.le]

theorem Num.fin_lt_fin (a b : ℚ) : (Num.fin a < Num.fin b) ↔ a < b := by
  show Num.lt _ _ = true ↔ _
  simp [Num.lt]

theorem invalidQuantity_fin (n : ℤ) : invalidQuantity (.fin n) = false ↔ 0 < n := by
  simp only [invalidQuantity, Num.truthy, Num.zero_def, Num.fin_le_fin, Bool.or_eq_false_iff,
    Bool.not_eq_false', decide_eq_true_eq, decide_eq_false_iff_not, not_le, ne_eq]
  constructor
  · intro h
    exact_mod_cast h.2
  · intro h
    exact ⟨by exact_mod_cast h.ne', by exact_mod_cast h⟩

theorem inventoryProperty_of_get {productId : String} {item : StockItem} {inv : Inventory}
    (h : inventoryGet productId inv = some item) :
    inventoryProperty productId inv = .own item := by
  simp [inventoryProperty, h]

theorem inventoryGet_of_own {productId : String} {item : StockItem} {inv : Inventory}
    (h : inventoryProperty productId inv = .own item) :
    inventoryGet productId inv = some item := by
  unfold inventoryProperty at h
  cases hg : inventoryGet productId inv with
  | none =>
    rw [hg] at h
    simp only at h
    split_ifs at h
  | some x =>
    rw [hg] at h
    simp only [Property.own.injEq] at h
    rw [h]

theorem inventoryGet_of_inherited {productId : String} {inv : Inventory}
    (h : inventoryProperty productId inv = .inherited) :
    inventoryGet productId inv = none := by
  unfold inventoryProperty at h
  cases hg : inventoryGet productId inv with
  | none => rfl
  | some x =>
    rw [hg] at h
    simp at h

theorem reserveStock_unchanged (productId : String) (quantity : Num) (inv : Inventory)
    (h : (reserveStock productId quantity inv).1 ≠ 200) :
    (reserveStock productId quantity inv).2 = inv := by
  unfold reserveStock at h ⊢
  split_ifs at h ⊢ with hq
  · rfl
  · cases hp : inventoryProperty productId inv with
    | absent => rfl
    | inherited => rfl
    | own item =>
      rw [hp] at h
      simp only at h ⊢
      split_ifs at h ⊢ with ha
      · rfl
      · exact absurd rfl h

theorem releaseStock_unchanged (productId : String) (quantity : Num) (inv : Inventory)
    (h : (releaseStock productId quantity inv).1 ≠ 200) :
    (releaseStock productId quantity inv).2 = inv := by
  unfold releaseStock at h ⊢
  split_ifs at h ⊢ with hq
  · rfl
  · cases hp : inventoryProperty productId inv with
    | absent => rfl
    | inherited => rfl
    | own item =>
      rw [hp] at h
      simp only at h ⊢
      split_ifs at h ⊢ with ha
      · rfl
      · exact absurd rfl h

theorem addStock_unchanged (productId : String) (quantity : Num) (inv : Inventory)
    (h : (addStock productId quantity inv).1 ≠ 200) :
    (addStock productId quantity inv).2 = inv := by
  unfold addStock at h ⊢
  split_ifs at h ⊢ with hq
  · rfl
  · cases hp : inventoryProperty productId inv <;> rw [hp] at h <;> exact absurd rfl h

theorem routeStock_unchanged (req : StockRequest) (inv : Inventory)
    (h : (routeStock req inv).1 ≠ 200) : (routeStock req inv).2 = inv := by
  cases req with
  | reserve pid q => exact reserveStock_unchanged pid q inv h
  | release pid q => exact releaseStock_unchanged pid q inv h
  | addStock pid q => exact addStock_unchanged pid q inv h

theorem requestCount_serveStock (flag : Bool) (req : StockRequest)
    (svc : InventoryService) :
    (serveStock flag req svc).2.requestCount = svc.requestCount + 1 := by
  simp only [serveStock]
  split <;> rfl

theorem requestCount_serveAll (reqs : List (Bool × StockRequest)) :
    ∀ svc : InventoryService,
      (serveAll reqs svc).requestCount = svc.requestCount + reqs.length := by
  induction reqs with
  | nil => intro svc; rfl
  | cons r rest ih =>
    intro svc
    show (serveAll rest (serveStock r.1 r.2 svc).2).requestCount = _
    rw [ih, requestCount_serveStock, List.length_cons]
    omega

theorem routeStock_status_ne_500 (req : StockRequest) (inv : Inventory) :
    (routeStock req inv).1 ≠ 500 := by
  cases req with
  | reserve pid q =>
    simp only [routeStock, reserveStock]
    split_ifs with hq
    · simp
    · cases inventoryProperty pid inv with
      | absent => simp
      | inherited => simp
      | own item => simp only; split_ifs <;> simp
  | release pid q =>
    simp only [routeStock, releaseStock]
    split_ifs with hq
    · simp
    · cases inventoryProperty pid inv with
      | absent => simp
      | inherited => simp
      | own item => simp only; split_ifs <;> simp
  | addStock pid q =>
    simp only [routeStock, addStock]
    split_ifs with hq
    · simp
    · cases inventoryProperty pid inv <;> simp

theorem serveStock_500_iff (req : StockRequest) (svc : InventoryService) :
    (serveStock false req svc).1 = 500 ↔ failureWindow (svc.requestCount + 1) = true := by
  simp only [serveStock, Bool.false_or]
  cases hw : failureWindow (svc.requestCount + 1)
  · simp only [Bool.false_eq_true, if_false, iff_false]
    exact routeStock_status_ne_500 req svc.inventory
  · simp

theorem failureWindow_iff (n : Nat) :
    failureWindow n = true ↔ n % 10 = 7 ∨ n % 10 = 8 ∨ n % 10 = 9 := by
  simp only [failureWindow, Bool.and_eq_true, decide_eq_true_eq]
  omega

theorem failureWindow_mod (n : Nat) : failureWindow n = failureWindow (n % 10) := by
  simp only [failureWindow, Nat.mod_mod]

theorem rejectedIn_succ (start n : Nat) :
    rejectedIn start (n + 1) =
      (if failureWindow (start + 1) then 1 else 0) + rejectedIn (start + 1) n := by
  unfold rejectedIn
  rw [List.range_succ_eq_map, List.filter_cons, List.filter_map]
  have hfun : ((fun i => failureWindow (start + 1 + i)) ∘ Nat.succ) =
      (fun i => failureWindow (start + 1 + 1 + i)) := by
    funext i
    simp only [Function.comp, Nat.succ_eq_add_one]
    congr 1
    omega
  rw [hfun]
  simp only [Nat.add_zero]
  by_cases hw : failureWindow (start + 1) = true
  · rw [if_pos hw, if_pos hw, List.length_cons, List.length_map]
    omega
  · rw [if_neg hw, if_neg hw, List.length_map]
    omega

theorem rejectedIn_mod (start n : Nat) : rejectedIn start n = rejectedIn (start % 10) n := by
  unfold rejectedIn
  congr 1
  apply List.filter_congr
  intro i _
  rw [failureWindow_mod (start + 1 + i), failureWindow_mod (start % 10 + 1 + i)]
  congr 1
  omega

theorem rejectedIn_ten (start : Nat) : rejectedIn start 10 = 3 := by
  rw [rejectedIn_mod]
  have h : start % 10 < 10 := Nat.mod_lt _ (by norm_num)
  interval_cases (start % 10) <;> decide

theorem serveStatuses_rejected (reqs : List (Bool × StockRequest)) :
    ∀ svc : InventoryService, (∀ r ∈ reqs, r.1 = false) →
      ((serveStatuses reqs svc).filter (fun st => st = 500)).length =
        rejectedIn svc.requestCount reqs.length := by
  induction reqs with
  | nil => intro svc _; rfl
  | cons r rest ih =>
    intro svc hall
    have hr : r.1 = false := hall r (List.mem_cons_self _ _)
    have hrest := ih (serveStock r.1 r.2 svc).2
      (fun x hx => hall x (List.mem_cons_of_mem _ hx))
    rw [requestCount_serveStock] at hrest
    rw [List.length_cons, rejectedIn_succ, ← hrest]
    simp only [serveStatuses, List.filter_cons]
    rw [hr]
    by_cases hw : failureWindow (svc.requestCount + 1) = true
    · have := (serveStock_500_iff r.2 svc).mpr hw
      simp [this, hw]
      omega
    · have : ¬ (serveStock false r.2 svc).1 = 500 :=
        fun h => hw ((serveStock_500_iff r.2 svc).mp h)
      simp [this, hw]

theorem serveStock_reject {flag : Bool} (req : StockRequest) {svc : InventoryService}
    (h : (flag || failureWindow (svc.requestCount + 1)) = true) :
    serveStock flag req svc = (500, ⟨svc.inventory, svc.requestCount + 1⟩) := by
  simp only [serveStock, h, if_true]

theorem serveStock_pass {flag : Bool} (req : StockRequest) {svc : InventoryService}
    (h : (flag || failureWindow (svc.requestCount + 1)) = false) :
    serveStock flag req svc =
      ((routeStock req svc.inventory).1,
        ⟨(routeStock req svc.inventory).2, svc.requestCount + 1⟩) := by
  simp only [serveStock, h, Bool.false_eq_true, if_false]

/-- C26: for a request without `simulateFailure=true`, the failure middleware answers
500 to the n-th request, counted from 1 over all requests, exactly when `n mod 10` is 7,
8 or 9; a request answered 500 leaves the inventory unchanged; and of every 10
consecutive requests without `simulateFailure=true` exactly 3 are answered 500. -/
theorem failure_rate (reqs : List (Bool × StockRequest)) (req : StockRequest) :
    ((serveStock false req (serveAll reqs .initial)).1 = 500 ↔
      (reqs.length + 1) % 10 = 7 ∨ (reqs.length + 1) % 10 = 8 ∨
        (reqs.length + 1) % 10 = 9) ∧
    (∀ flag : Bool, (serveStock flag req (serveAll reqs .initial)).1 = 500 →
      (serveStock flag req (serveAll reqs .initial)).2.inventory =
        (serveAll reqs .initial).inventory) ∧
    (∀ block : List (Bool × StockRequest), block.length = 10 →
      (∀ r ∈ block, r.1 = false) →
      ((serveStatuses block (serveAll reqs .initial)).filter
        (fun st => st = 500)).length = 3) := by
  refine ⟨?_, ?_, ?_⟩
  · rw [serveStock_500_iff, failureWindow_iff, requestCount_serveAll]
    simp [InventoryService.initial]
  · intro flag h
    cases hc : (flag || failureWindow ((serveAll reqs .initial).requestCount + 1))
    · rw [serveStock_pass req hc] at h
      exact absurd h (routeStock_status_ne_500 req _)
    · rw [serveStock_reject req hc]
  · intro block hlen hall
    rw [serveStatuses_rejected block _ hall, hlen]
    exact rejectedIn_ten _

/-- Witness of C26: after six requests the seventh is answered 500, and of the ten
requests that follow the first six exactly three are answered 500. -/
theorem failure_rate_witness :
    (serveStock false (.reserve "PROD001" 1) (serveAll stockRequests .initial)).1 = 500 ∧
      ((serveStatuses tenRequests (serveAll stockRequests .initial)).filter
        (fun st => st = 500)).length = 3 :=
  ⟨(failure_rate stockRequests (.reserve "PROD001" 1)).1.mpr (by decide),
    (failure_rate stockRequests (.reserve "PROD001" 1)).2.2 tenRequests (by decide)
      (by decide)⟩

theorem whole_mono {bound bound' : ℤ} {inv : Inventory} (h : Whole bound inv)
    (hb : bound ≤ bound') : Whole bound' inv := by
  intro e he
  obtain ⟨q, r, h1, h2, h3, h4, h5⟩ := h e he
  exact ⟨q, r, h1, h2, h3, h4, le_trans h5 hb⟩

theorem whole_inventorySet {bound : ℤ} {k : String} {v : StockItem} {inv : Inventory}
    (h : Whole bound inv)
    (hv : ∃ q r : ℤ, v.quantity = .fin q ∧ v.reserved = .fin r ∧ 0 ≤ r ∧ r ≤ q ∧ q ≤ bound) :
    Whole bound (inventorySet k v inv) := by
  intro e he
  rcases mem_inventorySet he with h1 | h1
  · rw [h1]; exact hv
  · exact h e h1

theorem whole_initial : Whole 200 initialInventory := by
  intro e he
  simp only [initialInventory, List.mem_cons, List.mem_singleton, List.not_mem_nil,
    or_false] at he
  rcases he with h | h | h | h | h <;> rw [h]
  · exact ⟨100, 0, by decide!, by decide!, by norm_num, by norm_num, by norm_num⟩
  · exact ⟨50, 0, by decide!, by decide!, by norm_num, by norm_num, by norm_num⟩
  · exact ⟨200, 0, by decide!, by decide!, by norm_num, by norm_num, by norm_num⟩
  · exact ⟨75, 0, by decide!, by decide!, by norm_num, by norm_num, by norm_num⟩
  · exact ⟨30, 0, by decide!, by decide!, by norm_num, by norm_num, by norm_num⟩

theorem balanced_of_whole {bound : ℤ} {inv : Inventory} (h : Whole bound inv) :
    Balanced inv := by
  intro e he
  obtain ⟨q, r, h1, h2, h3, h4, _⟩ := h e he
  rw [h1, h2, Num.zero_def, Num.fin_le_fin, Num.fin_le_fin]
  exact ⟨by exact_mod_cast h3, by exact_mod_cast h4⟩

theorem adjustReserved_of_get {productId : String} {item : StockItem} {inv : Inventory}
    {r : ℚ} (d : ℤ) (hg : inventoryGet productId inv = some item)
    (hr : item.reserved = .fin r) :
    adjustReserved productId d inv =
      inventorySet productId { item with reserved := .fin (r + d) } inv := by
  simp only [adjustReserved, hg, hr]

theorem adjustReserved_of_none {productId : String} {inv : Inventory} (d : ℤ)
    (hg : inventoryGet productId inv = none) : adjustReserved productId d inv = inv := by
  simp only [adjustReserved, hg]

/-- A reserve of a whole quantity that is answered 200 on an inventory of whole pieces
below `2 ^ 53` adds the quantity to the reserved amount exactly. -/
theorem reserveStock_whole {bound : ℤ} {inv : Inventory} (hw : Whole bound inv)
    (hb : bound < 2 ^ 53) (productId : String) (n : ℤ)
    (h : (reserveStock productId (.fin n) inv).1 = 200) :
    (reserveStock productId (.fin n) inv).2 = adjustReserved productId n inv ∧
      Whole bound (reserveStock productId (.fin n) inv).2 := by
  unfold reserveStock at h ⊢
  cases hq : invalidQuantity (.fin n) with
  | true => rw [hq] at h; simp at h
  | false =>
    have hn : 0 < n := (invalidQuantity_fin n).1 hq
    rw [hq] at h
    simp only [Bool.false_eq_true, if_false] at h ⊢
    cases hp : inventoryProperty productId inv with
    | absent => rw [hp] at h; simp at h
    | inherited =>
      simp only
      exact ⟨(adjustReserved_of_none n (inventoryGet_of_inherited hp)).symm, hw⟩
    | own item =>
      have hg := inventoryGet_of_own hp
      obtain ⟨q, r, h1, h2, h3, h4, h5⟩ := hw _ (mem_of_inventoryGet hg)
      simp only at h1 h2
      have hsub : item.quantity - item.reserved = .fin ((q - r : ℤ) : ℚ) := by
        rw [h1, h2]
        exact Num.sub_intCast q r (by rw [abs_lt]; constructor <;> omega)
      rw [hp] at h
      simp only [hsub, Num.fin_lt_fin, Int.cast_lt] at h ⊢
      by_cases ha : q - r < n
      · rw [if_pos ha] at h; simp at h
      · have hadd2 : item.reserved + .fin (n : ℚ) = .fin ((r + n : ℤ) : ℚ) := by
          rw [h2]
          exact Num.add_intCast r n (by rw [abs_lt]; constructor <;> omega)
        rw [if_neg ha]
        simp only [hadd2]
        refine ⟨?_, whole_inventorySet hw ⟨q, r + n, h1, rfl, by omega, by omega, h5⟩⟩
        rw [adjustReserved_of_get n hg h2]
        push_cast
        rfl

/-- A release of a whole quantity that is answered 200 on an inventory of whole pieces
below `2 ^ 53` takes the quantity from the reserved amount exactly. -/
theorem releaseStock_whole {bound : ℤ} {inv : Inventory} (hw : Whole bound inv)
    (hb : bound < 2 ^ 53) (productId : String) (n : ℤ)
    (h : (releaseStock productId (.fin n) inv).1 = 200) :
    (releaseStock productId (.fin n) inv).2 = adjustReserved productId (-n) inv ∧
      Whole bound (releaseStock productId (.fin n) inv).2 := by
  unfold releaseStock at h ⊢
  cases hq : invalidQuantity (.fin n) with
  | true => rw [hq] at h; simp at h
  | false =>
    have hn : 0 < n := (invalidQuantity_fin n).1 hq
    rw [hq] at h
    simp only [Bool.false_eq_true, if_false] at h ⊢
    cases hp : inventoryProperty productId inv with
    | absent => rw [hp] at h; simp at h
    | inherited =>
      simp only
      exact ⟨(adjustReserved_of_none (-n) (inventoryGet_of_inherited hp)).symm, hw⟩
    | own item =>
      have hg := inventoryGet_of_own hp
      obtain ⟨q, r, h1, h2, h3, h4, h5⟩ := hw _ (mem_of_inventoryGet hg)
      simp only at h1 h2
      rw [hp] at h
      simp only [h2, Num.fin_lt_fin, Int.cast_lt] at h ⊢
      by_cases ha : r < n
      · rw [if_pos ha] at h; simp at h
      · have hsub : Num.fin (r : ℚ) - .fin (n : ℚ) = .fin ((r - n : ℤ) : ℚ) :=
          Num.sub_intCast r n (by rw [abs_lt]; constructor <;> omega)
        rw [if_neg ha]
        simp only [hsub]
        refine ⟨?_, whole_inventorySet hw ⟨q, r - n, h1, rfl, by omega, by omega, h5⟩⟩
        rw [adjustReserved_of_get (-n) hg h2]
        push_cast
        rw [← sub_eq_add_neg]

/-- An add-stock of a whole quantity on an inventory of whole pieces keeps the pieces
whole when the new quantity stays below `2 ^ 53`. -/
theorem addStock_whole {bound : ℤ} {inv : Inventory} (hw : Whole bound inv)
    (h0 : 0 ≤ bound) (productId : String) (n : ℤ) (hb : bound + max n 0 < 2 ^ 53) :
    Whole (bound + max n 0) (addStock productId (.fin n) inv).2 := by
  have hmono : Whole (bound + max n 0) inv := whole_mono hw (by omega)
  unfold addStock
  cases hq : invalidQuantity (.fin n) with
  | true => simpa using hmono
  | false =>
    have hn : 0 < n := (invalidQuantity_fin n).1 hq
    have hmax : max n 0 = n := max_eq_left hn.le
    simp only [Bool.false_eq_true, if_false]
    cases hp : inventoryProperty productId inv with
    | inherited => exact hmono
    | absent =>
      simp only
      have hadd : (0 : Num) + .fin (n : ℚ) = .fin (n : ℚ) := by
        have := Num.add_intCast 0 n (by rw [abs_lt]; constructor <;> omega)
        simpa [Num.zero_def] using this
      rw [hadd]
      exact whole_inventorySet hmono
        ⟨n, 0, rfl, by simp [Num.zero_def], le_refl _, hn.le, by omega⟩
    | own item =>
      have hg := inventoryGet_of_own hp
      obtain ⟨q, r, h1, h2, h3, h4, h5⟩ := hw _ (mem_of_inventoryGet hg)
      simp only at h1 h2 ⊢
      have hadd : item.quantity + .fin (n : ℚ) = .fin ((q + n : ℤ) : ℚ) := by
        rw [h1]
        exact Num.add_intCast q n (by rw [abs_lt]; constructor <;> omega)
      rw [hadd]
      exact whole_inventorySet hmono ⟨q + n, r, rfl, h2, h3, by omega, by omega⟩

theorem addedBy_nonneg (req : StockRequest) : 0 ≤ addedBy req := by
  cases req with
  | reserve pid q => simp [addedBy]
  | release pid q => simp [addedBy]
  | addStock pid q => cases q <;> simp [addedBy]

theorem whole_routeStock {bound : ℤ} {inv : Inventory} (hw : Whole bound inv)
    (h0 : 0 ≤ bound) (req : StockRequest) (hreq : ∃ n : ℤ, req.quantity = .fin n)
    (hb : bound + addedBy req < 2 ^ 53) :
    Whole (bound + addedBy req) (routeStock req inv).2 := by
  obtain ⟨n, hn⟩ := hreq
  have hnn := addedBy_nonneg req
  cases req with
  | reserve pid q =>
    simp only [StockRequest.quantity] at hn
    subst hn
    simp only [routeStock, addedBy, add_zero] at hb ⊢
    by_cases hs : (reserveStock pid (.fin n) inv).1 = 200
    · exact (reserveStock_whole hw hb pid n hs).2
    · rw [reserveStock_unchanged pid _ inv hs]; exact hw
  | release pid q =>
    simp only [StockRequest.quantity] at hn
    subst hn
    simp only [routeStock, addedBy, add_zero] at hb ⊢
    by_cases hs : (releaseStock pid (.fin n) inv).1 = 200
    · exact (releaseStock_whole hw hb pid n hs).2
    · rw [releaseStock_unchanged pid _ inv hs]; exact hw
  | addStock pid q =>
    simp only [StockRequest.quantity] at hn
    subst hn
    simp only [routeStock, addedBy, Int.ceil_intCast] at hb ⊢
    exact addStock_whole hw h0 pid n hb

theorem whole_serveStock {bound : ℤ} {svc : InventoryService} (hw : Whole bound svc.inventory)
    (h0 : 0 ≤ bound) (flag : Bool) (req : StockRequest)
    (hreq : ∃ n : ℤ, req.quantity = .fin n) (hb : bound + addedBy req < 2 ^ 53) :
    Whole (bound + addedBy req) (serveStock flag req svc).2.inventory := by
  simp only [serveStock]
  split
  · exact whole_mono hw (by have := addedBy_nonneg req; omega)
  · exact whole_routeStock hw h0 req hreq hb

theorem addedTotal_nonneg (reqs : List (Bool × StockRequest)) : 0 ≤ addedTotal reqs := by
  induction reqs with
  | nil => simp [addedTotal]
  | cons r rest ih =>
    simp only [addedTotal, List.map_cons, List.sum_cons] at ih ⊢
    have := addedBy_nonneg r.2
    omega

theorem whole_serveAll (reqs : List (Bool × StockRequest)) :
    ∀ {bound : ℤ} {svc : InventoryService}, Whole bound svc.inventory → 0 ≤ bound →
      (∀ r ∈ reqs, ∃ n : ℤ, r.2.quantity = .fin n) → bound + addedTotal reqs < 2 ^ 53 →
      Whole (bound + addedTotal reqs) (serveAll reqs svc).inventory := by
  induction reqs with
  | nil =>
    intro bound svc hw _ _ _
    simpa [addedTotal, serveAll] using hw
  | cons r rest ih =>
    intro bound svc hw h0 hreq hb
    have hr := addedBy_nonneg r.2
    have hrest := addedTotal_nonneg rest
    have htot : addedTotal (r :: rest) = addedBy r.2 + addedTotal rest := by
      simp [addedTotal]
    rw [htot] at hb ⊢
    have hstep := whole_serveStock hw h0 r.1 r.2 (hreq r (List.mem_cons_self _ _))
      (by omega)
    have := ih hstep (by omega) (fun x hx => hreq x (List.mem_cons_of_mem _ hx))
      (by omega)
    rw [← add_assoc]
    exact this

theorem release_after_reserve {bound : ℤ} {inv : Inventory} (hw : Whole bound inv)
    (hb : bound < 2 ^ 53) (productId : String) (n : ℤ)
    (h : (reserveStock productId (.fin n) inv).1 = 200) :
    releaseStock productId (.fin n) (reserveStock productId (.fin n) inv).2 = (200, inv) := by
  unfold reserveStock at h ⊢
  cases hq : invalidQuantity (.fin n) with
  | true => rw [hq] at h; simp at h
  | false =>
    have hn : 0 < n := (invalidQuantity_fin n).1 hq
    rw [hq] at h
    simp only [Bool.false_eq_true, if_false] at h ⊢
    cases hp : inventoryProperty productId inv with
    | absent => rw [hp] at h; simp at h
    | inherited =>
      simp only [releaseStock, hq, Bool.false_eq_true, if_false, hp]
    | own item =>
      have hg := inventoryGet_of_own hp
      obtain ⟨q, r, h1, h2, h3, h4, h5⟩ := hw _ (mem_of_inventoryGet hg)
      simp only at h1 h2
      have hsub : item.quantity - item.reserved = .fin ((q - r : ℤ) : ℚ) := by
        rw [h1, h2]
        exact Num.sub_intCast q r (by rw [abs_lt]; constructor <;> omega)
      rw [hp] at h
      simp only [hsub, Num.fin_lt_fin, Int.cast_lt] at h ⊢
      by_cases ha : q - r < n
      · rw [if_pos ha] at h; simp at h
      · have hadd : item.reserved + .fin (n : ℚ) = .fin ((r + n : ℤ) : ℚ) := by
          rw [h2]
          exact Num.add_intCast r n (by rw [abs_lt]; constructor <;> omega)
        have hback : Num.fin ((r + n : ℤ) : ℚ) - .fin (n : ℚ) = .fin (r : ℚ) := by
          have := Num.sub_intCast (r + n) n (by rw [abs_lt]; constructor <;> omega)
          rw [this]
          congr 2
          omega
        have hr : ¬ (r + n < n) := by omega
        rw [if_neg ha]
        simp only [hadd, releaseStock, hq, Bool.false_eq_true, if_false,
          inventoryProperty_of_get (inventoryGet_inventorySet_self _ _ _), Num.fin_lt_fin,
          Int.cast_lt, hr, hback, inventorySet_inventorySet]
        have hitem : (⟨item.productId, item.quantity, .fin (r : ℚ)⟩ : StockItem) = item := by
          rw [← h2]
        rw [hitem, inventorySet_eq_self hg]

theorem stockRequests_whole : ∀ r ∈ stockRequests, ∃ n : ℤ, r.2.quantity = .fin n := by
  intro r hr
  simp only [stockRequests, List.mem_cons, List.mem_singleton, List.not_mem_nil,
    or_false] at hr
  rcases hr with h | h | h | h | h | h <;> rw [h]
  · exact ⟨5, by decide!⟩
  · exact ⟨50, by decide!⟩
  · exact ⟨2, by decide!⟩
  · exact ⟨10, by decide!⟩
  · exact ⟨4, by decide!⟩
  · exact ⟨1, by decide!⟩

/-- Counterexample to C29: with quantities that are not whole numbers a reserve followed
by a release of the same quantity does not restore the reserved amount: after a reserve
of 0.1, a reserve of 0.2 and a release of 0.2, all answered 200, the reserved amount of
`PROD001` is 0.10000000000000003.  With large quantities the invariant fails: after 2 ^
53 - 94 pieces are added to the 100 of `PROD001` and 3 are reserved, a reserve of 2 ^ 53
+ 4 is answered 200, because the available amount 2 ^ 53 + 3 is rounded to 2 ^ 53 + 4,
and the reserved amount becomes 2 ^ 53 + 8, above the quantity 2 ^ 53 + 6. -/
theorem reserve_release_rounds :
    serveStatuses fractionRequests .initial = [200, 200, 200] ∧
    inventoryGet "PROD001" (serveAll (fractionRequests.take 1) .initial).inventory =
      some ⟨"PROD001", 100, tenth⟩ ∧
    inventoryGet "PROD001" (serveAll fractionRequests .initial).inventory =
      some ⟨"PROD001", 100, .fin (1801439850948199 / 18014398509481984)⟩ ∧
    tenth < Num.fin (1801439850948199 / 18014398509481984) ∧
    serveStatuses largeRequests .initial = [200, 200, 200] ∧
    inventoryGet "PROD001" (serveAll largeRequests .initial).inventory =
      some ⟨"PROD001", .fin (2 ^ 53 + 6), .fin (2 ^ 53 + 8)⟩ ∧
    Num.fin (2 ^ 53 + 6) < Num.fin (2 ^ 53 + 8) := by
  decide!

/-- C29, as amended: starting from the initial inventory, after any sequence of reserve,
release and add-stock requests whose quantities are whole numbers, and which together
add less than 2 ^ 53 - 200 pieces, every product has `0 <= reserved <= quantity`, and a
reserve of a whole quantity `n` that is answered 200, followed by a release of `n` of the
same product, is answered 200 and restores the inventory, the reserved amount of the
product included (first part); after any sequence of requests, with any numbers as
quantities, a request answered 400 or 404 leaves the inventory unchanged (second
part). -/
theorem inventory_bookkeeping (reqs : List (Bool × StockRequest)) :
    ((∀ r ∈ reqs, ∃ n : ℤ, r.2.quantity = .fin n) → 200 + addedTotal reqs < 2 ^ 53 →
      Balanced (serveAll reqs .initial).inventory ∧
      (∀ (productId : String) (n : ℤ),
        (reserveStock productId (.fin n) (serveAll reqs .initial).inventory).1 = 200 →
        releaseStock productId (.fin n)
            (reserveStock productId (.fin n) (serveAll reqs .initial).inventory).2 =
          (200, (serveAll reqs .initial).inventory))) ∧
    (∀ (flag : Bool) (req : StockRequest),
      (serveStock flag req (serveAll reqs .initial)).1 = 400 ∨
        (serveStock flag req (serveAll reqs .initial)).1 = 404 →
      (serveStock flag req (serveAll reqs .initial)).2.inventory =
        (serveAll reqs .initial).inventory) := by
  constructor
  · intro hreq hb
    have hw : Whole (200 + addedTotal reqs) (serveAll reqs .initial).inventory :=
      whole_serveAll reqs whole_initial (by norm_num) hreq hb
    exact ⟨balanced_of_whole hw, fun pid n h => release_after_reserve hw hb pid n h⟩
  · generalize (serveAll reqs .initial) = svc
    intro flag req h
    cases hc : (flag || failureWindow (svc.requestCount + 1))
    · rw [serveStock_pass req hc] at h ⊢
      apply routeStock_unchanged
      simp only at h
      rcases h with h | h <;> rw [h] <;> decide
    · rw [serveStock_reject req hc]

/-- Witness of C29 as amended: the six example requests have whole quantities and add 10
pieces; after them every product has `0 <= reserved <= quantity` and a reserve of 1
followed by a release of 1 of `PROD002` restores the inventory; after the first five,
`PROD002` is fully reserved and a further reserve of 2 is answered 400 and changes
nothing. -/
theorem inventory_bookkeeping_witness :
    (Balanced (serveAll stockRequests .initial).inventory ∧
      releaseStock "PROD002" 1
          (reserveStock "PROD002" 1 (serveAll stockRequests .initial).inventory).2 =
        (200, (serveAll stockRequests .initial).inventory)) ∧
    (serveStock false (.reserve "PROD002" 2)
        (serveAll (stockRequests.take 5) .initial)).2.inventory =
      (serveAll (stockRequests.take 5) .initial).inventory :=
  ⟨⟨((inventory_bookkeeping stockRequests).1 stockRequests_whole (by decide!)).1,
      ((inventory_bookkeeping stockRequests).1 stockRequests_whole (by decide!)).2
        "PROD002" 1 (by decide!)⟩,
    (inventory_bookkeeping (stockRequests.take 5)).2 false (.reserve "PROD002" 2)
      (Or.inl (by decide!))⟩

/-! ## The status update of the registry variant -/

theorem findOrderIndex_eq_none (id : Option Int) (orders : List RegistryOrder) :
    findOrderIndex id orders = none ↔ ∀ o ∈ orders, some (o.id : Int) ≠ id := by
  induction orders with
  | nil => simp [findOrderIndex]
  | cons o rest ih =>
    by_cases h : some (o.id : Int) = id
    · simp [findOrderIndex, h]
    · simp [findOrderIndex, h, ih]

theorem findOrderIndex_eq_some (id : Option Int) (orders : List RegistryOrder) (i : Nat)
    (h : findOrderIndex id orders = some i) :
    ∃ o, orders[i]? = some o ∧ some (o.id : Int) = id ∧
      ∀ j o', j < i → orders[j]? = some o' → some (o'.id : Int) ≠ id := by
  induction orders generalizing i with
  | nil => simp [findOrderIndex] at h
  | cons o rest ih =>
    by_cases ho : some (o.id : Int) = id
    · simp only [findOrderIndex, ho, if_true, Option.some.injEq] at h
      subst h
      exact ⟨o, by simp, ho, fun j o' hj _ => absurd hj (Nat.not_lt_zero j)⟩
    · simp only [findOrderIndex, ho, if_false, Option.map_eq_some'] at h
      obtain ⟨i', hi', rfl⟩ := h
      obtain ⟨o1, hget, hid, hfirst⟩ := ih i' hi'
      refine ⟨o1, by simpa using hget, hid, ?_⟩
      intro j o' hj hgetj
      cases j with
      | zero =>
        simp only [List.getElem?_cons_zero, Option.some.injEq] at hgetj
        subst hgetj
        exact ho
      | succ j =>
        simp only [List.getElem?_cons_succ] at hgetj
        exact hfirst j o' (by omega) hgetj

/-- C24: in the registry variant, for every state of the order service, every outcome
of the calls to the other services and every time stamp: (1) if an order has the
requested id and the requested status is one of PENDING, CONFIRMED, SHIPPED, DELIVERED
and CANCELLED, PUT /api/orders/:id/status answers 200 with the first order of that id,
its status set to the requested one and its `updatedAt` to the time stamp, and stores it
in the place of that order, leaving the other orders and the counter as they were; (2)
for another status and an existing id it answers 400, and (3) for an unknown id 404,
both without a change of the orders and without a call to another service. -/
theorem update_status_spec {σ : Type} (peers : Peers σ) (iso : String)
    (store : RegistryOrders) (w : σ) :
    (∀ (n : Int) (s : String), s ∈ validStatuses →
      (∃ o ∈ store.orders, (o.id : Int) = n) →
      ∃ i o, store.orders[i]? = some o ∧ (o.id : Int) = n ∧
        (∀ j o', j < i → store.orders[j]? = some o' → (o'.id : Int) ≠ n) ∧
        (updateStatus peers (some n) (.str s) iso store w).answer =
          .updated { o with status := s, updatedAt := iso } ∧
        (updateStatus peers (some n) (.str s) iso store w).answer.status = 200 ∧
        (updateStatus peers (some n) (.str s) iso store w).store =
          ⟨store.orders.set i { o with status := s, updatedAt := iso },
            store.orderIdCounter⟩) ∧
    (∀ (n : Int) (status : JsVal), (∀ s ∈ validStatuses, status ≠ .str s) →
      (∃ o ∈ store.orders, (o.id : Int) = n) →
      (updateStatus peers (some n) status iso store w).answer = .invalidStatus ∧
        (updateStatus peers (some n) status iso store w).answer.status = 400 ∧
        (updateStatus peers (some n) status iso store w).store = store ∧
        (updateStatus peers (some n) status iso store w).world = w ∧
        (updateStatus peers (some n) status iso store w).calls = []) ∧
    (∀ (id : Option Int) (status : JsVal), (∀ o ∈ store.orders, some (o.id : Int) ≠ id) →
      (updateStatus peers id status iso store w).answer = .notFound ∧
        (updateStatus peers id status iso store w).answer.status = 404 ∧
        (updateStatus peers id status iso store w).store = store ∧
        (updateStatus peers id status iso store w).world = w ∧
        (updateStatus peers id status iso store w).calls = []) := by
  refine ⟨?_, ?_, ?_⟩
  · intro n s hs hex
    obtain ⟨i, hi⟩ : ∃ i, findOrderIndex (some n) store.orders = some i := by
      cases hf : findOrderIndex (some n) store.orders with
      | some i => exact ⟨i, rfl⟩
      | none =>
        obtain ⟨o, ho, hid⟩ := hex
        exact absurd (by rw [hid]) ((findOrderIndex_eq_none _ _).1 hf o ho)
    obtain ⟨o, hget, hid, hfirst⟩ := findOrderIndex_eq_some _ _ _ hi
    refine ⟨i, o, hget, by simpa using hid, ?_, ?_, ?_, ?_⟩
    · intro j o' hj hgetj h
      exact hfirst j o' hj hgetj (by rw [h])
    · simp only [updateStatus, hi, if_pos hs, hget]
    · simp only [updateStatus, hi, if_pos hs, hget, StatusAnswer.status]
    · simp only [updateStatus, hi, if_pos hs, hget]
  · intro n status hstatus hex
    obtain ⟨i, hi⟩ : ∃ i, findOrderIndex (some n) store.orders = some i := by
      cases hf : findOrderIndex (some n) store.orders with
      | some i => exact ⟨i, rfl⟩
      | none =>
        obtain ⟨o, ho, hid⟩ := hex
        exact absurd (by rw [hid]) ((findOrderIndex_eq_none _ _).1 hf o ho)
    cases status with
    | str s =>
      have hs : s ∉ validStatuses := fun h => hstatus s h rfl
      simp only [updateStatus, hi, if_neg hs, StatusAnswer.status, and_self]
    | undefined => simp only [updateStatus, hi, StatusAnswer.status, and_self]
    | null => simp only [updateStatus, hi, StatusAnswer.status, and_self]
    | bool b => simp only [updateStatus, hi, StatusAnswer.status, and_self]
    | num m => simp only [updateStatus, hi, StatusAnswer.status, and_self]
  · intro id status hnone
    have hf := (findOrderIndex_eq_none id store.orders).2 hnone
    simp only [updateStatus, hf, StatusAnswer.status, and_self]

theorem freshStore_eq : freshStore = ⟨[freshOrder], 2⟩ := by
  decide!

/-- Witness of C24: the first order is created with peers that answer; then every call
to another service fails, and the update of order 1 to `CONFIRMED` still answers 200
with the order in status `CONFIRMED` and stores it. -/
theorem update_status_spec_witness :
    (updateStatus downPeers (some 1) (.str "CONFIRMED") "2024-01-01T00:00:01.000Z"
        freshStore ()).answer =
      .updated { freshOrder with
        status := "CONFIRMED", updatedAt := "2024-01-01T00:00:01.000Z" } ∧
    (updateStatus downPeers (some 1) (.str "CONFIRMED") "2024-01-01T00:00:01.000Z"
        freshStore ()).store =
      ⟨[{ freshOrder with
        status := "CONFIRMED", updatedAt := "2024-01-01T00:00:01.000Z" }], 2⟩ := by
  obtain ⟨i, o, hget, _, _, hanswer, _, hstore⟩ :=
    (update_status_spec downPeers "2024-01-01T00:00:01.000Z" freshStore ()).1 1
      "CONFIRMED" (by decide)
      ⟨freshOrder, by rw [freshStore_eq]; exact List.mem_singleton.2 rfl, rfl⟩
  rw [freshStore_eq] at hget
  cases i with
  | zero =>
    simp only [List.getElem?_cons_zero, Option.some.injEq] at hget
    subst hget
    rw [hanswer, hstore, freshStore_eq]
    exact ⟨rfl, rfl⟩
  | succ i => simp at hget

/-! ## The loops of order creation -/

theorem productReplies_append (l1 l2 : List (ClientCall × CallOutcome)) :
    productReplies (l1 ++ l2) = productReplies l1 ++ productReplies l2 := by
  simp [productReplies, List.filterMap_append]

theorem peerProductReplies_append (l1 l2 : List (PeerCall × PeerOutcome)) :
    peerProductReplies (l1 ++ l2) = peerProductReplies l1 ++ peerProductReplies l2 := by
  simp [peerProductReplies, List.filterMap_append]

/-- A validation loop that ends without an answer has pushed one order item for each
item, in order, with the price that the product client answered, and has added the
subtotals to the total. -/
theorem validateLoop_ok {σ : Type} (clients : Clients σ) (items : List ItemRequest) :
    ∀ (acc : List OrderItem) (total : Num) (w : σ) (calls : List (ClientCall × CallOutcome)),
      (validateLoop clients items acc total w calls).answer = none →
      ∃ news : List OrderItem,
        (validateLoop clients items acc total w calls).orderItems = acc ++ news ∧
        news.map (fun i => (i.productId, i.quantity)) =
          items.map (fun i => (i.productId, i.quantity)) ∧
        (∀ it ∈ news, it.subtotal = it.price * it.quantity) ∧
        (validateLoop clients items acc total w calls).totalAmount =
          (news.map (fun i => i.subtotal)).foldl (fun a b => a + b) total ∧
        productReplies (validateLoop clients items acc total w calls).calls =
          productReplies calls ++ news.map (fun i => (i.productId, i.price)) := by
  induction items with
  | nil =>
    intro acc total w calls _
    exact ⟨[], by simp [validateLoop]⟩
  | cons item rest ih =>
    intro acc total w calls h
    rw [validateLoop] at h ⊢
    by_cases hinv : item.productId.truthy = false ∨ invalidQuantity item.quantity = true
    · rw [if_pos hinv] at h
      simp at h
    · rw [if_neg hinv] at h ⊢
      cases hp : (clients.getProduct item.productId w).1 with
      | error error =>
        rw [hp] at h
        simp at h
      | ok price =>
        rw [hp] at h
        simp only at h ⊢
        cases ha : (clients.checkAvailability item.productId item.quantity
            (clients.getProduct item.productId w).2).1 with
        | error error =>
          rw [ha] at h
          simp at h
        | ok r =>
          obtain ⟨isAvailable, available⟩ := r
          rw [ha] at h
          simp only at h ⊢
          by_cases hav : isAvailable = false
          · rw [if_pos hav] at h
            simp at h
          · rw [if_neg hav] at h ⊢
            obtain ⟨news, h1, h2, h3, h4, h5⟩ := ih _ _ _ _ h
            refine ⟨⟨item.productId, item.quantity, price, price * item.quantity⟩ :: news,
              ?_, ?_, ?_, ?_, ?_⟩
            · rw [h1]; simp
            · simp [h2]
            · intro it hit
              rcases List.mem_cons.1 hit with rfl | hit
              · rfl
              · exact h3 it hit
            · rw [h4]; rfl
            · rw [h5, productReplies_append]
              simp [productReplies]

theorem productReplies_release (productId : JsVal) (quantity : Num) (o : CallOutcome) :
    productReplies [(.release productId quantity, o)] = [] := by
  simp [productReplies]

theorem productReplies_reserve (productId : JsVal) (quantity : Num) (o : CallOutcome) :
    productReplies [(.reserve productId quantity, o)] = [] := by
  simp [productReplies]

theorem releaseLoop_productReplies {σ : Type} (clients : Clients σ)
    (items : List OrderItem) :
    ∀ (w : σ) (calls : List (ClientCall × CallOutcome)),
      productReplies (releaseLoop clients items w calls).2 = productReplies calls := by
  induction items with
  | nil => intro w calls; rfl
  | cons item rest ih =>
    intro w calls
    rw [releaseLoop, ih, productReplies_append, productReplies_release, List.append_nil]

theorem releaseLoop_calls {σ : Type} (clients : Clients σ) (items : List OrderItem) :
    ∀ (w : σ) (calls : List (ClientCall × CallOutcome)),
      (releaseLoop clients items w calls).2.map Prod.fst =
        calls.map Prod.fst ++ items.map releaseOf := by
  induction items with
  | nil => intro w calls; simp [releaseLoop]
  | cons item rest ih =>
    intro w calls
    rw [releaseLoop, ih]
    simp [releaseOf]

theorem reserveLoop_productReplies {σ : Type} (clients : Clients σ)
    (orderItems rest : List OrderItem) :
    ∀ (k : Nat) (w : σ) (calls : List (ClientCall × CallOutcome)),
      productReplies (reserveLoop clients orderItems k rest w calls).calls =
        productReplies calls := by
  induction rest with
  | nil => intro k w calls; rfl
  | cons item rest ih =>
    intro k w calls
    rw [reserveLoop]
    cases hr : (clients.reserve item.productId item.quantity w).1 with
    | none =>
      simp only
      rw [ih, productReplies_append, productReplies_reserve, List.append_nil]
    | some error =>
      simp only
      rw [releaseLoop_productReplies, productReplies_append, productReplies_reserve,
        List.append_nil]

/-- A reserve loop that fails does so at a position `k + j` of an item that is left; it
has then called reserve for the items up to that one and release for the order items
before that position, each once and in order. -/
theorem reserveLoop_failure {σ : Type} (clients : Clients σ)
    (orderItems rest : List OrderItem) :
    ∀ (k : Nat) (w : σ) (calls : List (ClientCall × CallOutcome)) (k' : Nat)
      (error : JsError),
      (reserveLoop clients orderItems k rest w calls).failure = some (k', error) →
      ∃ j, k' = k + j ∧ j < rest.length ∧
        (reserveLoop clients orderItems k rest w calls).calls.map Prod.fst =
          calls.map Prod.fst ++ (rest.take (j + 1)).map reserveOf ++
            (orderItems.take k').map releaseOf := by
  induction rest with
  | nil =>
    intro k w calls k' error h
    simp [reserveLoop] at h
  | cons item rest ih =>
    intro k w calls k' error h
    rw [reserveLoop] at h ⊢
    cases hr : (clients.reserve item.productId item.quantity w).1 with
    | none =>
      rw [hr] at h
      simp only at h ⊢
      obtain ⟨j, hk, hj, hcalls⟩ := ih _ _ _ _ _ h
      refine ⟨j + 1, by omega, by simp only [List.length_cons]; omega, ?_⟩
      rw [hcalls]
      simp [reserveOf]
    | some e =>
      rw [hr] at h
      simp only [Option.some.injEq, Prod.mk.injEq] at h ⊢
      obtain ⟨rfl, rfl⟩ := h
      refine ⟨0, by omega, by simp, ?_⟩
      rw [releaseLoop_calls]
      simp [reserveOf]

/-- A loop of POST /api/orders that ends without an answer has pushed one order item
for each item, in order, with the price that the product service answered, and has added
the subtotals to the total. -/
theorem orderLoop_ok {σ : Type} (peers : Peers σ) (inventoryUrl productUrl : String)
    (items : List ItemRequest) :
    ∀ (acc : List OrderItem) (total : Num) (w : σ) (calls : List (PeerCall × PeerOutcome)),
      (orderLoop peers inventoryUrl productUrl items acc total w calls).answer = none →
      ∃ news : List OrderItem,
        (orderLoop peers inventoryUrl productUrl items acc total w calls).validatedItems =
          acc ++ news ∧
        news.map (fun i => (i.productId, i.quantity)) =
          items.map (fun i => (i.productId, i.quantity)) ∧
        (∀ it ∈ news, it.subtotal = it.price * it.quantity) ∧
        (orderLoop peers inventoryUrl productUrl items acc total w calls).totalAmount =
          (news.map (fun i => i.subtotal)).foldl (fun a b => a + b) total ∧
        peerProductReplies
            (orderLoop peers inventoryUrl productUrl items acc total w calls).calls =
          peerProductReplies calls ++ news.map (fun i => (i.productId, i.price)) := by
  induction items with
  | nil =>
    intro acc total w calls _
    exact ⟨[], by simp [orderLoop]⟩
  | cons item rest ih =>
    intro acc total w calls h
    rw [orderLoop] at h ⊢
    cases hp : (peers.getProduct productUrl item.productId w).1 with
    | error error =>
      rw [hp] at h
      simp at h
    | ok price =>
      rw [hp] at h
      simp only at h ⊢
      cases ha : (peers.getInventory inventoryUrl item.productId
          (peers.getProduct productUrl item.productId w).2).1 with
      | error error =>
        rw [ha] at h
        simp at h
      | ok r =>
        obtain ⟨quantity, reserved⟩ := r
        rw [ha] at h
        simp only at h ⊢
        by_cases hav : quantity - reserved < item.quantity
        · rw [if_pos hav] at h
          simp at h
        · rw [if_neg hav] at h ⊢
          cases hr : (peers.post inventoryUrl item.productId "reserve" item.quantity
              (peers.getInventory inventoryUrl item.productId
                (peers.getProduct productUrl item.productId w).2).2).1 with
          | some error =>
            rw [hr] at h
            simp at h
          | none =>
            rw [hr] at h
            simp only at h ⊢
            obtain ⟨news, h1, h2, h3, h4, h5⟩ := ih _ _ _ _ h
            refine ⟨⟨item.productId, item.quantity, price, price * item.quantity⟩ :: news,
              ?_, ?_, ?_, ?_, ?_⟩
            · rw [h1]; simp
            · simp [h2]
            · intro it hit
              rcases List.mem_cons.1 hit with rfl | hit
              · rfl
              · exact h3 it hit
            · rw [h4]; rfl
            · rw [h5, peerProductReplies_append]
              simp [peerProductReplies]

theorem ordersGet_ordersSet (k : String) (v : Order) (orders : List (String × Order)) :
    ordersGet k (ordersSet k v orders) = some v := by
  induction orders with
  | nil => simp [ordersSet, ordersGet]
  | cons e rest ih =>
    obtain ⟨k', v'⟩ := e
    by_cases h : k' = k
    · simp [ordersSet, ordersGet, h]
    · simp [ordersSet, ordersGet, h, ih]

theorem validationCatch_ne_created (error : JsError) (productId : JsVal)
    (order : Order) : validationCatch error productId ≠ .created order := by
  unfold validationCatch
  split_ifs <;> simp

theorem reserveCatch_ne_created (error : JsError) (order : Order) :
    reserveCatch error ≠ .created order := by
  unfold reserveCatch
  split_ifs <;> simp

theorem validateLoop_ne_created {σ : Type} (clients : Clients σ)
    (items : List ItemRequest) (order : Order) :
    ∀ (acc : List OrderItem) (total : Num) (w : σ) (calls : List (ClientCall × CallOutcome)),
      (validateLoop clients items acc total w calls).answer ≠ some (.created order) := by
  induction items with
  | nil => intro acc total w calls; simp [validateLoop]
  | cons item rest ih =>
    intro acc total w calls
    rw [validateLoop]
    split_ifs with hinv
    · simp
    · cases hp : (clients.getProduct item.productId w).1 with
      | error error =>
        simp only [ne_eq, Option.some.injEq]
        exact validationCatch_ne_created _ _ _
      | ok price =>
        simp only
        cases ha : (clients.checkAvailability item.productId item.quantity
            (clients.getProduct item.productId w).2).1 with
        | error error =>
          simp only [ne_eq, Option.some.injEq]
          exact validationCatch_ne_created _ _ _
        | ok r =>
          obtain ⟨isAvailable, available⟩ := r
          simp only
          split_ifs with hav
          · simp
          · exact ih _ _ _ _

theorem orderLoop_ne_created {σ : Type} (peers : Peers σ) (inventoryUrl productUrl : String)
    (items : List ItemRequest) (order : RegistryOrder) :
    ∀ (acc : List OrderItem) (total : Num) (w : σ) (calls : List (PeerCall × PeerOutcome)),
      (orderLoop peers inventoryUrl productUrl items acc total w calls).answer ≠
        some (.created order) := by
  induction items with
  | nil => intro acc total w calls; simp [orderLoop]
  | cons item rest ih =>
    intro acc total w calls
    rw [orderLoop]
    cases hp : (peers.getProduct productUrl item.productId w).1 with
    | error error => simp
    | ok price =>
      simp only
      cases ha : (peers.getInventory inventoryUrl item.productId
          (peers.getProduct productUrl item.productId w).2).1 with
      | error error => simp
      | ok r =>
        obtain ⟨quantity, reserved⟩ := r
        simp only
        split_ifs with hav
        · simp
        · cases hr : (peers.post inventoryUrl item.productId "reserve" item.quantity
              (peers.getInventory inventoryUrl item.productId
                (peers.getProduct productUrl item.productId w).2).2).1 with
          | some error => simp
          | none => exact ih _ _ _ _

/-- Counterexample to C30: the order of five `PROD001` at 1299.99 and three `PROD002` at
29.99 is stored with the subtotals 6499.95 and 89.97 and the total 6589.92, all doubles;
the total is not the exact sum of the two stored subtotals, and neither subtotal is the
exact product of the price and the quantity. -/
theorem order_total_rounds :
    (createOrder (wiredClients wholeQuery catalogue) (some twoItems)
      "2024-01-01T00:00:00.000Z" .initial wireUp).answer = .created firstOrder ∧
    ordersGet "ORD000001"
      (createOrder (wiredClients wholeQuery catalogue) (some twoItems)
        "2024-01-01T00:00:00.000Z" .initial wireUp).store.orders = some firstOrder ∧
    firstOrder.items.map (fun i => (i.price, i.quantity, i.subtotal)) =
      [(.fin (5717416483970089 / 4398046511104), 5,
          .fin (7146770604962611 / 1099511627776)),
       (.fin (8441434551552573 / 281474976710656), 3,
          .fin (3165537956832215 / 35184372088832))] ∧
    firstOrder.totalAmount = .fin (3622846833056809 / 549755813888) ∧
    (7146770604962611 / 1099511627776 : ℚ) + 3165537956832215 / 35184372088832 ≠
      3622846833056809 / 549755813888 ∧
    (5717416483970089 / 4398046511104 : ℚ) * 5 ≠ 7146770604962611 / 1099511627776 ∧
    (8441434551552573 / 281474976710656 : ℚ) * 3 ≠ 3165537956832215 / 35184372088832 := by
  decide!

/-- C30, as amended: for every order that order creation stores, in the circuit-breaker
variant (first part) and in the registry variant (second part), whatever the other
services answer: the order answered is the one stored, its status is PENDING, its items
are those of the request in their order (same productId and quantity), the prices of its
items are the prices that the product lookups of this request answered, in their order,
each subtotal is the double product `price * quantity`, and totalAmount is the result of
adding the subtotals to 0 one after the other in the order of the items, each addition
rounded to a double. -/
theorem order_totals :
    (∀ (σ : Type) (clients : Clients σ) (items : Option (List ItemRequest)) (iso : String)
      (store : OrderStore) (w : σ) (order : Order),
      (createOrder clients items iso store w).answer = .created order →
        ordersGet order.id (createOrder clients items iso store w).store.orders =
          some order ∧
        order.status = "PENDING" ∧
        (∃ its, items = some its ∧
          order.items.map (fun i => (i.productId, i.quantity)) =
            its.map (fun i => (i.productId, i.quantity))) ∧
        (∀ it ∈ order.items, it.subtotal = it.price * it.quantity) ∧
        productReplies (createOrder clients items iso store w).calls =
          order.items.map (fun i => (i.productId, i.price)) ∧
        order.totalAmount =
          (order.items.map (fun i => i.subtotal)).foldl (fun a b => a + b) 0) ∧
    (∀ (σ : Type) (peers : Peers σ) (customerId : JsVal) (items : Option (List ItemRequest))
      (createdAt updatedAt : String) (store : RegistryOrders) (w : σ)
      (order : RegistryOrder),
      (createRegistryOrder peers customerId items createdAt updatedAt store w).answer =
          .created order →
        (createRegistryOrder peers customerId items createdAt updatedAt store w).store.orders =
          store.orders ++ [order] ∧
        order.status = "PENDING" ∧
        (∃ its, items = some its ∧
          order.items.map (fun i => (i.productId, i.quantity)) =
            its.map (fun i => (i.productId, i.quantity))) ∧
        (∀ it ∈ order.items, it.subtotal = it.price * it.quantity) ∧
        peerProductReplies
            (createRegistryOrder peers customerId items createdAt updatedAt store w).calls =
          order.items.map (fun i => (i.productId, i.price)) ∧
        order.totalAmount =
          (order.items.map (fun i => i.subtotal)).foldl (fun a b => a + b) 0) := by
  constructor
  · intro σ clients items iso store w order h
    cases items with
    | none => simp [createOrder] at h
    | some its =>
      cases its with
      | nil => simp [createOrder] at h
      | cons item rest =>
        simp only [createOrder] at h ⊢
        cases hv : (validateLoop clients (item :: rest) [] 0 w []).answer with
        | some answer =>
          rw [hv] at h
          simp only at h
          rw [h] at hv
          exact absurd hv (validateLoop_ne_created _ _ _ _ _ _ _)
        | none =>
          rw [hv] at h
          simp only at h ⊢
          obtain ⟨news, h1, h2, h3, h4, h5⟩ := validateLoop_ok clients _ _ _ _ _ hv
          cases hf : (reserveLoop clients
              (validateLoop clients (item :: rest) [] 0 w []).orderItems 0
              (validateLoop clients (item :: rest) [] 0 w []).orderItems
              (validateLoop clients (item :: rest) [] 0 w []).world
              (validateLoop clients (item :: rest) [] 0 w []).calls).failure with
          | some f =>
            rw [hf] at h
            simp only at h
            exact absurd h (reserveCatch_ne_created _ _)
          | none =>
            rw [hf] at h
            simp only [OrderAnswer.created.injEq] at h ⊢
            subst h
            simp only [List.nil_append] at h1
            refine ⟨ordersGet_ordersSet _ _ _, rfl, ⟨_, rfl, ?_⟩, ?_, ?_, ?_⟩
            · simp only [h1]; exact h2
            · simp only [h1]; exact h3
            · rw [reserveLoop_productReplies, h5]
              simp only [h1]
              simp [productReplies]
            · simp only [h1, h4]
  · intro σ peers customerId items createdAt updatedAt store w order h
    cases items with
    | none => simp [createRegistryOrder] at h
    | some its =>
      simp only [createRegistryOrder] at h ⊢
      by_cases hreq : customerId.truthy = false ∨ its.length = 0
      · rw [if_pos hreq] at h
        simp at h
      · rw [if_neg hreq] at h ⊢
        cases hi : (peers.getServiceInstance "INVENTORY-SERVICE" w).1 with
        | error error =>
          rw [hi] at h
          simp at h
        | ok inventoryUrl =>
          rw [hi] at h
          simp only at h ⊢
          cases hp : (peers.getServiceInstance "PRODUCT-SERVICE"
              (peers.getServiceInstance "INVENTORY-SERVICE" w).2).1 with
          | error error =>
            rw [hp] at h
            simp at h
          | ok productUrl =>
            rw [hp] at h
            simp only at h ⊢
            cases hv : (orderLoop peers inventoryUrl productUrl its [] 0
                (peers.getServiceInstance "PRODUCT-SERVICE"
                  (peers.getServiceInstance "INVENTORY-SERVICE" w).2).2
                [(.getServiceInstance "INVENTORY-SERVICE", .ok (.url inventoryUrl)),
                  (.getServiceInstance "PRODUCT-SERVICE", .ok (.url productUrl))]).answer with
            | some answer =>
              rw [hv] at h
              simp only at h
              rw [h] at hv
              exact absurd hv (orderLoop_ne_created _ _ _ _ _ _ _ _ _)
            | none =>
              rw [hv] at h
              simp only [RegistryAnswer.created.injEq] at h ⊢
              subst h
              obtain ⟨news, h1, h2, h3, h4, h5⟩ := orderLoop_ok peers _ _ _ _ _ _ _ hv
              simp only [List.nil_append] at h1
              refine ⟨rfl, rfl, ⟨_, rfl, ?_⟩, ?_, ?_, ?_⟩
              · simp only [h1]; exact h2
              · simp only [h1]; exact h3
              · rw [h5]
                simp only [h1]
                simp [peerProductReplies]
              · simp only [h1, h4]

/-- Witness of C30 as amended: the first order of the circuit-breaker variant, of five
`PROD001` at 1299.99 and three `PROD002` at 29.99, is stored with the total that the two
additions in double arithmetic give; the first order of the registry variant, of two
pieces at 25, is stored with the total 50. -/
theorem order_totals_witness :
    (ordersGet "ORD000001"
        (createOrder (wiredClients wholeQuery catalogue) (some twoItems)
          "2024-01-01T00:00:00.000Z" .initial wireUp).store.orders = some firstOrder ∧
      firstOrder.totalAmount =
        (firstOrder.items.map (fun i => i.subtotal)).foldl (fun a b => a + b) 0) ∧
    ((createRegistryOrder upPeers (.str "CUST001") (some [⟨.num 1, 2⟩])
        "2024-01-01T00:00:00.000Z" "2024-01-01T00:00:00.000Z" .initial ()).store.orders =
        [] ++ [freshOrder] ∧
      freshOrder.totalAmount =
        (freshOrder.items.map (fun i => i.subtotal)).foldl (fun a b => a + b) 0) :=
  ⟨⟨(order_totals.1 Wire (wiredClients wholeQuery catalogue) (some twoItems)
        "2024-01-01T00:00:00.000Z" .initial wireUp firstOrder (by decide!)).1,
      (order_totals.1 Wire (wiredClients wholeQuery catalogue) (some twoItems)
        "2024-01-01T00:00:00.000Z" .initial wireUp firstOrder (by decide!)).2.2.2.2.2⟩,
    (order_totals.2 Unit upPeers (.str "CUST001") (some [⟨.num 1, 2⟩])
      "2024-01-01T00:00:00.000Z" "2024-01-01T00:00:00.000Z" .initial () freshOrder
      (by decide!)).1,
    (order_totals.2 Unit upPeers (.str "CUST001") (some [⟨.num 1, 2⟩])
      "2024-01-01T00:00:00.000Z" "2024-01-01T00:00:00.000Z" .initial () freshOrder
      (by decide!)).2.2.2.2.2⟩

/-! ## The inventory behind the wire -/

theorem adjustReserved_cons (p : String) (d : ℤ) (k : String) (v : StockItem)
    (rest : Inventory) :
    adjustReserved p d ((k, v) :: rest) =
      if k = p then
        match v.reserved with
        | .fin r => (p, ⟨v.productId, v.quantity, .fin (r + d)⟩) :: rest
        | _ => (k, v) :: rest
      else (k, v) :: adjustReserved p d rest := by
  by_cases hk : k = p
  · simp only [adjustReserved, inventoryGet, hk, if_true]
    cases v.reserved <;> simp [inventorySet]
  · simp only [adjustReserved, inventoryGet, hk, if_false]
    cases inventoryGet p rest with
    | none => rfl
    | some item =>
      simp only
      cases hr : item.reserved <;> simp [inventorySet, hk]

theorem adjustReserved_nil (p : String) (d : ℤ) : adjustReserved p d [] = [] := by
  simp [adjustReserved, inventoryGet]

theorem adjustReserved_comm (p p' : String) (d d' : ℤ) (inv : Inventory) :
    adjustReserved p d (adjustReserved p' d' inv) =
      adjustReserved p' d' (adjustReserved p d inv) := by
  induction inv with
  | nil => simp [adjustReserved_nil]
  | cons e rest ih =>
    obtain ⟨k, v⟩ := e
    by_cases hp : k = p <;> by_cases hp' : k = p'
    · subst hp
      subst hp'
      cases hv : v.reserved <;> simp [adjustReserved_cons, hv, add_right_comm]
    · subst hp
      have hne : ¬ p' = k := fun h => hp' h.symm
      cases hv : v.reserved <;> simp [adjustReserved_cons, hp', hne, hv]
    · subst hp'
      have hne : ¬ p = k := fun h => hp h.symm
      cases hv : v.reserved <;> simp [adjustReserved_cons, hp, hne, hv]
    · simp [adjustReserved_cons, hp, hp', ih]

theorem adjustReserved_cancel (p : String) (d : ℤ) (inv : Inventory) :
    adjustReserved p (-d) (adjustReserved p d inv) = inv := by
  induction inv with
  | nil => simp [adjustReserved_nil]
  | cons e rest ih =>
    obtain ⟨k, v⟩ := e
    by_cases hp : k = p
    · subst hp
      obtain ⟨vp, vq, vr⟩ := v
      cases vr <;> simp [adjustReserved_cons]
    · simp [adjustReserved_cons, hp, ih]

theorem adjustReserved_reserveAll (p : String) (d : ℤ) (items : List OrderItem) :
    ∀ inv : Inventory,
      adjustReserved p d (reserveAll items inv) = reserveAll items (adjustReserved p d inv) := by
  induction items with
  | nil => intro inv; rfl
  | cons item rest ih =>
    intro inv
    simp only [reserveAll, List.foldl_cons] at ih ⊢
    rw [ih, adjustReserved_comm]

theorem releaseAll_reserveAll (items : List OrderItem) :
    ∀ inv : Inventory, releaseAll items (reserveAll items inv) = inv := by
  induction items with
  | nil => intro inv; rfl
  | cons item rest ih =>
    intro inv
    have h := adjustReserved_reserveAll item.productId.toStr (-wholeOf item.quantity) rest
      (adjustReserved item.productId.toStr (wholeOf item.quantity) inv)
    simp only [reserveAll, releaseAll, List.foldl_cons] at ih h ⊢
    rw [h, adjustReserved_cancel]
    exact ih inv

theorem serveStock_unchanged (req : StockRequest) (svc : InventoryService)
    (h : (serveStock false req svc).1 ≠ 200) :
    (serveStock false req svc).2.inventory = svc.inventory := by
  cases hw : failureWindow (svc.requestCount + 1) with
  | true =>
    rw [serveStock_reject req (by simp [hw])]
  | false =>
    have hpass := @serveStock_pass false req svc (by simp [hw])
    rw [hpass] at h ⊢
    exact routeStock_unchanged req svc.inventory h

theorem serveStock_ok (req : StockRequest) (svc : InventoryService)
    (h : (serveStock false req svc).1 = 200) :
    (serveStock false req svc).2.inventory = (routeStock req svc.inventory).2 ∧
      (routeStock req svc.inventory).1 = 200 := by
  cases hw : failureWindow (svc.requestCount + 1) with
  | true =>
    rw [serveStock_reject req (by simp [hw])] at h
    simp at h
  | false =>
    have hpass := @serveStock_pass false req svc (by simp [hw])
    rw [hpass] at h ⊢
    exact ⟨rfl, h⟩

theorem nextDelivery_snd (w : Wire) : (nextDelivery w).2 = w.deliveries.tail := by
  unfold nextDelivery
  cases w.deliveries <;> rfl

theorem nextDelivery_fst_mem (w : Wire) (error : JsError)
    (h : (nextDelivery w).1 = .unanswered error) : .unanswered error ∈ w.deliveries := by
  unfold nextDelivery at h
  cases hd : w.deliveries with
  | nil => rw [hd] at h; simp at h
  | cons d rest =>
    rw [hd] at h
    simp only at h
    rw [h]
    exact List.mem_cons_self _ _

theorem wiredStock_deliveries (req : StockRequest) (w : Wire) :
    (wiredStock req w).2.deliveries = w.deliveries.tail := by
  unfold wiredStock
  cases (nextDelivery w).1 <;> simp [nextDelivery_snd]

theorem wiredStock_ok (req : StockRequest) (w : Wire) (h : (wiredStock req w).1 = none) :
    (wiredStock req w).2.service.inventory = (routeStock req w.service.inventory).2 ∧
      (routeStock req w.service.inventory).1 = 200 := by
  unfold wiredStock at h ⊢
  cases hd : (nextDelivery w).1 with
  | answered =>
    rw [hd] at h
    simp only at h ⊢
    by_cases hs : (serveStock false req w.service).1 = 200
    · exact serveStock_ok req w.service hs
    · rw [if_neg hs] at h
      simp at h
  | notSent error => rw [hd] at h; simp at h
  | unanswered error => rw [hd] at h; simp at h

theorem wiredStock_failed (req : StockRequest) (w : Wire) (error : JsError)
    (h : (wiredStock req w).1 = some error) (hw : NoUnanswered w.deliveries) :
    (wiredStock req w).2.service.inventory = w.service.inventory := by
  unfold wiredStock at h ⊢
  cases hd : (nextDelivery w).1 with
  | answered =>
    rw [hd] at h
    simp only at h ⊢
    by_cases hs : (serveStock false req w.service).1 = 200
    · rw [if_pos hs] at h
      simp at h
    · exact serveStock_unchanged req w.service hs
  | notSent e => rfl
  | unanswered e => exact absurd rfl (hw _ (nextDelivery_fst_mem w e hd) e)

theorem wiredAvailability_world (queryQuantity : Num → Num) (productId : JsVal)
    (quantity : Num) (w : Wire) :
    (wiredAvailability queryQuantity productId quantity w).2.service.inventory =
        w.service.inventory ∧
      (wiredAvailability queryQuantity productId quantity w).2.deliveries =
        w.deliveries.tail := by
  unfold wiredAvailability
  cases (nextDelivery w).1 <;>
    simp only [nextDelivery_snd, serveAvailability, and_true] <;> try (split_ifs <;> rfl)

theorem wiredClients_getProduct (queryQuantity : Num → Num) (prices : String → Option Num)
    (productId : JsVal) (w : Wire) :
    ((wiredClients queryQuantity prices).getProduct productId w).2 = w := by
  simp only [wiredClients]
  cases prices productId.toStr <;> rfl

theorem noUnanswered_tail {deliveries : List Delivery} (h : NoUnanswered deliveries) :
    NoUnanswered deliveries.tail :=
  fun d hd => h d (List.mem_of_mem_tail hd)

/-! ## The rollback of the reservations -/

theorem validateLoop_calls {σ : Type} (clients : Clients σ) (items : List ItemRequest) :
    ∀ (acc : List OrderItem) (total : Num) (w : σ) (calls : List (ClientCall × CallOutcome)),
      (validateLoop clients items acc total w calls).answer = none →
      (validateLoop clients items acc total w calls).calls.map Prod.fst =
        calls.map Prod.fst ++ validationCalls items := by
  induction items with
  | nil =>
    intro acc total w calls _
    simp [validateLoop, validationCalls]
  | cons item rest ih =>
    intro acc total w calls h
    rw [validateLoop] at h ⊢
    by_cases hinv : item.productId.truthy = false ∨ invalidQuantity item.quantity = true
    · rw [if_pos hinv] at h
      simp at h
    · rw [if_neg hinv] at h ⊢
      cases hp : (clients.getProduct item.productId w).1 with
      | error error =>
        rw [hp] at h
        simp at h
      | ok price =>
        rw [hp] at h
        simp only at h ⊢
        cases ha : (clients.checkAvailability item.productId item.quantity
            (clients.getProduct item.productId w).2).1 with
        | error error =>
          rw [ha] at h
          simp at h
        | ok r =>
          obtain ⟨isAvailable, available⟩ := r
          rw [ha] at h
          simp only at h ⊢
          by_cases hav : isAvailable = false
          · rw [if_pos hav] at h
            simp at h
          · rw [if_neg hav] at h ⊢
            rw [ih _ _ _ _ h]
            simp [validationCalls]

theorem validateLoop_wired (queryQuantity : Num → Num) (prices : String → Option Num)
    (items : List ItemRequest) :
    ∀ (acc : List OrderItem) (total : Num) (w : Wire)
      (calls : List (ClientCall × CallOutcome)),
      (validateLoop (wiredClients queryQuantity prices) items acc total w
          calls).world.service.inventory = w.service.inventory ∧
        (NoUnanswered w.deliveries →
          NoUnanswered
            (validateLoop (wiredClients queryQuantity prices) items acc total w
              calls).world.deliveries) := by
  induction items with
  | nil =>
    intro acc total w calls
    exact ⟨rfl, fun h => h⟩
  | cons item rest ih =>
    intro acc total w calls
    have hcheck : ∀ w' : Wire,
        (wiredClients queryQuantity prices).checkAvailability item.productId item.quantity
            w' =
          wiredAvailability queryQuantity item.productId item.quantity w' := fun _ => rfl
    rw [validateLoop]
    split_ifs with hinv
    · exact ⟨rfl, fun h => h⟩
    · cases hp : ((wiredClients queryQuantity prices).getProduct item.productId w).1 with
      | error error =>
        simp only [wiredClients_getProduct]
        exact ⟨trivial, fun h => h⟩
      | ok price =>
        simp only [wiredClients_getProduct, hcheck]
        have hw := wiredAvailability_world queryQuantity item.productId item.quantity w
        cases ha : (wiredAvailability queryQuantity item.productId item.quantity w).1 with
        | error error =>
          simp only
          exact ⟨hw.1, fun h => by rw [hw.2]; exact noUnanswered_tail h⟩
        | ok r =>
          obtain ⟨isAvailable, available⟩ := r
          simp only
          split_ifs with hav
          · exact ⟨hw.1, fun h => by rw [hw.2]; exact noUnanswered_tail h⟩
          · obtain ⟨h1, h2⟩ := ih
              (acc ++ [⟨item.productId, item.quantity, price, price * item.quantity⟩])
              (total + price * item.quantity)
              (wiredAvailability queryQuantity item.productId item.quantity w).2
              (calls ++ [(.getProduct item.productId, .ok (.product price)),
                (.checkAvailability item.productId item.quantity,
                  .ok (.availability isAvailable available))])
            exact ⟨h1.trans hw.1, fun h => h2 (by rw [hw.2]; exact noUnanswered_tail h)⟩

theorem releaseLoop_mem {σ : Type} (clients : Clients σ) (items : List OrderItem) :
    ∀ (w : σ) (calls : List (ClientCall × CallOutcome)) (e : ClientCall × CallOutcome),
      e ∈ calls → e ∈ (releaseLoop clients items w calls).2 := by
  induction items with
  | nil => intro w calls e he; exact he
  | cons item rest ih =>
    intro w calls e he
    rw [releaseLoop]
    exact ih _ _ e (List.mem_append_left _ he)

theorem wholeOf_intCast (n : ℤ) : wholeOf (.fin (n : ℚ)) = n := by
  simp [wholeOf]

theorem releaseLoop_wired (queryQuantity : Num → Num) (prices : String → Option Num)
    (bound : ℤ) (hb : bound < 2 ^ 53) (items : List OrderItem) :
    ∀ (w : Wire) (calls : List (ClientCall × CallOutcome)),
      Whole bound w.service.inventory →
      (∀ it ∈ items, ∃ n : ℤ, it.quantity = .fin n) →
      ReleasesSucceed (releaseLoop (wiredClients queryQuantity prices) items w calls).2 →
      (releaseLoop (wiredClients queryQuantity prices) items w calls).1.service.inventory =
        releaseAll items w.service.inventory := by
  induction items with
  | nil => intro w calls _ _ _; rfl
  | cons item rest ih =>
    intro w calls hw hwhole h
    obtain ⟨n, hn⟩ := hwhole item (List.mem_cons_self _ _)
    have hrel : ∀ w' : Wire,
        (wiredClients queryQuantity prices).release item.productId item.quantity w' =
          wiredStock (.release item.productId.toStr item.quantity) w' := fun _ => rfl
    rw [releaseLoop] at h ⊢
    rw [hrel] at h ⊢
    have hnone : (wiredStock (.release item.productId.toStr item.quantity) w).1 = none := by
      cases hr : (wiredStock (.release item.productId.toStr item.quantity) w).1 with
      | none => rfl
      | some error =>
        rw [hr] at h
        exact absurd rfl (h _ (releaseLoop_mem _ _ _ _ _
          (List.mem_append_right _ (List.mem_singleton.2 rfl)))
          item.productId item.quantity error)
    obtain ⟨h1, h2⟩ := wiredStock_ok _ _ hnone
    simp only [routeStock] at h1 h2
    rw [hn] at h1 h2
    obtain ⟨h3, h4⟩ := releaseStock_whole hw hb item.productId.toStr n h2
    rw [ih _ _ (by rw [hn, h1]; exact h4)
      (fun it hit => hwhole it (List.mem_cons_of_mem _ hit)) h]
    rw [hn, h1, h3]
    simp [releaseAll, hn, wholeOf_intCast]

theorem reserveLoop_wired (queryQuantity : Num → Num) (prices : String → Option Num)
    (bound : ℤ) (hb : bound < 2 ^ 53) (orderItems rest : List OrderItem)
    (horder : ∀ it ∈ orderItems, ∃ n : ℤ, it.quantity = .fin n) :
    ∀ (k : Nat) (w : Wire) (calls : List (ClientCall × CallOutcome)) (k' : Nat)
      (error : JsError),
      (∀ it ∈ rest, ∃ n : ℤ, it.quantity = .fin n) →
      Whole bound w.service.inventory →
      (reserveLoop (wiredClients queryQuantity prices) orderItems k rest w calls).failure =
          some (k', error) →
      NoUnanswered w.deliveries →
      ReleasesSucceed
        (reserveLoop (wiredClients queryQuantity prices) orderItems k rest w calls).calls →
      (reserveLoop (wiredClients queryQuantity prices) orderItems k rest w
          calls).world.service.inventory =
        releaseAll (orderItems.take k')
          (reserveAll (rest.take (k' - k)) w.service.inventory) := by
  induction rest with
  | nil =>
    intro k w calls k' error _ _ h
    simp [reserveLoop] at h
  | cons item rest ih =>
    intro k w calls k' error hrest hwh h hw hrel
    obtain ⟨n, hn⟩ := hrest item (List.mem_cons_self _ _)
    have hres : ∀ w' : Wire,
        (wiredClients queryQuantity prices).reserve item.productId item.quantity w' =
          wiredStock (.reserve item.productId.toStr item.quantity) w' := fun _ => rfl
    rw [reserveLoop] at h hrel ⊢
    rw [hres] at h hrel ⊢
    cases hr : (wiredStock (.reserve item.productId.toStr item.quantity) w).1 with
    | none =>
      rw [hr] at h hrel
      simp only at h hrel ⊢
      obtain ⟨j, hk, _, _⟩ := reserveLoop_failure _ _ _ _ _ _ _ _ h
      obtain ⟨h1, h2⟩ := wiredStock_ok _ _ hr
      simp only [routeStock] at h1 h2
      rw [hn] at h1 h2
      obtain ⟨h3, h4⟩ := reserveStock_whole hwh hb item.productId.toStr n h2
      rw [ih _ _ _ _ _ (fun it hit => hrest it (List.mem_cons_of_mem _ hit))
        (by rw [hn, h1]; exact h4) h
        (by rw [wiredStock_deliveries]; exact noUnanswered_tail hw) hrel]
      rw [hn, h1, h3]
      have hk2 : k' - k = (k' - (k + 1)) + 1 := by omega
      rw [hk2, List.take_succ_cons]
      simp [reserveAll, hn, wholeOf_intCast]
    | some e =>
      rw [hr] at h hrel
      simp only [Option.some.injEq, Prod.mk.injEq] at h hrel ⊢
      obtain ⟨rfl, rfl⟩ := h
      have hsame := wiredStock_failed _ _ _ hr hw
      rw [releaseLoop_wired queryQuantity prices bound hb _ _ _ (by rw [hsame]; exact hwh)
        (fun it hit => horder it (List.mem_of_mem_take hit)) hrel, hsame]
      simp [reserveAll]

theorem whole_of_map_eq (ois : List OrderItem) :
    ∀ (its : List ItemRequest),
      ois.map (fun i => (i.productId, i.quantity)) =
        its.map (fun i => (i.productId, i.quantity)) →
      (∀ it ∈ its, ∃ n : ℤ, it.quantity = .fin n) →
      ∀ it ∈ ois, ∃ n : ℤ, it.quantity = .fin n := by
  induction ois with
  | nil => intro its _ _ it hit; simp at hit
  | cons o os ih =>
    intro its h hwhole it hit
    cases its with
    | nil => simp at h
    | cons i is =>
      simp only [List.map_cons, List.cons.injEq, Prod.mk.injEq] at h
      obtain ⟨⟨_, hq⟩, htail⟩ := h
      rcases List.mem_cons.1 hit with rfl | hit
      · rw [hq]; exact hwhole i (List.mem_cons_self _ _)
      · exact ih is htail (fun x hx => hwhole x (List.mem_cons_of_mem _ hx)) it hit

theorem take_map_reserveOf (ois : List OrderItem) :
    ∀ (its : List ItemRequest) (n : Nat),
      ois.map (fun i => (i.productId, i.quantity)) =
        its.map (fun i => (i.productId, i.quantity)) →
      (ois.take n).map reserveOf = (its.take n).map reserveCall ∧
        (ois.take n).map releaseOf = (its.take n).map releaseCall := by
  induction ois with
  | nil =>
    intro its n h
    cases its with
    | nil => simp
    | cons i is => simp at h
  | cons o os ih =>
    intro its n h
    cases its with
    | nil => simp at h
    | cons i is =>
      simp only [List.map_cons, List.cons.injEq, Prod.mk.injEq] at h
      obtain ⟨⟨hp, hq⟩, htail⟩ := h
      cases n with
      | zero => simp
      | succ n =>
        obtain ⟨h1, h2⟩ := ih is n htail
        simp [h1, h2, reserveOf, releaseOf, reserveCall, releaseCall, hp, hq]

/-- Counterexample to C25: the order of five `PROD001` and three `PROD002` is validated,
`PROD001` is reserved, and the reserve of `PROD002` (position 1) is handled by the
inventory service, but its answer does not come back within the timeout, so the client
throws.  The release of `PROD001` is requested and succeeds, no order is stored, and yet
the reserved amount of `PROD002` is 3 afterwards, where it was 0 before the request.
With quantities that are not whole numbers the amount is not restored either: with 0.1
pieces of `PROD001` reserved before, the order of 0.2 pieces of `PROD001` and 50.5 of
`PROD002` is validated, the reserve of `PROD002` is answered 400, the release of
`PROD001` succeeds, every call is answered, and the reserved amount of `PROD001` is
0.10000000000000003 afterwards. -/
theorem failed_reserve_stays_reserved :
    ((validateLoop (wiredClients wholeQuery catalogue) twoItems [] 0 wireLate []).answer =
        none ∧
      (reserveLoop (wiredClients wholeQuery catalogue)
          (validateLoop (wiredClients wholeQuery catalogue) twoItems [] 0 wireLate
            []).orderItems 0
          (validateLoop (wiredClients wholeQuery catalogue) twoItems [] 0 wireLate
            []).orderItems
          (validateLoop (wiredClients wholeQuery catalogue) twoItems [] 0 wireLate
            []).world
          (validateLoop (wiredClients wholeQuery catalogue) twoItems [] 0 wireLate
            []).calls).failure =
        some (1, timeoutError) ∧
      (createOrder (wiredClients wholeQuery catalogue) (some twoItems)
          "2024-01-01T00:00:00.000Z" .initial wireLate).calls.map Prod.fst =
        [.getProduct (.str "PROD001"), .checkAvailability (.str "PROD001") 5,
         .getProduct (.str "PROD002"), .checkAvailability (.str "PROD002") 3,
         .reserve (.str "PROD001") 5, .reserve (.str "PROD002") 3,
         .release (.str "PROD001") 5] ∧
      (createOrder (wiredClients wholeQuery catalogue) (some twoItems)
          "2024-01-01T00:00:00.000Z" .initial wireLate).calls.getLast? =
        some (.release (.str "PROD001") 5, .ok .done) ∧
      (createOrder (wiredClients wholeQuery catalogue) (some twoItems)
          "2024-01-01T00:00:00.000Z" .initial wireLate).store = .initial ∧
      inventoryGet "PROD002" wireLate.service.inventory = some ⟨"PROD002", 50, 0⟩ ∧
      inventoryGet "PROD002"
          (createOrder (wiredClients wholeQuery catalogue) (some twoItems)
            "2024-01-01T00:00:00.000Z" .initial wireLate).world.service.inventory =
        some ⟨"PROD002", 50, 3⟩) ∧
    ((validateLoop (wiredClients integerPart catalogue) fractionItems [] 0 wireTenth
          []).answer = none ∧
      (reserveLoop (wiredClients integerPart catalogue)
          (validateLoop (wiredClients integerPart catalogue) fractionItems [] 0 wireTenth
            []).orderItems 0
          (validateLoop (wiredClients integerPart catalogue) fractionItems [] 0 wireTenth
            []).orderItems
          (validateLoop (wiredClients integerPart catalogue) fractionItems [] 0 wireTenth
            []).world
          (validateLoop (wiredClients integerPart catalogue) fractionItems [] 0 wireTenth
            []).calls).failure =
        some (1, statusError "inventory-service" 400) ∧
      wireTenth.deliveries = [] ∧
      (createOrder (wiredClients integerPart catalogue) (some fractionItems)
          "2024-01-01T00:00:00.000Z" .initial wireTenth).calls.map Prod.fst =
        [.getProduct (.str "PROD001"), .checkAvailability (.str "PROD001") fifth,
         .getProduct (.str "PROD002"), .checkAvailability (.str "PROD002") (.fin (101 / 2)),
         .reserve (.str "PROD001") fifth, .reserve (.str "PROD002") (.fin (101 / 2)),
         .release (.str "PROD001") fifth] ∧
      (createOrder (wiredClients integerPart catalogue) (some fractionItems)
          "2024-01-01T00:00:00.000Z" .initial wireTenth).calls.getLast? =
        some (.release (.str "PROD001") fifth, .ok .done) ∧
      inventoryGet "PROD001" wireTenth.service.inventory = some ⟨"PROD001", 100, tenth⟩ ∧
      inventoryGet "PROD001"
          (createOrder (wiredClients integerPart catalogue) (some fractionItems)
            "2024-01-01T00:00:00.000Z" .initial wireTenth).world.service.inventory =
        some ⟨"PROD001", 100, .fin (1801439850948199 / 18014398509481984)⟩ ∧
      tenth < Num.fin (1801439850948199 / 18014398509481984)) := by
  decide!

/-- C25, as amended: in order creation of the circuit-breaker variant, for all clients,
if the validation loop passes and the reserve fails for the item at position `k`, then
(first part) the calls of the request are the product lookups and availability checks of
the validation, the reserves of the items at positions 0..k, and then one release for
each of the items at positions 0..k-1, in their order and with the productId and
quantity of the request, and nothing else; no order is stored and `orderCounter` is
unchanged; the answer is 503 or 500.  Over the inventory service of this variant (second
part), if moreover the quantities of the items are whole numbers, the inventory before
the request holds whole quantities and reserved amounts with
`0 <= reserved <= quantity < 2 ^ 53`, no call of the inventory client is handled by the
service without its answer coming back, and none of the releases throws, the inventory
after the request equals the inventory before it, so every product has its reserved
amount of before. -/
theorem rollback_on_failed_reserve :
    (∀ (σ : Type) (clients : Clients σ) (items : List ItemRequest) (iso : String)
      (store : OrderStore) (w : σ) (k : Nat) (error : JsError),
      (validateLoop clients items [] 0 w []).answer = none →
      (reserveLoop clients (validateLoop clients items [] 0 w []).orderItems 0
          (validateLoop clients items [] 0 w []).orderItems
          (validateLoop clients items [] 0 w []).world
          (validateLoop clients items [] 0 w []).calls).failure = some (k, error) →
      k < items.length ∧
        (createOrder clients (some items) iso store w).calls.map Prod.fst =
          validationCalls items ++ (items.take (k + 1)).map reserveCall ++
            (items.take k).map releaseCall ∧
        (createOrder clients (some items) iso store w).store = store ∧
        (createOrder clients (some items) iso store w).answer = reserveCatch error ∧
        ((createOrder clients (some items) iso store w).answer.status = 503 ∨
          (createOrder clients (some items) iso store w).answer.status = 500)) ∧
    (∀ (queryQuantity : Num → Num) (prices : String → Option Num)
      (items : List ItemRequest) (iso : String) (store : OrderStore) (w : Wire) (bound : ℤ)
      (k : Nat) (error : JsError),
      (validateLoop (wiredClients queryQuantity prices) items [] 0 w []).answer = none →
      (reserveLoop (wiredClients queryQuantity prices)
          (validateLoop (wiredClients queryQuantity prices) items [] 0 w []).orderItems 0
          (validateLoop (wiredClients queryQuantity prices) items [] 0 w []).orderItems
          (validateLoop (wiredClients queryQuantity prices) items [] 0 w []).world
          (validateLoop (wiredClients queryQuantity prices) items [] 0 w []).calls).failure =
        some (k, error) →
      (∀ item ∈ items, ∃ n : ℤ, item.quantity = .fin n) →
      bound < 2 ^ 53 →
      Whole bound w.service.inventory →
      NoUnanswered w.deliveries →
      ReleasesSucceed
        (createOrder (wiredClients queryQuantity prices) (some items) iso store w).calls →
      (createOrder (wiredClients queryQuantity prices) (some items) iso store
          w).world.service.inventory =
        w.service.inventory) := by
  constructor
  · intro σ clients items iso store w k error hv hf
    cases items with
    | nil => simp [validateLoop, reserveLoop] at hf
    | cons item rest =>
      obtain ⟨news, h1, h2, _, _, _⟩ := validateLoop_ok clients _ _ _ _ _ hv
      simp only [List.nil_append] at h1
      obtain ⟨j, hk, hj, hcalls⟩ := reserveLoop_failure _ _ _ _ _ _ _ _ hf
      simp only [Nat.zero_add] at hk
      subst hk
      rw [h1] at hj hcalls
      have hlen : news.length = (item :: rest).length := by
        have := congrArg List.length h2
        simpa using this
      have hcreate : createOrder clients (some (item :: rest)) iso store w =
          ⟨reserveCatch error, store,
            (reserveLoop clients (validateLoop clients (item :: rest) [] 0 w []).orderItems 0
              (validateLoop clients (item :: rest) [] 0 w []).orderItems
              (validateLoop clients (item :: rest) [] 0 w []).world
              (validateLoop clients (item :: rest) [] 0 w []).calls).world,
            (reserveLoop clients (validateLoop clients (item :: rest) [] 0 w []).orderItems 0
              (validateLoop clients (item :: rest) [] 0 w []).orderItems
              (validateLoop clients (item :: rest) [] 0 w []).world
              (validateLoop clients (item :: rest) [] 0 w []).calls).calls⟩ := by
        simp only [createOrder, hv, hf]
      rw [hcreate]
      refine ⟨by rw [← hlen]; exact hj, ?_, rfl, rfl, ?_⟩
      · simp only
        rw [h1, hcalls, validateLoop_calls clients _ _ _ _ _ hv,
          (take_map_reserveOf news _ (k + 1) h2).1, (take_map_reserveOf news _ k h2).2]
        simp
      · simp only [reserveCatch]
        split_ifs
        · exact Or.inl rfl
        · exact Or.inr rfl
  · intro queryQuantity prices items iso store w bound k error hv hf hwhole hb hinit hw hrel
    cases items with
    | nil => simp [validateLoop, reserveLoop] at hf
    | cons item rest =>
      have hcreate : createOrder (wiredClients queryQuantity prices) (some (item :: rest))
          iso store w =
          ⟨reserveCatch error, store,
            (reserveLoop (wiredClients queryQuantity prices)
              (validateLoop (wiredClients queryQuantity prices) (item :: rest) [] 0 w
                []).orderItems 0
              (validateLoop (wiredClients queryQuantity prices) (item :: rest) [] 0 w
                []).orderItems
              (validateLoop (wiredClients queryQuantity prices) (item :: rest) [] 0 w
                []).world
              (validateLoop (wiredClients queryQuantity prices) (item :: rest) [] 0 w
                []).calls).world,
            (reserveLoop (wiredClients queryQuantity prices)
              (validateLoop (wiredClients queryQuantity prices) (item :: rest) [] 0 w
                []).orderItems 0
              (validateLoop (wiredClients queryQuantity prices) (item :: rest) [] 0 w
                []).orderItems
              (validateLoop (wiredClients queryQuantity prices) (item :: rest) [] 0 w
                []).world
              (validateLoop (wiredClients queryQuantity prices) (item :: rest) [] 0 w
                []).calls).calls⟩ := by
        simp only [createOrder, hv, hf]
      rw [hcreate] at hrel ⊢
      simp only at hrel ⊢
      obtain ⟨hinv, hno⟩ := validateLoop_wired queryQuantity prices (item :: rest) [] 0 w []
      obtain ⟨news, h1, h2, _, _, _⟩ :=
        validateLoop_ok (wiredClients queryQuantity prices) _ _ _ _ _ hv
      simp only [List.nil_append] at h1
      have hnews : ∀ it ∈ (validateLoop (wiredClients queryQuantity prices) (item :: rest)
          [] 0 w []).orderItems, ∃ n : ℤ, it.quantity = .fin n := by
        rw [h1]
        exact whole_of_map_eq news _ h2 hwhole
      rw [reserveLoop_wired queryQuantity prices bound hb _ _ hnews _ _ _ _ _ hnews
        (by rw [hinv]; exact hinit) hf (hno hw) hrel, Nat.sub_zero,
        releaseAll_reserveAll, hinv]

/-- Witness of C25: the order of five `PROD001` and three `PROD002` is validated,
`PROD001` is reserved, and the reserve of `PROD002` (position 1) is rejected by the open
circuit; `PROD001` is released, no order is stored, and the inventory is the one of
before. -/
theorem rollback_on_failed_reserve_witness :
    (1 < twoItems.length ∧
      (createOrder (wiredClients wholeQuery catalogue) (some twoItems)
          "2024-01-01T00:00:00.000Z" .initial wireOpen).calls.map Prod.fst =
        validationCalls twoItems ++ (twoItems.take (1 + 1)).map reserveCall ++
          (twoItems.take 1).map releaseCall ∧
      (createOrder (wiredClients wholeQuery catalogue) (some twoItems)
          "2024-01-01T00:00:00.000Z" .initial wireOpen).store = .initial ∧
      (createOrder (wiredClients wholeQuery catalogue) (some twoItems)
          "2024-01-01T00:00:00.000Z" .initial wireOpen).answer = reserveCatch plainError ∧
      ((createOrder (wiredClients wholeQuery catalogue) (some twoItems)
          "2024-01-01T00:00:00.000Z" .initial wireOpen).answer.status = 503 ∨
        (createOrder (wiredClients wholeQuery catalogue) (some twoItems)
          "2024-01-01T00:00:00.000Z" .initial wireOpen).answer.status = 500)) ∧
    (createOrder (wiredClients wholeQuery catalogue) (some twoItems)
        "2024-01-01T00:00:00.000Z" .initial wireOpen).world.service.inventory =
      wireOpen.service.inventory :=
  ⟨rollback_on_failed_reserve.1 Wire (wiredClients wholeQuery catalogue) twoItems
      "2024-01-01T00:00:00.000Z" .initial wireOpen 1 plainError (by decide!) (by decide!),
    rollback_on_failed_reserve.2 wholeQuery catalogue twoItems "2024-01-01T00:00:00.000Z"
      .initial wireOpen 200 1 plainError (by decide!) (by decide!)
      (by
        intro item hitem
        simp only [twoItems, List.mem_cons, List.mem_singleton, List.not_mem_nil,
          or_false] at hitem
        rcases hitem with h | h <;> rw [h]
        · exact ⟨5, by decide!⟩
        · exact ⟨3, by decide!⟩)
      (by norm_num)
      whole_initial
      (by
        intro d hd error
        simp only [wireOpen, List.mem_cons, List.mem_singleton, List.not_mem_nil,
          or_false] at hd
        rcases hd with h | h | h | h <;> rw [h] <;> simp)
      (by
        have hcalls : (createOrder (wiredClients wholeQuery catalogue) (some twoItems)
            "2024-01-01T00:00:00.000Z" .initial wireOpen).calls =
            [(.getProduct (.str "PROD001"),
                .ok (.product (.fin (5717416483970089 / 4398046511104)))),
             (.checkAvailability (.str "PROD001") 5, .ok (.availability true 100)),
             (.getProduct (.str "PROD002"),
                .ok (.product (.fin (8441434551552573 / 281474976710656)))),
             (.checkAvailability (.str "PROD002") 3, .ok (.availability true 50)),
             (.reserve (.str "PROD001") 5, .ok .done),
             (.reserve (.str "PROD002") 3, .threw plainError),
             (.release (.str "PROD001") 5, .ok .done)] := by decide!
        rw [hcalls]
        intro e he productId quantity error
        simp only [List.mem_cons, List.mem_singleton, List.not_mem_nil, or_false] at he
        rcases he with h | h | h | h | h | h | h <;> rw [h] <;> simp)⟩

/-! ## The recognition of the open circuit -/

/-- C22: an error with none of the three marks (the name `CircuitBreakerOpenError`, a
message that contains `Circuit breaker is open`, `isCircuitBreakerOpen === true`) is not
recognised by `isCircuitBreakerError`; when the product lookup of the first item of an
order throws such an error, order creation answers 404 if the error carries an answer
404 and 500 otherwise, never 503, and stores nothing; the `catch` of the reserve loop
answers 500 for such an error.  The error with which the breaker of the package opossum
rejects a call on an open circuit has the name `Error` and the message
`Breaker is open`: it is such an error. -/
theorem open_rejection_not_recognised {σ : Type} (clients : Clients σ) (item : ItemRequest)
    (rest : List ItemRequest) (iso : String) (store : OrderStore) (w : σ) (error : JsError)
    (hitem : item.productId.truthy = true ∧ 0 < item.quantity)
    (hthrow : (clients.getProduct item.productId w).1 = .error error)
    (hname : error.name ≠ "CircuitBreakerOpenError")
    (hmessage : ∀ m, error.message = some m → includes m "Circuit breaker is open" = false)
    (hflag : error.isCircuitBreakerOpen ≠ .bool true) :
    isCircuitBreakerError error = false ∧
      (createOrder clients (some (item :: rest)) iso store w).answer =
        (if error.responseStatus = some 404 then .productNotFound item.productId
          else .failed error.message) ∧
      (createOrder clients (some (item :: rest)) iso store w).answer.status ≠ 503 ∧
      (createOrder clients (some (item :: rest)) iso store w).store = store ∧
      reserveCatch error = .failed error.message := by
  have hrec : isCircuitBreakerError error = false := by
    unfold isCircuitBreakerError
    cases hm : error.message with
    | none => simp [hname, hflag]
    | some m => simp [hname, hflag, hmessage m hm]
  have hq : invalidQuantity item.quantity = false := by
    have h := hitem.2
    cases hqv : item.quantity with
    | fin a =>
      rw [hqv, Num.zero_def, Num.fin_lt_fin] at h
      simp only [invalidQuantity, Num.truthy, Num.zero_def, Num.fin_le_fin,
        Bool.or_eq_false_iff, Bool.not_eq_false', decide_eq_true_eq,
        decide_eq_false_iff_not, not_le, ne_eq]
      exact ⟨h.ne', h⟩
    | posInf => decide!
    | negInf =>
      rw [hqv] at h
      exact absurd h (by decide!)
    | nan =>
      rw [hqv] at h
      exact absurd h (by decide!)
  have hinv : ¬ (item.productId.truthy = false ∨ invalidQuantity item.quantity = true) := by
    rw [hitem.1, hq]
    simp
  have hv : validateLoop clients (item :: rest) [] 0 w [] =
      ⟨some (validationCatch error item.productId), [], 0,
        (clients.getProduct item.productId w).2,
        [] ++ [(.getProduct item.productId, .threw error)]⟩ := by
    rw [validateLoop, if_neg hinv, hthrow]
  have hcreate : (createOrder clients (some (item :: rest)) iso store w).answer =
      validationCatch error item.productId ∧
      (createOrder clients (some (item :: rest)) iso store w).store = store := by
    simp only [createOrder, hv, and_self]
  have hcatch : validationCatch error item.productId =
      (if error.responseStatus = some 404 then .productNotFound item.productId
        else .failed error.message) := by
    simp only [validationCatch, hrec, Bool.false_eq_true, if_false]
  refine ⟨hrec, hcreate.1.trans hcatch, ?_, hcreate.2, ?_⟩
  · rw [hcreate.1, hcatch]
    split_ifs <;> simp [OrderAnswer.status]
  · simp only [reserveCatch, hrec, Bool.false_eq_true, if_false]

/-- Witness of C22: every call of the clients is rejected with the error of name `Error`
and message `Breaker is open`; the order is answered 500 with that message. -/
theorem open_rejection_not_recognised_witness :
    isCircuitBreakerError plainError = false ∧
      (createOrder openClients (some twoItems) "2024-01-01T00:00:00.000Z" .initial ()).answer =
        (if plainError.responseStatus = some 404 then .productNotFound (.str "PROD001")
          else .failed plainError.message) ∧
      (createOrder openClients (some twoItems) "2024-01-01T00:00:00.000Z"
        .initial ()).answer.status ≠ 503 ∧
      (createOrder openClients (some twoItems) "2024-01-01T00:00:00.000Z" .initial ()).store =
        .initial ∧
      reserveCatch plainError = .failed plainError.message :=
  open_rejection_not_recognised openClients ⟨.str "PROD001", 5⟩ [⟨.str "PROD002", 3⟩]
    "2024-01-01T00:00:00.000Z" .initial () plainError (by decide!) rfl (by decide)
    (by
      intro m hm
      have : m = "Breaker is open" := by
        simp only [plainError, Option.some.injEq] at hm
        exact hm.symm
      rw [this]
      decide)
    (by decide)

end Registry
